import Mathlib

/-!
# Verification of the premium-list-maker core

A shallow embedding, in Lean 4, of the tier-matching and bulk label/tag
ingestion pipeline of the `premium-list-maker` repository, together with
theorems settling the specification claims about it.

Embedded components (Go source file in parentheses):

* pricing tiers and the tier matcher (`internal/generator/premium.go`);
* the label validator (`internal/importer/validate.go`);
* the persistent label/tag store contract (`internal/db/database.go`),
  modelled as a pure relational state: the three tables `labels`, `tags`
  and `label_tags` plus the two autoincrement counters;
* the bulk CSV ingestion engine (`internal/importer/csv.go`);
* the `tag` command's create-label-if-absent path
  (`cmd/premium-list-maker/main.go`).

Modelling conventions:

* Go strings become Lean `String`; byte lengths of ASCII strings coincide
  with character counts, and the model measures characters.
* Go `map` values become Lean functions `String → Option Nat`; updating a
  key becomes function override, which is insensitive to Go's unspecified
  map iteration order (all the merge loops in the source write each key at
  most once per iteration, so iteration order never matters there).
* SQL tables become Lean lists kept in insertion order; `INSERT OR IGNORE`
  becomes append-if-absent; `RETURNING id` on a multi-row insert becomes
  sequential id assignment, which is the order the source relies on.
  Chunking of bulk inserts into groups of 499 rows (the SQLite 999-bound
  parameter limit) does not change the resulting table contents and is not
  reflected in the model.
* monetary amounts (`*float64` carried verbatim, never computed with) are
  modelled as `Option Rat`;
* `idna.Registration.ToUnicode` (an external library call) is abstracted
  as a boolean parameter `aceOk : String → Bool`; every theorem touching
  it quantifies over all such functions.
* transaction commits are given a failure model through an oracle
  `commitOk : Nat → Bool`, consulted at the n-th commit attempt; every
  other store operation is infallible in the model.  A failed periodic
  commit rolls the uncommitted writes back (`current := committed`), which
  is the SQLite behaviour the deferred `tx.Rollback()` produces.
* wall-clock time, memory statistics, heartbeat printing and file I/O are
  not modelled.
-/

namespace PremiumListMaker

/-! ## Data model: tiers and generated entries (`internal/models`, generator) -/

/-- `models.Tier`: a pricing tier from `tiers.json`. -/
structure Tier where
  Tier : Int
  Tags : List String
  Currency : String
  PriceReg : Option Rat
  PriceRen : Option Rat
  PriceRes : Option Rat
deriving DecidableEq

/-- `generator.PremiumListEntry`: a single entry of the generated list. -/
structure PremiumListEntry where
  Label : String
  Tier : Int
  PriceReg : Option Rat
  PriceRen : Option Rat
  PriceRes : Option Rat
  Currency : String
deriving DecidableEq

/-- `generator.hasMatchingTag`: does any tier tag occur in the label's tag
set?  The Go builds a `map[string]bool` from the label's tags; membership
in that map is list membership. -/
def hasMatchingTag (tierTags : List String) (labelTagSet : List String) : Bool :=
  tierTags.any (fun tierTag => labelTagSet.contains tierTag)

/-- The loop body of `generator.findBestTier`: a matching tier replaces
the current `(bestTier, bestTierNum)` pair only when its number is
strictly greater than `bestTierNum`. -/
def bestTierStep (labelTags : List String) (acc : Option Tier × Int) (tier : Tier) :
    Option Tier × Int :=
  if hasMatchingTag tier.Tags labelTags then
    if tier.Tier > acc.2 then (some tier, tier.Tier) else acc
  else acc

/-- `generator.findBestTier`: fold over the tier list keeping the best
(tier, number) pair seen so far, starting from `(nil, -1)`. -/
def findBestTier (labelTags : List String) (tiers : List Tier) : Option Tier :=
  (tiers.foldl (bestTierStep labelTags) (none, -1)).1

/-- The label-matching loop of `generator.GeneratePremiumList`: each label
with a best tier contributes one entry; labels without a matching tier are
dropped. -/
def generateEntries (labelsWithTags : List (String × List String)) (tiers : List Tier) :
    List PremiumListEntry :=
  labelsWithTags.filterMap (fun p =>
    (findBestTier p.2 tiers).map (fun b =>
      { Label := p.1, Tier := b.Tier, PriceReg := b.PriceReg, PriceRen := b.PriceRen
        PriceRes := b.PriceRes, Currency := b.Currency }))


/-! ## Label validator (`internal/importer/validate.go`) -/

/-- The five error values of `importer.ValidateLabel`. -/
inductive LabelError where
  | invalidLength
  | invalidCharacter
  | invalidDash
  | invalidDoubleDash
  | invalidIDN
deriving DecidableEq

/-- One character of the `^[a-z0-9-]+$` alphabet of `validLabelChars`. -/
def validLabelChar (c : Char) : Bool :=
  (decide ('a' ≤ c) && decide (c ≤ 'z')) ||
  (decide ('0' ≤ c) && decide (c ≤ '9')) || (c == '-')

/-- The 4-character ACE prefix `xn--`. -/
def acePrefix : List Char := ['x', 'n', '-', '-']

/-- `importer.ValidateLabel`, with the external
`idna.Registration.ToUnicode` success abstracted as `aceOk`.  Returns
`none` for a valid label, or the first failing check's error.  Go indexes
bytes; on the ASCII alphabet the byte sequence is the character sequence,
and the model uses the character list throughout. -/
def validateLabel (aceOk : String → Bool) (label : String) : Option LabelError :=
  if label.toList.length > 63 ∨ label.toList.length < 1 then some .invalidLength
  else if ¬ label.toList.all validLabelChar then some .invalidCharacter
  else if label.toList.head? = some '-' ∨ label.toList.getLast? = some '-' then
    some .invalidDash
  else if 4 ≤ label.toList.length ∧ label.toList.get? 2 = some '-' ∧
      label.toList.get? 3 = some '-' ∧ ¬ acePrefix.isPrefixOf label.toList then
    some .invalidDoubleDash
  else if acePrefix.isPrefixOf label.toList ∧ ¬ aceOk label then some .invalidIDN
  else none


/-! ## The persistent label/tag store (`internal/db/database.go`)

The relational state: `labels(id, label, length)`, `tags(id, name)`,
`label_tags(label_id, tag_id)`, in insertion order, plus the two
autoincrement counters (SQLite assigns ids from 1). -/

/-- The store state. -/
structure Store where
  labels : List (Nat × String × Nat)
  tags : List (Nat × String)
  labelTags : List (Nat × Nat)
  nextLabelId : Nat
  nextTagId : Nat
deriving DecidableEq

/-- The store with empty tables, as `initSchema` creates it. -/
def Store.empty : Store := ⟨[], [], [], 1, 1⟩

/-- `SELECT id FROM labels WHERE label = ?` (also the per-key view of
`db.LoadAllLabelIDs`). -/
def lookupLabelId (s : Store) (x : String) : Option Nat :=
  (s.labels.find? (fun e => e.2.1 == x)).map (·.1)

/-- `SELECT id FROM tags WHERE name = ?` (also the per-key view of
`db.LoadAllTagIDs`). -/
def lookupTagId (s : Store) (n : String) : Option Nat :=
  (s.tags.find? (fun e => e.2 == n)).map (·.1)

/-- `SELECT name FROM tags WHERE id = ?` (the join direction used by
`GetAllLabelsWithTags`). -/
def lookupTagName (s : Store) (tid : Nat) : Option String :=
  (s.tags.find? (fun e => e.1 == tid)).map (·.2)

/-- `db.GetOrCreateTag` / `db.GetOrCreateTagTx`: select by name, insert on
`ErrNoRows`. -/
def getOrCreateTagTx (s : Store) (n : String) : Nat × Store :=
  match lookupTagId s n with
  | some id => (id, s)
  | none =>
    (s.nextTagId,
     { s with tags := s.tags ++ [(s.nextTagId, n)], nextTagId := s.nextTagId + 1 })

/-- `db.InsertLabel`: `INSERT OR IGNORE`, then fetch the existing id when
the insert was ignored. -/
def insertLabel (s : Store) (label : String) (length : Nat) : Nat × Store :=
  match lookupLabelId s label with
  | some id => (id, s)
  | none =>
    (s.nextLabelId,
     { s with labels := s.labels ++ [(s.nextLabelId, label, length)],
              nextLabelId := s.nextLabelId + 1 })

/-- `db.AddTagToLabel` and one row of `db.BulkAddTagsToLabels`:
`INSERT OR IGNORE INTO label_tags`. -/
def addAssoc (s : Store) (lid tid : Nat) : Store :=
  if (lid, tid) ∈ s.labelTags then s
  else { s with labelTags := s.labelTags ++ [(lid, tid)] }

/-- `db.BulkAddTagsToLabels`: a multi-row `INSERT OR IGNORE`; the 499-row
chunking exists only for SQLite's parameter bound and does not affect the
resulting table. -/
def bulkAddTagsToLabels (s : Store) (assocs : List (Nat × Nat)) : Store :=
  assocs.foldl (fun s a => addAssoc s a.1 a.2) s

/-- `db.LabelData`: one label to be inserted. -/
structure LabelData where
  label : String
  length : Nat
deriving DecidableEq

/-- Override one key of a Go `map[string]int64` modelled as a function. -/
def updateFn (m : String → Option Nat) (k : String) (v : Nat) : String → Option Nat :=
  fun x => if x = k then some v else m x

/-- `db.BulkInsertResult`. -/
structure BulkInsertResult where
  labelMap : String → Option Nat
  newCount : Nat
  existingCount : Nat

/-- State of the partition loop of `db.BulkInsertLabels`. -/
structure BulkPartState where
  labelMap : String → Option Nat
  existingCount : Nat
  seenInBatch : String → Bool
  newLabels : List LabelData

/-- Partition loop of `db.BulkInsertLabels`: entries found in the
pre-loaded map are reported existing; the rest are deduplicated within
the batch and queued for insertion. -/
def bulkPartStep (existingLabelMap : String → Option Nat) (st : BulkPartState)
    (l : LabelData) : BulkPartState :=
  match existingLabelMap l.label with
  | some id =>
    { st with labelMap := updateFn st.labelMap l.label id,
              existingCount := st.existingCount + 1 }
  | none =>
    if st.seenInBatch l.label then st
    else { st with seenInBatch := fun x => x = l.label || st.seenInBatch x,
                   newLabels := st.newLabels ++ [l] }

/-- Insert loop of `db.BulkInsertLabels`: the queued new labels are
inserted in order and `RETURNING id` reports their freshly assigned ids
in the same order (the 499-row chunking does not affect this). -/
def bulkInsertStep (st : (String → Option Nat) × Store) (l : LabelData) :
    (String → Option Nat) × Store :=
  (updateFn st.1 l.label st.2.nextLabelId,
   { st.2 with labels := st.2.labels ++ [(st.2.nextLabelId, l.label, l.length)],
               nextLabelId := st.2.nextLabelId + 1 })

/-- `db.BulkInsertLabels`. -/
def bulkInsertLabels (s : Store) (labels : List LabelData)
    (existingLabelMap : String → Option Nat) : BulkInsertResult × Store :=
  let part := labels.foldl (bulkPartStep existingLabelMap)
    ⟨fun _ => none, 0, fun _ => false, []⟩
  let ins := part.newLabels.foldl bulkInsertStep (part.labelMap, s)
  (⟨ins.1, part.newLabels.length, part.existingCount⟩, ins.2)


/-! ### Reading labels with their tags back out -/

/-- `strings.Split(s, ",")` at character level: splitting the empty
string yields one empty part, and every separator starts a new part. -/
def splitOnComma (cs : List Char) : List (List Char) :=
  cs.foldr
    (fun c acc => if c = ',' then [] :: acc else (c :: acc.headD []) :: acc.tail)
    [[]]

/-- SQLite `GROUP_CONCAT` with the default `,` separator, at character
level. -/
def joinComma : List (List Char) → List Char
  | [] => []
  | [x] => x
  | x :: xs => x ++ ',' :: joinComma xs

/-- `strings.TrimSpace` at character level: drop whitespace from both
ends. -/
def trimChars (cs : List Char) : List Char :=
  ((cs.dropWhile Char.isWhitespace).reverse.dropWhile Char.isWhitespace).reverse

/-- `db.splitTags`: split a comma-separated tag string, trim every part,
drop the empty ones. -/
def splitTags (s : String) : List String :=
  if s = "" then []
  else ((splitOnComma s.toList).map trimChars).filterMap
    (fun t => if t = [] then none else some (String.mk t))

/-- The `GROUP_CONCAT` operand for one label: the names of the tags
associated to it, in association order; associations whose tag id has no
`tags` row contribute `NULL` and are skipped. -/
def tagNamesOf (s : Store) (lid : Nat) : List String :=
  s.labelTags.filterMap (fun a => if a.1 = lid then lookupTagName s a.2 else none)

/-- `db.GetAllLabelsWithTags`: for every label row, `COALESCE` the
concatenated tag names to `''`, then split them back apart, skipping
empty fragments. -/
def getAllLabelsWithTags (s : Store) : List (String × List String) :=
  s.labels.map (fun e =>
    (e.2.1,
     let tagsStr := joinComma ((tagNamesOf s e.1).map String.toList)
     if tagsStr = [] then []
     else (splitTags (String.mk tagsStr)).filter (fun t => t ≠ "")))

/-! ## The bulk ingestion engine (`internal/importer/csv.go`)

`ImportCSV` is modelled as a pure fold over the parsed rows.  A CSV read
either yields a record or a reader error (`RawRow`); end of input is the
end of the list.  The commit oracle numbers the `tx.Commit()` attempts. -/

/-- `tagger.GenerateLengthTag`: the `len:N` tag. -/
def generateLengthTag (length : Nat) : String := "len:" ++ toString length

/-- `strings.ToLower`, character-wise (ASCII; agrees with Go on the data
this tool handles). -/
def toLowerStr (s : String) : String := String.mk (s.data.map Char.toLower)

/-- `strings.ToUpper`, character-wise (ASCII). -/
def toUpperStr (s : String) : String := String.mk (s.data.map Char.toUpper)

/-- `strings.TrimSpace`, character-wise. -/
def trimStr (s : String) : String := String.mk (trimChars s.data)

/-- The fixed header keyword list of `importer.isHeaderRow`. -/
def headerKeywords : List String :=
  ["label", "labels", "domain", "domains", "name", "names", "id", "identifier",
   "string", "strings", "sld", "second level domain", "domain name"]

/-- `importer.isHeaderRow`: keyword match on the trimmed lower-cased
value, or an all-upper-case value longer than 2 characters.  `ImportCSV`
calls this with the already trimmed and lower-cased first field. -/
def isHeaderRow (firstCol : String) : Bool :=
  let firstColLower := toLowerStr (trimStr firstCol)
  if headerKeywords.contains firstColLower then true
  else if firstCol = toUpperStr firstCol ∧ firstCol.length > 1 then
    if firstCol.length > 2 then true else false
  else false

/-- The human messages of the validator errors (quoting punctuation of
the Go `errors.New` texts elided). -/
def labelErrorMessage : LabelError → String
  | .invalidLength => "label is too short or too long"
  | .invalidCharacter => "label contains invalid characters"
  | .invalidDash => "label starts or ends with a hyphen"
  | .invalidDoubleDash => "label contains consecutive hyphens and is not a valid A-label"
  | .invalidIDN => "label is an invalid IDN"

/-- `importer.ImportStats` (wall-clock and memory fields are not
modelled). -/
structure ImportStats where
  imported : Nat
  newLabels : Nat
  existingLabels : Nat
  skipped : Nat
  headerSkipped : Bool
  errors : List String
deriving DecidableEq, Inhabited

/-- One line handed to `ImportCSV` by the CSV reader: a record, or a
reader error. -/
inductive RawRow where
  | readError (msg : String)
  | fields (record : List String)
deriving DecidableEq

/-- The parameters of one `ImportCSV` run.  `batchSize` is the constant
10000 in the source; it is a parameter here so that batching granularity
can be reasoned about.  `commitOk` abstracts which `tx.Commit()` calls
succeed. -/
structure ImportConfig where
  aceOk : String → Bool
  commitOk : Nat → Bool
  batchSize : Nat
  autoTag : Bool
  filenameTag : String

/-- `commitInterval`: commit every 100K labels. -/
def commitInterval : Nat := 100000

/-- The mutable state of one `ImportCSV` run: the transaction (committed
snapshot and current view), the pre-loaded id maps and tag cache, the
resolved filename tag id, the pending batch, the periodic-commit counter,
the reader's line counter, the commit-attempt counter, and the running
statistics. -/
structure ImportState where
  committed : Store
  current : Store
  labelMap : String → Option Nat
  tagMap : String → Option Nat
  tagCache : String → Option Nat
  filenameTagID : Nat
  batch : List LabelData
  labelsProcessed : Nat
  lineNum : Nat
  commitIdx : Nat
  stats : ImportStats

/-- The per-label body of the association-building loop in
`processBatch`: resolve the length tag through cache, pre-loaded map or
`GetOrCreateTagTx`, then append the length and filename associations. -/
structure AssocState where
  associations : List (Nat × Nat)
  tagCache : String → Option Nat
  tagMap : String → Option Nat
  store : Store

def assocStep (cfg : ImportConfig) (labelMap : String → Option Nat) (filenameTagID : Nat)
    (a : AssocState) (l : LabelData) : AssocState :=
  match labelMap l.label with
  | none => a
  | some labelID =>
    let a1 :=
      if cfg.autoTag then
        let lengthTag := generateLengthTag l.length
        match a.tagCache lengthTag with
        | some tagID => { a with associations := a.associations ++ [(labelID, tagID)] }
        | none =>
          match a.tagMap lengthTag with
          | some tagID =>
            { a with associations := a.associations ++ [(labelID, tagID)],
                     tagCache := updateFn a.tagCache lengthTag tagID }
          | none =>
            let r := getOrCreateTagTx a.store lengthTag
            { associations := a.associations ++ [(labelID, r.1)],
              tagCache := updateFn a.tagCache lengthTag r.1,
              tagMap := updateFn a.tagMap lengthTag r.1,
              store := r.2 }
      else a
    if cfg.filenameTag ≠ "" then
      { a1 with associations := a1.associations ++ [(labelID, filenameTagID)] }
    else a1

/-- The `processBatch` closure of `ImportCSV`: bulk-insert the batch
against the pre-loaded map, merge the returned ids, build and bulk-insert
the tag associations, bump the counters, and commit periodically.  On a
commit failure the error is returned and the batch is left unflushed; the
uncommitted writes are rolled back. -/
def processBatch (cfg : ImportConfig) (st : ImportState) : ImportState × Option String :=
  if st.batch.isEmpty then (st, none)
  else
    let ins := bulkInsertLabels st.current st.batch st.labelMap
    let labelMap' := fun x =>
      match ins.1.labelMap x with
      | some v => some v
      | none => st.labelMap x
    let a := st.batch.foldl (assocStep cfg ins.1.labelMap st.filenameTagID)
      ⟨[], st.tagCache, st.tagMap, ins.2⟩
    let cur := if a.associations.isEmpty then a.store
      else bulkAddTagsToLabels a.store a.associations
    let lp := st.labelsProcessed + st.batch.length
    let st' := { st with
      current := cur, labelMap := labelMap', tagCache := a.tagCache, tagMap := a.tagMap,
      labelsProcessed := lp,
      stats := { st.stats with
        imported := st.stats.imported + st.batch.length,
        newLabels := st.stats.newLabels + ins.1.newCount,
        existingLabels := st.stats.existingLabels + ins.1.existingCount } }
    if commitInterval ≤ lp then
      if cfg.commitOk st.commitIdx then
        ({ st' with committed := cur, labelsProcessed := 0,
                    commitIdx := st.commitIdx + 1, batch := [] }, none)
      else
        ({ st' with current := st.committed, commitIdx := st.commitIdx + 1 },
         some "failed to commit transaction")
    else
      ({ st' with batch := [] }, none)

/-- `processBatch` as called from the read loop: a failure is recorded in
the statistics and the run continues. -/
def processBatchChecked (cfg : ImportConfig) (st : ImportState) : ImportState :=
  match processBatch cfg st with
  | (st', none) => st'
  | (st', some e) =>
    { st' with stats := { st'.stats with
        errors := st'.stats.errors ++ ["batch processing error: " ++ e] } }

/-- One iteration of the `ImportCSV` read loop. -/
def importRow (cfg : ImportConfig) (st : ImportState) (row : RawRow) : ImportState :=
  match row with
  | .readError msg =>
    { st with
      stats := { st.stats with errors := st.stats.errors ++
        ["line " ++ toString (st.lineNum + 1) ++ ": " ++ msg] },
      lineNum := st.lineNum + 1 }
  | .fields record =>
    let st := { st with lineNum := st.lineNum + 1 }
    match record with
    | [] => { st with stats := { st.stats with skipped := st.stats.skipped + 1 } }
    | f :: _ =>
      let label := toLowerStr (trimStr f)
      if label = "" then
        { st with stats := { st.stats with skipped := st.stats.skipped + 1 } }
      else if ¬ st.stats.headerSkipped ∧ isHeaderRow label then
        { st with stats := { st.stats with headerSkipped := true,
                                           skipped := st.stats.skipped + 1 } }
      else
        match validateLabel cfg.aceOk label with
        | some err =>
          { st with stats := { st.stats with
              skipped := st.stats.skipped + 1,
              errors := st.stats.errors ++
                ["line " ++ toString st.lineNum ++ ": skipped invalid label " ++
                 label ++ ": " ++ labelErrorMessage err] } }
        | none =>
          let st := { st with batch := st.batch ++ [⟨label, label.length⟩] }
          if cfg.batchSize ≤ st.batch.length then processBatchChecked cfg st else st

/-- The read loop of `ImportCSV`. -/
def importLoop (cfg : ImportConfig) (st : ImportState) (rows : List RawRow) : ImportState :=
  rows.foldl (importRow cfg) st

/-- The pre-create step for the length tags `len:1` .. `len:20`. -/
def preTagStep (st : ImportState) (i : Nat) : ImportState :=
  let lengthTag := generateLengthTag i
  match st.tagMap lengthTag with
  | some tagID => { st with tagCache := updateFn st.tagCache lengthTag tagID }
  | none =>
    let r := getOrCreateTagTx st.current lengthTag
    { st with current := r.2,
              tagCache := updateFn st.tagCache lengthTag r.1,
              tagMap := updateFn st.tagMap lengthTag r.1 }

/-- The filename-tag resolution of the setup phase of `ImportCSV`. -/
def fnameStep (cfg : ImportConfig) (st : ImportState) : ImportState :=
  if cfg.filenameTag ≠ "" then
    match st.tagMap cfg.filenameTag with
    | some tagID => { st with filenameTagID := tagID }
    | none =>
      let r := getOrCreateTagTx st.current cfg.filenameTag
      { st with current := r.2, filenameTagID := r.1,
                tagMap := updateFn st.tagMap cfg.filenameTag r.1 }
  else st

/-- The setup phase of `ImportCSV`: begin the transaction, load both id
maps, pre-create the length tags 1..20 when auto-tagging, resolve the
filename tag when given. -/
def importInit (cfg : ImportConfig) (s0 : Store) : ImportState :=
  let st : ImportState :=
    { committed := s0, current := s0,
      labelMap := fun x => lookupLabelId s0 x,
      tagMap := fun n => lookupTagId s0 n,
      tagCache := fun _ => none,
      filenameTagID := 0, batch := [], labelsProcessed := 0, lineNum := 0,
      commitIdx := 0, stats := ⟨0, 0, 0, 0, false, []⟩ }
  let st1 := if cfg.autoTag then ((List.range 20).map (· + 1)).foldl preTagStep st else st
  fnameStep cfg st1

/-- `importer.ImportCSV`: setup, read loop, trailing batch flush, final
commit.  Returns the committed store and either the statistics or, when
the final commit fails, only the error (the Go function returns
`nil, err` there). -/
def importCSV (cfg : ImportConfig) (s0 : Store) (rows : List RawRow) :
    Store × Except String ImportStats :=
  let stEnd := processBatchChecked cfg (importLoop cfg (importInit cfg s0) rows)
  if 0 < stEnd.labelsProcessed then
    if cfg.commitOk stEnd.commitIdx then (stEnd.current, .ok stEnd.stats)
    else (stEnd.committed, .error "failed to commit final transaction")
  else (stEnd.committed, .ok stEnd.stats)

/-! ### Specification-side normal forms for the ingestion run

These definitions are not translations of source functions; they are the
explicit per-label normal forms that the batched source code is proved
equal to. -/

/-- The labels of a batch that `BulkInsertLabels` actually inserts: not in
the pre-loaded map and not seen earlier in the batch. -/
def newOf (m : String → Option Nat) (seen : String → Bool) : List LabelData → List LabelData
  | [] => []
  | l :: b =>
    match m l.label with
    | some _ => newOf m seen b
    | none =>
      if seen l.label then newOf m seen b
      else l :: newOf m (fun x => x = l.label || seen x) b

/-- The label rows created for a run of fresh inserts starting at a given
id. -/
def newRows (start : Nat) : List LabelData → List (Nat × String × Nat)
  | [] => []
  | l :: ls => (start, l.label, l.length) :: newRows (start + 1) ls

/-- The store effect of one batch element of `BulkInsertLabels`: an
insert-if-absent. -/
def insertLabelOnly (s : Store) (l : LabelData) : Store :=
  (insertLabel s l.label l.length).2

/-- The association work of `processBatch` for one batch element, applied
immediately instead of being accumulated: resolve the length tag
(get-or-create) and add the length and filename associations. -/
def canonTagAssoc (cfg : ImportConfig) (resMap : String → Option Nat) (fid : Nat)
    (s : Store) (l : LabelData) : Store :=
  match resMap l.label with
  | none => s
  | some lid =>
    let s2 :=
      if cfg.autoTag then
        let r := getOrCreateTagTx s (generateLengthTag l.length)
        addAssoc r.2 lid r.1
      else s
    if cfg.filenameTag ≠ "" then addAssoc s2 lid fid else s2

/-- The whole per-label effect of the ingestion on the store: insert the
label if absent, then add its tag associations. -/
def ingestLabel (cfg : ImportConfig) (fid : Nat) (s : Store) (l : LabelData) : Store :=
  let r1 := insertLabel s l.label l.length
  let s2 :=
    if cfg.autoTag then
      let r2 := getOrCreateTagTx r1.2 (generateLengthTag l.length)
      addAssoc r2.2 r1.1 r2.1
    else r1.2
  if cfg.filenameTag ≠ "" then addAssoc s2 r1.1 fid else s2

/-- The row-classification state: `ImportCSV`'s per-row decisions,
stripped of all store interaction. -/
structure RowClass where
  accepted : List LabelData
  skipped : Nat
  headerSkipped : Bool
  errors : List String
  lineNum : Nat
deriving DecidableEq

/-- The classification of one row, mirroring the read loop of
`ImportCSV`. -/
def classifyRow (aceOk : String → Bool) (c : RowClass) (row : RawRow) : RowClass :=
  match row with
  | .readError msg =>
    { c with errors := c.errors ++ ["line " ++ toString (c.lineNum + 1) ++ ": " ++ msg],
             lineNum := c.lineNum + 1 }
  | .fields record =>
    let c := { c with lineNum := c.lineNum + 1 }
    match record with
    | [] => { c with skipped := c.skipped + 1 }
    | f :: _ =>
      let label := toLowerStr (trimStr f)
      if label = "" then { c with skipped := c.skipped + 1 }
      else if ¬ c.headerSkipped ∧ isHeaderRow label then
        { c with headerSkipped := true, skipped := c.skipped + 1 }
      else
        match validateLabel aceOk label with
        | some err =>
          { c with skipped := c.skipped + 1,
                   errors := c.errors ++
                     ["line " ++ toString c.lineNum ++ ": skipped invalid label " ++
                      label ++ ": " ++ labelErrorMessage err] }
        | none => { c with accepted := c.accepted ++ [⟨label, label.length⟩] }

/-- Classify a whole input. -/
def classify (aceOk : String → Bool) (rows : List RawRow) : RowClass :=
  rows.foldl (classifyRow aceOk) ⟨[], 0, false, [], 0⟩

/-- The canonical final store of a successful run: the setup store,
ingesting every accepted label in order; the initial store when nothing
was accepted (the transaction is rolled back without a commit then). -/
def canonStore (cfg : ImportConfig) (s0 : Store) (rows : List RawRow) : Store :=
  let init := importInit cfg s0
  let acc := (classify cfg.aceOk rows).accepted
  if acc.isEmpty then s0
  else acc.foldl (ingestLabel cfg init.filenameTagID) init.current

/-! ### The `tag` command (`cmd/premium-list-maker/main.go`) -/

/-- The number of UTF-8 bytes encoding one character, as in Go's string
representation. -/
def charBytes (c : Char) : Nat :=
  if c.toNat < 128 then 1
  else if c.toNat < 2048 then 2
  else if c.toNat < 65536 then 3
  else 4

/-- Go's `len` on a string: the UTF-8 byte count, not the character
count. The two agree exactly on ASCII strings. -/
def utf8Len (s : String) : Nat :=
  s.data.foldl (fun n c => n + charBytes c) 0

/-- `main.runTag`: look the label up, insert it verbatim (with its Go
byte length `len(label)`, i.e. its UTF-8 byte count) when absent, then
get-or-create every tag and associate it. The CLI argument is not
trimmed, lower-cased or validated. -/
def runTag (s : Store) (label : String) (tags : List String) : Store :=
  let (labelID, s1) :=
    match lookupLabelId s label with
    | some id => (id, s)
    | none => insertLabel s label (utf8Len label)
  tags.foldl (fun s tagName =>
    let (tagID, s') := getOrCreateTagTx s tagName
    addAssoc s' labelID tagID) s1

/-- The label-row invariant of the specification: unique texts, each a
lowercase string of 1–63 characters over `[a-z0-9-]`, with the stored
length equal to the character count of the text. -/
def labelRowWF (s : Store) : Prop :=
  (s.labels.map (fun e => e.2.1)).Nodup ∧
  ∀ e ∈ s.labels,
    1 ≤ e.2.1.toList.length ∧ e.2.1.toList.length ≤ 63 ∧
    (∀ c ∈ e.2.1.toList, ('a' ≤ c ∧ c ≤ 'z') ∨ ('0' ≤ c ∧ c ≤ '9') ∨ c = '-') ∧
    e.2.2 = e.2.1.length

/-- The part of the label-row invariant that every insert path does keep:
unique texts and stored length equal to the text's character count. -/
def labelRowWeakWF (s : Store) : Prop :=
  (s.labels.map (fun e => e.2.1)).Nodup ∧
  ∀ e ∈ s.labels, e.2.2 = e.2.1.length

instance (s : Store) : Decidable (labelRowWF s) := by
  unfold labelRowWF
  infer_instance

instance (s : Store) : Decidable (labelRowWeakWF s) := by
  unfold labelRowWeakWF
  infer_instance

/-- The association fold performed by `processBatch` on the current
batch (an abbreviation for the fold inside `processBatch`). -/
def flushAssoc (cfg : ImportConfig) (st : ImportState) : AssocState :=
  st.batch.foldl
    (assocStep cfg (bulkInsertLabels st.current st.batch st.labelMap).1.labelMap
      st.filenameTagID)
    ⟨[], st.tagCache, st.tagMap, (bulkInsertLabels st.current st.batch st.labelMap).2⟩

/-- The running coherence invariant of the `ImportCSV` read loop,
relating the import state to the pure row classification: `flushed` is
the list of accepted labels already handed to `processBatch`, `sInit`
the store right after setup, `fid0` the resolved filename-tag id and
`s0` the store the run started from. -/
def LoopInv (cfg : ImportConfig) (s0 sInit : Store) (fid0 : Nat)
    (st : ImportState) (c : RowClass) (flushed : List LabelData) : Prop :=
  (∀ x, st.labelMap x = lookupLabelId st.current x) ∧
  (∀ n, st.tagMap n = lookupTagId st.current n) ∧
  (∀ n id, st.tagCache n = some id → st.tagMap n = some id) ∧
  st.filenameTagID = fid0 ∧
  c.accepted = flushed ++ st.batch ∧
  st.current = flushed.foldl (ingestLabel cfg fid0) sInit ∧
  st.batch.length < cfg.batchSize ∧
  st.lineNum = c.lineNum ∧
  st.stats.skipped = c.skipped ∧
  st.stats.headerSkipped = c.headerSkipped ∧
  st.stats.errors = c.errors ∧
  st.stats.imported = flushed.length ∧
  (flushed = [] → st.labelsProcessed = 0 ∧ st.committed = s0) ∧
  (st.labelsProcessed = 0 → st.committed = st.current ∨ flushed = [])

/-! ## Theorems -/

/-! ## Analysis of the tier-matching fold -/

/-- Invariant of the `findBestTier` fold: the running number never
decreases, it bounds every matching tier of the processed list, and the
result is either the untouched accumulator or `(some b, b.Tier)` for a
matching tier `b` that strictly dominates the accumulator and every
earlier matching tier, and is not exceeded by any later matching tier. -/
theorem bestTier_foldl_spec (labelTags : List String) (tiers : List Tier) :
    ∀ acc : Option Tier × Int,
      acc.2 ≤ (tiers.foldl (bestTierStep labelTags) acc).2 ∧
      (∀ t ∈ tiers, hasMatchingTag t.Tags labelTags = true →
        t.Tier ≤ (tiers.foldl (bestTierStep labelTags) acc).2) ∧
      (tiers.foldl (bestTierStep labelTags) acc = acc ∨
        ∃ l1 b l2, tiers = l1 ++ b :: l2 ∧ hasMatchingTag b.Tags labelTags = true ∧
          tiers.foldl (bestTierStep labelTags) acc = (some b, b.Tier) ∧
          acc.2 < b.Tier ∧
          (∀ t ∈ l1, hasMatchingTag t.Tags labelTags = true → t.Tier < b.Tier) ∧
          (∀ t ∈ l2, hasMatchingTag t.Tags labelTags = true → t.Tier ≤ b.Tier)) := by
  induction tiers with
  | nil =>
    intro acc
    refine ⟨le_refl _, ?_, Or.inl rfl⟩
    intro t ht; simp at ht
  | cons tier rest ih =>
    intro acc
    rw [List.foldl_cons]
    by_cases hm : hasMatchingTag tier.Tags labelTags = true
    · by_cases hgt : tier.Tier > acc.2
      · have hstep : bestTierStep labelTags acc tier = (some tier, tier.Tier) := by
          simp [bestTierStep, hm, hgt]
        rw [hstep]
        obtain ⟨ih1, ih2, ih3⟩ := ih (some tier, tier.Tier)
        refine ⟨?_, ?_, ?_⟩
        · exact le_trans (le_of_lt hgt) ih1
        · intro t ht hmt
          rcases List.mem_cons.mp ht with h | h
          · subst h; exact ih1
          · exact ih2 t h hmt
        · rcases ih3 with heq | ⟨l1, b, l2, hsplit, hmb, hres, hlt, hl1, hl2⟩
          · refine Or.inr ⟨[], tier, rest, rfl, hm, heq, hgt, ?_, ?_⟩
            · intro t ht; simp at ht
            · intro t ht hmt
              have := ih2 t ht hmt
              rw [heq] at this; exact this
          · refine Or.inr ⟨tier :: l1, b, l2, by rw [hsplit]; rfl, hmb, hres, ?_, ?_, hl2⟩
            · exact lt_trans hgt hlt
            · intro t ht hmt
              rcases List.mem_cons.mp ht with h | h
              · subst h; exact hlt
              · exact hl1 t h hmt
      · have hstep : bestTierStep labelTags acc tier = acc := by
          simp [bestTierStep, hm, hgt]
        rw [hstep]
        obtain ⟨ih1, ih2, ih3⟩ := ih acc
        refine ⟨ih1, ?_, ?_⟩
        · intro t ht hmt
          rcases List.mem_cons.mp ht with h | h
          · subst h; exact le_trans (not_lt.mp hgt) ih1
          · exact ih2 t h hmt
        · rcases ih3 with heq | ⟨l1, b, l2, hsplit, hmb, hres, hlt, hl1, hl2⟩
          · exact Or.inl heq
          · refine Or.inr ⟨tier :: l1, b, l2, by rw [hsplit]; rfl, hmb, hres, hlt, ?_, hl2⟩
            intro t ht hmt
            rcases List.mem_cons.mp ht with h | h
            · subst h; exact lt_of_le_of_lt (not_lt.mp hgt) hlt
            · exact hl1 t h hmt
    · have hstep : bestTierStep labelTags acc tier = acc := by
        simp [bestTierStep, hm]
      rw [hstep]
      obtain ⟨ih1, ih2, ih3⟩ := ih acc
      refine ⟨ih1, ?_, ?_⟩
      · intro t ht hmt
        rcases List.mem_cons.mp ht with h | h
        · subst h; exact absurd hmt hm
        · exact ih2 t h hmt
      · rcases ih3 with heq | ⟨l1, b, l2, hsplit, hmb, hres, hlt, hl1, hl2⟩
        · exact Or.inl heq
        · refine Or.inr ⟨tier :: l1, b, l2, by rw [hsplit]; rfl, hmb, hres, hlt, ?_, hl2⟩
          intro t ht hmt
          rcases List.mem_cons.mp ht with h | h
          · subst h; exact absurd hmt hm
          · exact hl1 t h hmt

/-- If no tier's trigger tags intersect the label's tags, the fold never
replaces the initial `(nil, -1)` accumulator. -/
theorem findBestTier_eq_none_of_no_match (tags : List String) (tiers : List Tier)
    (h : ∀ t ∈ tiers, hasMatchingTag t.Tags tags = false) :
    findBestTier tags tiers = none := by
  obtain ⟨-, -, h3⟩ := bestTier_foldl_spec tags tiers (none, -1)
  rcases h3 with heq | ⟨l1, b, l2, hsplit, hmb, -, -, -, -⟩
  · unfold findBestTier; rw [heq]
  · have hb : b ∈ tiers := by
      rw [hsplit]; exact List.mem_append_right _ (List.mem_cons_self _ _)
    rw [h b hb] at hmb; cases hmb

/-- A returned best tier matches, splits the tier list around itself,
strictly dominates every earlier matching tier and is not exceeded by any
later matching tier. -/
theorem findBestTier_some_spec (tags : List String) (tiers : List Tier) (b : Tier)
    (h : findBestTier tags tiers = some b) :
    ∃ l1 l2, tiers = l1 ++ b :: l2 ∧ hasMatchingTag b.Tags tags = true ∧
      (∀ t ∈ l1, hasMatchingTag t.Tags tags = true → t.Tier < b.Tier) ∧
      (∀ t ∈ l2, hasMatchingTag t.Tags tags = true → t.Tier ≤ b.Tier) := by
  obtain ⟨-, -, h3⟩ := bestTier_foldl_spec tags tiers (none, -1)
  rcases h3 with heq | ⟨l1, b', l2, hsplit, hmb, hres, -, hl1, hl2⟩
  · unfold findBestTier at h; rw [heq] at h; cases h
  · unfold findBestTier at h; rw [hres] at h
    cases h
    exact ⟨l1, l2, hsplit, hmb, hl1, hl2⟩

/-- The numeric bound from the fold, packaged for a `some` result: every
matching tier's number is at most the chosen one's. -/
theorem findBestTier_some_max (tags : List String) (tiers : List Tier) (b : Tier)
    (h : findBestTier tags tiers = some b) :
    b ∈ tiers ∧ hasMatchingTag b.Tags tags = true ∧
      ∀ t ∈ tiers, hasMatchingTag t.Tags tags = true → t.Tier ≤ b.Tier := by
  obtain ⟨l1, l2, hsplit, hmb, hl1, hl2⟩ := findBestTier_some_spec tags tiers b h
  subst hsplit
  refine ⟨List.mem_append_right _ (List.mem_cons_self _ _), hmb, ?_⟩
  intro t ht hmt
  rcases List.mem_append.mp ht with h1 | h2
  · exact le_of_lt (hl1 t h1 hmt)
  · rcases List.mem_cons.mp h2 with rfl | h2
    · exact le_refl _
    · exact hl2 t h2 hmt

/-- **C1** (amended).  For tier definition sets whose numeric identifiers
are all non-negative, the generator assigns each label the tier whose
number is the maximum over the tiers whose trigger-tag set intersects the
label's tag set; a tier with an empty trigger-tag set matches no label;
and a label matched by no tier is omitted from the output entirely.
(The amendment restricts the claim to non-negative identifiers: the
fold's `-1` start value silently discards matching tiers with negative
numbers, see the counterexample.) -/
theorem claim1_tier_resolution (labelTags : List String) (tiers : List Tier)
    (hpos : ∀ t ∈ tiers, 0 ≤ t.Tier) :
    hasMatchingTag [] labelTags = false ∧
    (findBestTier labelTags tiers = none ↔
      ∀ t ∈ tiers, hasMatchingTag t.Tags labelTags = false) ∧
    (∀ b, findBestTier labelTags tiers = some b →
      b ∈ tiers ∧ hasMatchingTag b.Tags labelTags = true ∧
      ∀ t ∈ tiers, hasMatchingTag t.Tags labelTags = true → t.Tier ≤ b.Tier) ∧
    (∀ (pairs : List (String × List String)) (lbl : String) (tags : List String),
      (pairs.map Prod.fst).Nodup → (lbl, tags) ∈ pairs →
      (∀ t ∈ tiers, hasMatchingTag t.Tags tags = false) →
      ∀ e ∈ generateEntries pairs tiers, e.Label ≠ lbl) := by
  refine ⟨rfl, ⟨?_, findBestTier_eq_none_of_no_match labelTags tiers⟩, ?_, ?_⟩
  · intro hnone t ht
    cases hmt : hasMatchingTag t.Tags labelTags
    · rfl
    · exfalso
      obtain ⟨-, h2, h3⟩ := bestTier_foldl_spec labelTags tiers (none, -1)
      rcases h3 with heq | ⟨l1, b', l2, hsplit, hmb, hres, -, -, -⟩
      · have hle := h2 t ht hmt
        rw [heq] at hle
        have := hpos t ht
        omega
      · unfold findBestTier at hnone; rw [hres] at hnone; cases hnone
  · exact findBestTier_some_max labelTags tiers
  · intro pairs lbl tags hnd hmem hnomatch e he helabel
    obtain ⟨p, hp, hpe⟩ := List.mem_filterMap.mp he
    obtain ⟨b, hb, rfl⟩ := Option.map_eq_some'.mp hpe
    have hfst : p.1 = lbl := helabel
    have : p = (lbl, tags) := by
      have := List.inj_on_of_nodup_map hnd hp hmem
      exact this hfst
    rw [this] at hb
    rw [findBestTier_eq_none_of_no_match tags tiers hnomatch] at hb
    cases hb

/-- Witness for C1: a two-tier set where both tiers match and the one
numbered 10 wins (the worked example of the specification). -/
theorem claim1_tier_resolution_witness :
    (∀ t ∈ ([⟨10, ["len:1", "2 letter"], "usd", none, none, none⟩,
             ⟨9, ["2 letter"], "usd", none, none, none⟩] : List Tier), 0 ≤ t.Tier) ∧
    (hasMatchingTag [] ["len:2", "2 letter"] = false ∧
     (findBestTier ["len:2", "2 letter"]
        [⟨10, ["len:1", "2 letter"], "usd", none, none, none⟩,
         ⟨9, ["2 letter"], "usd", none, none, none⟩] = none ↔
       ∀ t ∈ ([⟨10, ["len:1", "2 letter"], "usd", none, none, none⟩,
               ⟨9, ["2 letter"], "usd", none, none, none⟩] : List Tier),
         hasMatchingTag t.Tags ["len:2", "2 letter"] = false) ∧
     (∀ b, findBestTier ["len:2", "2 letter"]
        [⟨10, ["len:1", "2 letter"], "usd", none, none, none⟩,
         ⟨9, ["2 letter"], "usd", none, none, none⟩] = some b →
       b ∈ ([⟨10, ["len:1", "2 letter"], "usd", none, none, none⟩,
             ⟨9, ["2 letter"], "usd", none, none, none⟩] : List Tier) ∧
       hasMatchingTag b.Tags ["len:2", "2 letter"] = true ∧
       ∀ t ∈ ([⟨10, ["len:1", "2 letter"], "usd", none, none, none⟩,
               ⟨9, ["2 letter"], "usd", none, none, none⟩] : List Tier),
         hasMatchingTag t.Tags ["len:2", "2 letter"] = true → t.Tier ≤ b.Tier) ∧
     (∀ (pairs : List (String × List String)) (lbl : String) (tags : List String),
       (pairs.map Prod.fst).Nodup → (lbl, tags) ∈ pairs →
       (∀ t ∈ ([⟨10, ["len:1", "2 letter"], "usd", none, none, none⟩,
                ⟨9, ["2 letter"], "usd", none, none, none⟩] : List Tier),
         hasMatchingTag t.Tags tags = false) →
       ∀ e ∈ generateEntries pairs
         [⟨10, ["len:1", "2 letter"], "usd", none, none, none⟩,
          ⟨9, ["2 letter"], "usd", none, none, none⟩], e.Label ≠ lbl)) :=
  ⟨by decide, claim1_tier_resolution ["len:2", "2 letter"] _ (by decide)⟩

/-- **C1** (counterexample to the claim as stated).  A single matching
tier numbered `-1`: the maximum of the matching tier numbers is `-1`, so
the claim assigns the label that tier, but `findBestTier` returns `nil`
and the generator omits the label. -/
theorem claim1_counterexample_negative_tier :
    hasMatchingTag (["premium"] : List String) ["premium"] = true ∧
    findBestTier ["premium"] [⟨-1, ["premium"], "usd", none, none, none⟩] = none ∧
    generateEntries [("abc", ["premium"])] [⟨-1, ["premium"], "usd", none, none, none⟩] = [] :=
  ⟨rfl, rfl, rfl⟩

/-- **C4** (amended).  When the maximal matching tier number is attained
more than once, the selected tier is the *first* matching tier attaining
it in iteration order, not the last: every matching tier before the
result is strictly smaller, every one after it is no greater. -/
theorem claim4_tie_breaks_to_first (labelTags : List String) (tiers : List Tier) (b : Tier)
    (h : findBestTier labelTags tiers = some b) :
    ∃ l1 l2, tiers = l1 ++ b :: l2 ∧ hasMatchingTag b.Tags labelTags = true ∧
      (∀ t ∈ l1, hasMatchingTag t.Tags labelTags = true → t.Tier < b.Tier) ∧
      (∀ t ∈ l2, hasMatchingTag t.Tags labelTags = true → t.Tier ≤ b.Tier) :=
  findBestTier_some_spec labelTags tiers b h

/-- Witness for C4: two tiers tied at number 5, both matching; the first
one is returned. -/
theorem claim4_tie_breaks_to_first_witness :
    findBestTier ["a"] [⟨5, ["a"], "usd", none, none, none⟩,
                        ⟨5, ["a"], "eur", none, none, none⟩] =
      some ⟨5, ["a"], "usd", none, none, none⟩ ∧
    (∃ l1 l2, ([⟨5, ["a"], "usd", none, none, none⟩,
                ⟨5, ["a"], "eur", none, none, none⟩] : List Tier) =
        l1 ++ (⟨5, ["a"], "usd", none, none, none⟩ : Tier) :: l2 ∧
      hasMatchingTag (Tier.Tags ⟨5, ["a"], "usd", none, none, none⟩) ["a"] = true ∧
      (∀ t ∈ l1, hasMatchingTag t.Tags ["a"] = true →
        t.Tier < Tier.Tier ⟨5, ["a"], "usd", none, none, none⟩) ∧
      (∀ t ∈ l2, hasMatchingTag t.Tags ["a"] = true →
        t.Tier ≤ Tier.Tier ⟨5, ["a"], "usd", none, none, none⟩)) :=
  ⟨rfl, claim4_tie_breaks_to_first ["a"] _ _ rfl⟩

/-- **C4** (counterexample to the claim as stated).  Two distinct tiers
share the maximal number 5 and both match; the claim says the last one
(currency `eur`) is selected, but the first one (currency `usd`) is. -/
theorem claim4_counterexample_first_not_last :
    findBestTier ["a"] [⟨5, ["a"], "usd", none, none, none⟩,
                        ⟨5, ["a"], "eur", none, none, none⟩] =
      some ⟨5, ["a"], "usd", none, none, none⟩ ∧
    (⟨5, ["a"], "usd", none, none, none⟩ : Tier) ≠ ⟨5, ["a"], "eur", none, none, none⟩ :=
  ⟨rfl, by decide⟩

/-- The full characterization of the validator (shared helper). -/
theorem validateLabel_none_iff (aceOk : String → Bool) (label : String) :
    validateLabel aceOk label = none ↔
      (1 ≤ label.toList.length ∧ label.toList.length ≤ 63 ∧
       (∀ c ∈ label.toList,
         ('a' ≤ c ∧ c ≤ 'z') ∨ ('0' ≤ c ∧ c ≤ '9') ∨ c = '-') ∧
       label.toList.head? ≠ some '-' ∧ label.toList.getLast? ≠ some '-' ∧
       (label.toList.get? 2 = some '-' ∧ label.toList.get? 3 = some '-' →
         acePrefix.isPrefixOf label.toList) ∧
       (acePrefix.isPrefixOf label.toList → aceOk label = true)) := by
  have hchar : ∀ c : Char, validLabelChar c = true ↔
      (('a' ≤ c ∧ c ≤ 'z') ∨ ('0' ≤ c ∧ c ≤ '9') ∨ c = '-') := by
    intro c
    simp [validLabelChar, Bool.or_eq_true, Bool.and_eq_true, decide_eq_true_eq,
      beq_iff_eq, or_assoc]
  have hpos34 : label.toList.get? 3 = some '-' → 4 ≤ label.toList.length := by
    intro h
    obtain ⟨hlt, -⟩ := List.get?_eq_some.mp h
    omega
  constructor
  · intro h
    unfold validateLabel at h
    split_ifs at h with h1 h2 h3 h4 h5
    push_neg at h1 h3
    refine ⟨h1.2, h1.1, ?_, h3.1, h3.2, ?_, ?_⟩
    · intro c hc
      exact (hchar c).mp (List.all_eq_true.mp h2 c hc)
    · rintro ⟨hc2, hc3⟩
      by_contra hnp
      exact h4 ⟨hpos34 hc3, hc2, hc3, hnp⟩
    · intro hp
      by_contra hna
      exact h5 ⟨hp, hna⟩
  · rintro ⟨hlen1, hlen63, hchars, hhead, hlast, hdd, hace⟩
    have h1 : ¬ (label.toList.length > 63 ∨ label.toList.length < 1) := by omega
    have h2 : label.toList.all validLabelChar = true :=
      List.all_eq_true.mpr fun c hc => (hchar c).mpr (hchars c hc)
    have h3 : ¬ (label.toList.head? = some '-' ∨ label.toList.getLast? = some '-') := by
      push_neg; exact ⟨hhead, hlast⟩
    have h4 : ¬ (4 ≤ label.toList.length ∧ label.toList.get? 2 = some '-' ∧
        label.toList.get? 3 = some '-' ∧ ¬ acePrefix.isPrefixOf label.toList) := by
      rintro ⟨-, hc2, hc3, hnp⟩
      exact hnp (hdd ⟨hc2, hc3⟩)
    have h5 : ¬ ((acePrefix.isPrefixOf label.toList : Prop) ∧ ¬ aceOk label) := by
      rintro ⟨hp, hna⟩
      exact hna (hace hp)
    unfold validateLabel
    rw [if_neg h1, if_neg (not_not_intro h2), if_neg h3, if_neg h4, if_neg h5]

/-- **C2** (confirmed).  For every ACE checker and every label,
`ValidateLabel` accepts exactly when: the length is between 1 and 63,
every character is in `[a-z0-9-]`, the label neither starts nor ends with
a hyphen, hyphens at (1-indexed) positions 3 and 4 force the `xn--`
prefix, and a label starting with `xn--` passes the ACE decoding check. -/
theorem claim2_validate_label_iff (aceOk : String → Bool) (label : String) :
    validateLabel aceOk label = none ↔
      (1 ≤ label.toList.length ∧ label.toList.length ≤ 63 ∧
       (∀ c ∈ label.toList,
         ('a' ≤ c ∧ c ≤ 'z') ∨ ('0' ≤ c ∧ c ≤ '9') ∨ c = '-') ∧
       label.toList.head? ≠ some '-' ∧ label.toList.getLast? ≠ some '-' ∧
       (label.toList.get? 2 = some '-' ∧ label.toList.get? 3 = some '-' →
         acePrefix.isPrefixOf label.toList) ∧
       (acePrefix.isPrefixOf label.toList → aceOk label = true)) :=
  validateLabel_none_iff aceOk label

/-! ### Splitting the concatenated tag string (`GetAllLabelsWithTags`) -/

/-- The cons unfolding of `splitOnComma`. -/
theorem splitOnComma_cons (c : Char) (cs : List Char) :
    splitOnComma (c :: cs) =
      if c = ',' then [] :: splitOnComma cs
      else (c :: (splitOnComma cs).headD []) :: (splitOnComma cs).tail := rfl

theorem splitOnComma_ne_nil (cs : List Char) : splitOnComma cs ≠ [] := by
  cases cs with
  | nil => simp [splitOnComma]
  | cons c cs => rw [splitOnComma_cons]; split <;> simp

/-- Splitting distributes over a separator occurrence. -/
theorem splitOnComma_append (xs ys : List Char) :
    splitOnComma (xs ++ ',' :: ys) = splitOnComma xs ++ splitOnComma ys := by
  induction xs with
  | nil =>
    simp only [List.nil_append, splitOnComma_cons, if_pos rfl]
    rfl
  | cons c xs ih =>
    simp only [List.cons_append, splitOnComma_cons, ih]
    obtain ⟨g, gs, hA⟩ := List.exists_cons_of_ne_nil (splitOnComma_ne_nil xs)
    rw [hA]
    split <;> simp

/-- A comma-free string is a single fragment. -/
theorem splitOnComma_no_comma (cs : List Char) (h : ',' ∉ cs) :
    splitOnComma cs = [cs] := by
  induction cs with
  | nil => rfl
  | cons c cs ih =>
    have hc : ¬ c = ',' := by rintro rfl; exact h (List.mem_cons_self _ _)
    rw [splitOnComma_cons, if_neg hc, ih (fun hm => h (List.mem_cons_of_mem c hm))]
    rfl

/-- Fragments of a split contain no separator. -/
theorem no_comma_of_mem_splitOnComma (cs : List Char) :
    ∀ g ∈ splitOnComma cs, ',' ∉ g := by
  induction cs with
  | nil =>
    intro g hg
    simp only [splitOnComma, List.foldr_nil, List.mem_singleton] at hg
    simp [hg]
  | cons c cs ih =>
    intro g hg
    rw [splitOnComma_cons] at hg
    obtain ⟨g', gs', hA⟩ := List.exists_cons_of_ne_nil (splitOnComma_ne_nil cs)
    by_cases hc : c = ','
    · rw [if_pos hc] at hg
      rcases List.mem_cons.mp hg with rfl | hmem
      · simp
      · exact ih g hmem
    · rw [if_neg hc, hA] at hg
      simp only [List.headD_cons, List.tail_cons] at hg
      rcases List.mem_cons.mp hg with rfl | hmem
      · intro hm
        rcases List.mem_cons.mp hm with rfl | hm
        · exact hc rfl
        · exact ih g' (hA ▸ List.mem_cons_self _ _) hm
      · exact ih g (hA ▸ List.mem_cons_of_mem _ hmem)

/-- Trimming keeps a sublist of the characters. -/
theorem mem_of_mem_trimChars (cs : List Char) (x : Char) (hx : x ∈ trimChars cs) :
    x ∈ cs := by
  unfold trimChars at hx
  rw [List.mem_reverse] at hx
  have h1 := (List.dropWhile_sublist (l := (cs.dropWhile Char.isWhitespace).reverse)
    Char.isWhitespace).mem hx
  rw [List.mem_reverse] at h1
  exact (List.dropWhile_sublist (l := cs) Char.isWhitespace).mem h1

/-- `joinComma` is empty only for no parts or a single empty part. -/
theorem joinComma_eq_nil : ∀ css : List (List Char), joinComma css = [] →
    css = [] ∨ css = [[]]
  | [], _ => Or.inl rfl
  | [x], h => by
    right; rw [show joinComma [x] = x from rfl] at h; rw [h]
  | x :: y :: rest, h => by
    rw [show joinComma (x :: y :: rest) = x ++ ',' :: joinComma (y :: rest) from rfl] at h
    rcases List.append_eq_nil.mp h with ⟨-, h2⟩
    cases h2

/-- `splitTags` with the leading empty-string guard removed: the guard is
redundant, splitting the empty string yields one empty fragment that the
trailing filter drops. -/
theorem splitTags_eq_fragments (n : String) :
    splitTags n = ((splitOnComma n.toList).map trimChars).filterMap
      (fun t => if t = [] then none else some (String.mk t)) := by
  unfold splitTags
  split
  · rename_i h
    subst h
    rfl
  · rfl

/-- Splitting the comma-joined parts recovers the splits of the parts. -/
theorem splitOnComma_joinComma : ∀ css : List (List Char), css ≠ [] →
    splitOnComma (joinComma css) = css.flatMap splitOnComma
  | [], h => absurd rfl h
  | [x], _ => by simp [joinComma]
  | x :: y :: rest, _ => by
    rw [show joinComma (x :: y :: rest) = x ++ ',' :: joinComma (y :: rest) from rfl,
      splitOnComma_append, splitOnComma_joinComma (y :: rest) (by simp)]
    simp

/-- Every tag produced by `splitTags` is nonempty and comma-free. -/
theorem splitTags_wellformed (n : String) (t : String) (ht : t ∈ splitTags n) :
    t ≠ "" ∧ ',' ∉ t.toList := by
  rw [splitTags_eq_fragments] at ht
  obtain ⟨u, hu, hut⟩ := List.mem_filterMap.mp ht
  obtain ⟨g, hg, rfl⟩ := List.mem_map.mp hu
  by_cases hnil : trimChars g = []
  · rw [if_pos hnil] at hut; cases hut
  · rw [if_neg hnil] at hut
    cases hut
    constructor
    · intro h
      exact hnil (by rwa [String.ext_iff] at h)
    · intro hc
      exact no_comma_of_mem_splitOnComma n.toList g hg (mem_of_mem_trimChars _ _ hc)

/-- The whole fragment pipeline on a comma-joined name list equals the
per-name fragments, concatenated. -/
theorem fragments_joinComma (names : List String) (h : names ≠ []) :
    ((splitOnComma (joinComma (names.map String.toList))).map trimChars).filterMap
        (fun t => if t = [] then none else some (String.mk t)) =
      names.flatMap splitTags := by
  rw [splitOnComma_joinComma (names.map String.toList) (by simpa using h)]
  rw [List.flatMap_map (g := splitOnComma) (f := String.toList)]
  rw [List.map_flatMap, List.filterMap_flatMap]
  exact List.flatMap_congr fun n _ => (splitTags_eq_fragments n).symm

/-- The tag list computed for one label equals the per-name `splitTags`
fragments of its associated tag names. -/
theorem labelTags_eq_flatMap (names : List String) :
    (let tagsStr := joinComma (names.map String.toList)
     if tagsStr = [] then []
     else (splitTags (String.mk tagsStr)).filter (fun t => t ≠ "")) =
      names.flatMap splitTags := by
  by_cases hjoin : joinComma (names.map String.toList) = []
  · rw [if_pos hjoin]
    rcases joinComma_eq_nil _ hjoin with hnil | hsingle
    · rw [List.map_eq_nil_iff] at hnil
      rw [hnil]; rfl
    · have : names = [""] := by
        cases names with
        | nil => cases hsingle
        | cons n rest =>
          cases rest with
          | nil =>
            simp at hsingle
            have hn : n = "" := String.ext_iff.mpr hsingle
            rw [hn]
          | cons m r => simp at hsingle
      rw [this]
      rfl
  · rw [if_neg hjoin]
    have hmkne : String.mk (joinComma (names.map String.toList)) ≠ "" := by
      intro h
      exact hjoin (String.ext_iff.mp h)
    have hnamesne : names ≠ [] := by
      rintro rfl; exact hjoin rfl
    rw [splitTags_eq_fragments]
    have htl : (String.mk (joinComma (names.map String.toList))).toList =
        joinComma (names.map String.toList) := rfl
    rw [htl, fragments_joinComma names hnamesne]
    rw [List.filter_eq_self]
    intro t ht
    obtain ⟨n, -, htn⟩ := List.mem_flatMap.mp ht
    have := (splitTags_wellformed n t htn).1
    simp [this]

/-- **C10** (amended).  `GetAllLabelsWithTags` returns, for every stored
label, the concatenation of the `splitTags` fragments of its associated
tag names (so a label with no associations maps to the empty set, no
returned tag is empty or contains a comma — a comma-carrying tag name is
never returned intact — and, whenever every associated tag name is
nonempty, comma-free and trimmed, the returned set is exactly the
associated names).  The amendment excludes empty tag names, which the
round trip through `GROUP_CONCAT` silently drops, see the
counterexample. -/
theorem claim10_labels_with_tags (s : Store) :
    (getAllLabelsWithTags s =
      s.labels.map (fun e => (e.2.1, (tagNamesOf s e.1).flatMap splitTags))) ∧
    (∀ p ∈ getAllLabelsWithTags s, ∀ t ∈ p.2, t ≠ "" ∧ ',' ∉ t.toList) ∧
    (∀ names : List String,
      (∀ n ∈ names, n ≠ "" ∧ trimChars n.toList = n.toList ∧ ',' ∉ n.toList) →
      names.flatMap splitTags = names) := by
  have hmain : getAllLabelsWithTags s =
      s.labels.map (fun e => (e.2.1, (tagNamesOf s e.1).flatMap splitTags)) := by
    unfold getAllLabelsWithTags
    exact List.map_congr_left fun e _ => by rw [labelTags_eq_flatMap]
  refine ⟨hmain, ?_, ?_⟩
  · intro p hp t ht
    rw [hmain] at hp
    obtain ⟨e, -, rfl⟩ := List.mem_map.mp hp
    obtain ⟨n, -, htn⟩ := List.mem_flatMap.mp ht
    exact splitTags_wellformed n t htn
  · intro names hnames
    have : ∀ n ∈ names, splitTags n = [n] := by
      intro n hn
      obtain ⟨hne, htrim, hcomma⟩ := hnames n hn
      rw [splitTags_eq_fragments, splitOnComma_no_comma n.toList hcomma]
      have hlne : n.toList ≠ [] := by
        intro h
        exact hne (by rw [String.ext_iff]; simpa using h)
      simp only [List.map_cons, List.map_nil, htrim, List.filterMap,
        if_neg hlne]
      simp [if_neg hlne]
    calc names.flatMap splitTags = names.flatMap (fun n => [n]) :=
        List.flatMap_congr this
      _ = names := List.flatMap_singleton' names

/-- **C10** (counterexample to the claim as stated).  A store with one
label `ab` associated to the tag named `""`: no tag name contains a comma
or leading/trailing whitespace, yet the returned tag set of `ab` is empty
rather than `{""}` — the empty name is lost in the `GROUP_CONCAT` round
trip. -/
theorem claim10_counterexample_empty_tag_name :
    tagNamesOf ⟨[(1, "ab", 2)], [(1, "")], [(1, 1)], 2, 2⟩ 1 = [""] ∧
    (∀ n ∈ tagNamesOf ⟨[(1, "ab", 2)], [(1, "")], [(1, 1)], 2, 2⟩ 1,
      ',' ∉ n.toList ∧ trimChars n.toList = n.toList) ∧
    getAllLabelsWithTags ⟨[(1, "ab", 2)], [(1, "")], [(1, 1)], 2, 2⟩ = [("ab", [])] := by
  refine ⟨rfl, ?_, rfl⟩
  intro n hn
  simp only [show tagNamesOf ⟨[(1, "ab", 2)], [(1, "")], [(1, 1)], 2, 2⟩ 1 = [""] from rfl,
    List.mem_singleton] at hn
  subst hn
  exact ⟨by decide, rfl⟩

/-! ### Characterizing `BulkInsertLabels` -/

theorem newOf_cons (m : String → Option Nat) (seen : String → Bool)
    (l : LabelData) (b : List LabelData) :
    newOf m seen (l :: b) =
      match m l.label with
      | some _ => newOf m seen b
      | none =>
        if seen l.label then newOf m seen b
        else l :: newOf m (fun x => x = l.label || seen x) b := rfl

theorem newOf_cons_existing (m : String → Option Nat) (seen : String → Bool)
    (l : LabelData) (b : List LabelData) (h : (m l.label).isSome) :
    newOf m seen (l :: b) = newOf m seen b := by
  obtain ⟨id, hid⟩ := Option.isSome_iff_exists.mp h
  rw [newOf_cons, hid]

theorem newOf_cons_seen (m : String → Option Nat) (seen : String → Bool)
    (l : LabelData) (b : List LabelData) (h1 : m l.label = none)
    (h2 : seen l.label = true) :
    newOf m seen (l :: b) = newOf m seen b := by
  rw [newOf_cons, h1]
  simp [h2]

theorem newOf_cons_new (m : String → Option Nat) (seen : String → Bool)
    (l : LabelData) (b : List LabelData) (h1 : m l.label = none)
    (h2 : seen l.label = false) :
    newOf m seen (l :: b) = l :: newOf m (fun x => x = l.label || seen x) b := by
  rw [newOf_cons, h1]
  simp [h2]

/-- The partition loop queues exactly the `newOf` labels, in order. -/
theorem bulkPart_newLabels (m : String → Option Nat) (b : List LabelData) :
    ∀ p : BulkPartState,
      (b.foldl (bulkPartStep m) p).newLabels = p.newLabels ++ newOf m p.seenInBatch b := by
  induction b with
  | nil => intro p; simp [newOf]
  | cons l b ih =>
    intro p
    rw [List.foldl_cons]
    cases hm : m l.label with
    | some id =>
      rw [newOf_cons_existing m _ l b (by simp [hm])]
      have hstep : bulkPartStep m p l =
          { p with labelMap := updateFn p.labelMap l.label id,
                   existingCount := p.existingCount + 1 } := by
        unfold bulkPartStep; rw [hm]
      rw [hstep, ih]
    | none =>
      cases hseen : p.seenInBatch l.label with
      | true =>
        rw [newOf_cons_seen m _ l b hm hseen]
        have hstep : bulkPartStep m p l = p := by
          unfold bulkPartStep; rw [hm]; simp [hseen]
        rw [hstep, ih]
      | false =>
        rw [newOf_cons_new m _ l b hm hseen]
        have hstep : bulkPartStep m p l =
            { p with seenInBatch := fun x => x = l.label || p.seenInBatch x,
                     newLabels := p.newLabels ++ [l] } := by
          unfold bulkPartStep; rw [hm]; simp [hseen]
        rw [hstep, ih]
        simp

/-- The partition loop counts one existing label per map hit, duplicates
included. -/
theorem bulkPart_existingCount (m : String → Option Nat) (b : List LabelData) :
    ∀ p : BulkPartState,
      (b.foldl (bulkPartStep m) p).existingCount =
        p.existingCount + (b.filter (fun l => (m l.label).isSome)).length := by
  induction b with
  | nil => intro p; simp
  | cons l b ih =>
    intro p
    rw [List.foldl_cons]
    cases hm : m l.label with
    | some id =>
      have hstep : bulkPartStep m p l =
          { p with labelMap := updateFn p.labelMap l.label id,
                   existingCount := p.existingCount + 1 } := by
        unfold bulkPartStep; rw [hm]
      rw [hstep, ih]
      simp [List.filter_cons, hm]
      omega
    | none =>
      have hcnt : ((l :: b).filter (fun l => (m l.label).isSome)).length =
          (b.filter (fun l => (m l.label).isSome)).length := by
        simp [List.filter_cons, hm]
      rw [hcnt]
      cases hseen : p.seenInBatch l.label with
      | true =>
        have hstep : bulkPartStep m p l = p := by
          unfold bulkPartStep; rw [hm]; simp [hseen]
        rw [hstep, ih]
      | false =>
        have hstep : bulkPartStep m p l =
            { p with seenInBatch := fun x => x = l.label || p.seenInBatch x,
                     newLabels := p.newLabels ++ [l] } := by
          unfold bulkPartStep; rw [hm]; simp [hseen]
        rw [hstep, ih]

/-- The partition loop's label map holds the pre-loaded id of every
existing batch label, and nothing else beyond its initial contents. -/
theorem bulkPart_labelMap (m : String → Option Nat) (b : List LabelData) :
    ∀ (p : BulkPartState) (x : String),
      (b.foldl (bulkPartStep m) p).labelMap x =
        if b.any (fun l => l.label == x && (m l.label).isSome) then m x
        else p.labelMap x := by
  induction b with
  | nil => intro p x; simp
  | cons l b ih =>
    intro p x
    rw [List.foldl_cons]
    cases hm : m l.label with
    | some id =>
      have hstep : bulkPartStep m p l =
          { p with labelMap := updateFn p.labelMap l.label id,
                   existingCount := p.existingCount + 1 } := by
        unfold bulkPartStep; rw [hm]
      rw [hstep, ih]
      dsimp only
      by_cases hx : x = l.label
      · have hh : ((l :: b).any (fun l' => l'.label == x && (m l'.label).isSome)) = true := by
          simp only [List.any_cons, Bool.or_eq_true]
          left
          rw [hx]
          simp [hm]
        rw [hh]
        simp only [if_true]
        split
        · rfl
        · unfold updateFn
          rw [if_pos hx, hx, hm]
      · have hl : (l.label == x) = false := by
          simp only [beq_eq_false_iff_ne, ne_eq]
          exact fun h => hx h.symm
        have hany : ((l :: b).any (fun l' => l'.label == x && (m l'.label).isSome)) =
            (b.any (fun l' => l'.label == x && (m l'.label).isSome)) := by
          simp [List.any_cons, hl]
        rw [hany]
        split
        · rfl
        · unfold updateFn
          rw [if_neg hx]
    | none =>
      have hany : ((l :: b).any (fun l => l.label == x && (m l.label).isSome)) =
          (b.any (fun l => l.label == x && (m l.label).isSome)) := by
        simp [List.any_cons, hm]
      cases hseen : p.seenInBatch l.label with
      | true =>
        have hstep : bulkPartStep m p l = p := by
          unfold bulkPartStep; rw [hm]; simp [hseen]
        rw [hstep, ih, hany]
      | false =>
        have hstep : bulkPartStep m p l =
            { p with seenInBatch := fun x => x = l.label || p.seenInBatch x,
                     newLabels := p.newLabels ++ [l] } := by
          unfold bulkPartStep; rw [hm]; simp [hseen]
        rw [hstep, ih, hany]

/-- Every queued-new label is from the batch, was absent from the map mod
the seen set, and the queued labels are distinct. -/
theorem newOf_facts (m : String → Option Nat) (b : List LabelData) :
    ∀ seen : String → Bool,
      (∀ l ∈ newOf m seen b, l ∈ b ∧ m l.label = none ∧ seen l.label = false) ∧
      ((newOf m seen b).map (fun l => l.label)).Nodup := by
  induction b with
  | nil => intro seen; simp [newOf]
  | cons l b ih =>
    intro seen
    cases hm : m l.label with
    | some id =>
      rw [newOf_cons_existing m seen l b (by simp [hm])]
      obtain ⟨ih1, ih2⟩ := ih seen
      exact ⟨fun l' hl' => ⟨List.mem_cons_of_mem _ (ih1 l' hl').1, (ih1 l' hl').2⟩, ih2⟩
    | none =>
      cases hseen : seen l.label with
      | true =>
        rw [newOf_cons_seen m seen l b hm hseen]
        obtain ⟨ih1, ih2⟩ := ih seen
        exact ⟨fun l' hl' => ⟨List.mem_cons_of_mem _ (ih1 l' hl').1, (ih1 l' hl').2⟩, ih2⟩
      | false =>
        rw [newOf_cons_new m seen l b hm hseen]
        obtain ⟨ih1, ih2⟩ := ih (fun x => x = l.label || seen x)
        constructor
        · intro l' hl'
          rcases List.mem_cons.mp hl' with rfl | hmem
          · exact ⟨List.mem_cons_self _ _, hm, hseen⟩
          · obtain ⟨hb, hmn, hsn⟩ := ih1 l' hmem
            simp only [Bool.or_eq_false_iff, decide_eq_false_iff_not] at hsn
            exact ⟨List.mem_cons_of_mem _ hb, hmn, hsn.2⟩
        · rw [List.map_cons, List.nodup_cons]
          refine ⟨?_, ih2⟩
          intro hmem
          obtain ⟨l', hl', heq⟩ := List.mem_map.mp hmem
          obtain ⟨-, -, hsn⟩ := ih1 l' hl'
          simp only [Bool.or_eq_false_iff, decide_eq_false_iff_not] at hsn
          exact hsn.1 heq

/-- A label absent from the map and unseen is queued when it occurs in
the batch. -/
theorem newOf_covers (m : String → Option Nat) (b : List LabelData) :
    ∀ (seen : String → Bool) (x : String),
      (b.any (fun l => l.label == x)) = true → m x = none → seen x = false →
      x ∈ (newOf m seen b).map (fun l => l.label) := by
  induction b with
  | nil => intro seen x h; simp at h
  | cons l b ih =>
    intro seen x hany hmx hsx
    by_cases hlx : l.label = x
    · subst hlx
      rw [newOf_cons_new m seen l b hmx hsx]
      simp
    · have hany' : (b.any (fun l => l.label == x)) = true := by
        simp only [List.any_cons, Bool.or_eq_true] at hany
        rcases hany with h | h
        · exact absurd (by simpa using h) hlx
        · exact h
      cases hm : m l.label with
      | some id =>
        rw [newOf_cons_existing m seen l b (by simp [hm])]
        exact ih seen x hany' hmx hsx
      | none =>
        cases hseen : seen l.label with
        | true =>
          rw [newOf_cons_seen m seen l b hm hseen]
          exact ih seen x hany' hmx hsx
        | false =>
          rw [newOf_cons_new m seen l b hm hseen]
          rw [List.map_cons]
          refine List.mem_cons_of_mem _ ?_
          refine ih _ x hany' hmx ?_
          simp only [Bool.or_eq_false_iff, decide_eq_false_iff_not]
          exact ⟨fun h => hlx h.symm, hsx⟩

/-- Componentwise extensionality for stores. -/
theorem storeExt {s1 s2 : Store} (h1 : s1.labels = s2.labels) (h2 : s1.tags = s2.tags)
    (h3 : s1.labelTags = s2.labelTags) (h4 : s1.nextLabelId = s2.nextLabelId)
    (h5 : s1.nextTagId = s2.nextTagId) : s1 = s2 := by
  cases s1; cases s2
  simp_all

/-- The insert loop appends the queued rows with sequential ids and
leaves everything else alone. -/
theorem bulkInsert_fold_store (new : List LabelData) :
    ∀ (lm : String → Option Nat) (s : Store),
      (new.foldl bulkInsertStep (lm, s)).2 =
        { s with labels := s.labels ++ newRows s.nextLabelId new,
                 nextLabelId := s.nextLabelId + new.length } := by
  induction new with
  | nil =>
    intro lm s
    cases s
    simp [newRows]
  | cons l ls ih =>
    intro lm s
    rw [List.foldl_cons]
    have hstep : bulkInsertStep (lm, s) l =
        (updateFn lm l.label s.nextLabelId,
         { s with labels := s.labels ++ [(s.nextLabelId, l.label, l.length)],
                  nextLabelId := s.nextLabelId + 1 }) := rfl
    rw [hstep, ih]
    apply storeExt
    · show (s.labels ++ [(s.nextLabelId, l.label, l.length)]) ++
          newRows (s.nextLabelId + 1) ls =
        s.labels ++ newRows s.nextLabelId (l :: ls)
      rw [newRows, List.append_assoc]
      rfl
    · rfl
    · rfl
    · show s.nextLabelId + 1 + ls.length = s.nextLabelId + (l :: ls).length
      rw [List.length_cons]
      omega
    · rfl

theorem newRows_find?_none (x : String) (ls : List LabelData) :
    ∀ start : Nat, x ∉ ls.map (fun l => l.label) →
      (newRows start ls).find? (fun r => r.2.1 == x) = none := by
  induction ls with
  | nil => intro start h; rfl
  | cons l ls ih =>
    intro start h
    rw [List.map_cons, List.mem_cons] at h
    push_neg at h
    unfold newRows
    rw [List.find?_cons]
    have : ((l.label, x) ∈ ({} : Set (String × String))) ∨ True := Or.inr trivial
    have hne : ((l.label == x) = false) := by
      simp only [beq_eq_false_iff_ne, ne_eq]
      exact fun hh => h.1 hh.symm
    simp only [hne]
    exact ih (start + 1) h.2

/-- The insert loop's returned map: the fresh id of every queued label
(first occurrence), the prior map elsewhere. -/
theorem bulkInsert_fold_map (new : List LabelData) :
    ∀ (lm : String → Option Nat) (s : Store) (x : String),
      (new.map (fun l => l.label)).Nodup →
      (new.foldl bulkInsertStep (lm, s)).1 x =
        (match (newRows s.nextLabelId new).find? (fun r => r.2.1 == x) with
         | some r => some r.1
         | none => lm x) := by
  induction new with
  | nil => intro lm s x h; rfl
  | cons l ls ih =>
    intro lm s x hnd
    rw [List.map_cons, List.nodup_cons] at hnd
    rw [List.foldl_cons]
    have hstep : bulkInsertStep (lm, s) l =
        (updateFn lm l.label s.nextLabelId,
         { s with labels := s.labels ++ [(s.nextLabelId, l.label, l.length)],
                  nextLabelId := s.nextLabelId + 1 }) := rfl
    rw [hstep, ih _ _ x hnd.2]
    show (match (newRows (s.nextLabelId + 1) ls).find? (fun r => r.2.1 == x) with
          | some r => some r.1
          | none => updateFn lm l.label s.nextLabelId x) = _
    conv_rhs => rw [newRows]
    rw [List.find?_cons]
    by_cases hx : l.label = x
    · have hbeq : (l.label == x) = true := by simp [hx]
      simp only [hbeq]
      have hfind : (newRows (s.nextLabelId + 1) ls).find? (fun r => r.2.1 == x) = none := by
        apply newRows_find?_none
        rw [← hx]
        exact hnd.1
      rw [hfind]
      unfold updateFn
      rw [if_pos hx.symm]
    · have hbeq : (l.label == x) = false := by simp [hx]
      simp only [hbeq]
      cases hfind : (newRows (s.nextLabelId + 1) ls).find? (fun r => r.2.1 == x) with
      | none =>
        show updateFn lm l.label s.nextLabelId x = lm x
        unfold updateFn
        rw [if_neg (fun h => hx h.symm)]
      | some r => rfl

theorem newRows_label_mem (ls : List LabelData) :
    ∀ (start : Nat) (r : Nat × String × Nat), r ∈ newRows start ls →
      ∃ l ∈ ls, r.2.1 = l.label := by
  induction ls with
  | nil => intro start r h; cases h
  | cons l ls ih =>
    intro start r h
    rw [newRows, List.mem_cons] at h
    rcases h with rfl | h
    · exact ⟨l, List.mem_cons_self _ _, rfl⟩
    · obtain ⟨l', hl', he⟩ := ih (start + 1) r h
      exact ⟨l', List.mem_cons_of_mem _ hl', he⟩

/-- Full characterization of `db.BulkInsertLabels` against a map that
agrees with the store: the store effect appends exactly the fresh rows,
the returned map gives every batch label its id in the new store (and
nothing else), `NewCount` counts the distinct fresh labels and
`ExistingCount` the occurrences of pre-existing ones. -/
theorem bulkInsertLabels_spec (b : List LabelData) (s : Store) (m : String → Option Nat)
    (hm : ∀ x, m x = lookupLabelId s x) :
    (bulkInsertLabels s b m).2 =
      { s with labels := s.labels ++ newRows s.nextLabelId (newOf m (fun _ => false) b),
               nextLabelId := s.nextLabelId + (newOf m (fun _ => false) b).length } ∧
    (∀ x, (bulkInsertLabels s b m).1.labelMap x =
      if b.any (fun l => l.label == x) then
        lookupLabelId (bulkInsertLabels s b m).2 x
      else none) ∧
    (bulkInsertLabels s b m).1.newCount = (newOf m (fun _ => false) b).length ∧
    (bulkInsertLabels s b m).1.existingCount =
      (b.filter (fun l => (m l.label).isSome)).length := by
  have hNL : (b.foldl (bulkPartStep m) ⟨fun _ => none, 0, fun _ => false, []⟩).newLabels =
      newOf m (fun _ => false) b := by
    rw [bulkPart_newLabels]
    simp
  have hLM : ∀ x,
      (b.foldl (bulkPartStep m) ⟨fun _ => none, 0, fun _ => false, []⟩).labelMap x =
        if b.any (fun l => l.label == x && (m l.label).isSome) then m x else none := by
    intro x
    rw [bulkPart_labelMap]
  have hEC : (b.foldl (bulkPartStep m) ⟨fun _ => none, 0, fun _ => false, []⟩).existingCount =
      (b.filter (fun l => (m l.label).isSome)).length := by
    rw [bulkPart_existingCount]
    simp
  obtain ⟨hfacts, hnodup⟩ := newOf_facts m b (fun _ => false)
  have hstore : (bulkInsertLabels s b m).2 =
      { s with labels := s.labels ++ newRows s.nextLabelId (newOf m (fun _ => false) b),
               nextLabelId := s.nextLabelId + (newOf m (fun _ => false) b).length } := by
    show ((b.foldl (bulkPartStep m) ⟨fun _ => none, 0, fun _ => false, []⟩).newLabels.foldl
        bulkInsertStep
        ((b.foldl (bulkPartStep m) ⟨fun _ => none, 0, fun _ => false, []⟩).labelMap, s)).2 = _
    rw [hNL, bulkInsert_fold_store]
  refine ⟨hstore, ?_, ?_, ?_⟩
  · intro x
    have hmap : (bulkInsertLabels s b m).1.labelMap x =
        (match (newRows s.nextLabelId (newOf m (fun _ => false) b)).find?
            (fun r => r.2.1 == x) with
         | some r => some r.1
         | none =>
           (b.foldl (bulkPartStep m) ⟨fun _ => none, 0, fun _ => false, []⟩).labelMap x) := by
      show ((b.foldl (bulkPartStep m) ⟨fun _ => none, 0, fun _ => false, []⟩).newLabels.foldl
          bulkInsertStep
          ((b.foldl (bulkPartStep m) ⟨fun _ => none, 0, fun _ => false, []⟩).labelMap, s)).1 x = _
      rw [hNL, bulkInsert_fold_map _ _ _ _ hnodup]
    have hlab : (bulkInsertLabels s b m).2.labels =
        s.labels ++ newRows s.nextLabelId (newOf m (fun _ => false) b) := by
      rw [hstore]
    have hlook : lookupLabelId (bulkInsertLabels s b m).2 x =
        ((s.labels.find? (fun e => e.2.1 == x)).or
          ((newRows s.nextLabelId (newOf m (fun _ => false) b)).find?
            (fun e => e.2.1 == x))).map (·.1) := by
      unfold lookupLabelId
      rw [hlab, List.find?_append]
    rw [hmap]
    cases hfind : (newRows s.nextLabelId (newOf m (fun _ => false) b)).find?
        (fun r => r.2.1 == x) with
    | some r =>
      dsimp only
      have hrx : r.2.1 = x := by
        have := List.find?_some hfind
        simpa using this
      have hrmem := List.mem_of_find?_eq_some hfind
      obtain ⟨l', hl', hrl⟩ := newRows_label_mem _ _ _ hrmem
      have hlx : l'.label = x := by rw [← hrl, hrx]
      have hxb : (b.any (fun l => l.label == x)) = true := by
        rw [List.any_eq_true]
        exact ⟨l', (hfacts l' hl').1, by simp [hlx]⟩
      have hsx : s.labels.find? (fun e => e.2.1 == x) = none := by
        have hmx : m x = none := by
          have h2 := (hfacts l' hl').2.1
          rw [hlx] at h2
          exact h2
        rw [hm] at hmx
        unfold lookupLabelId at hmx
        cases hf : s.labels.find? (fun e => e.2.1 == x)
        · rfl
        · rw [hf] at hmx; cases hmx
      rw [hxb, if_pos rfl, hlook, hfind, hsx]
      rfl
    | none =>
      dsimp only
      rw [hLM]
      cases hmx : m x with
      | some id =>
        have hany_eq : (b.any (fun l => l.label == x && (m l.label).isSome)) =
            (b.any (fun l => l.label == x)) := by
          cases hb : b.any (fun l => l.label == x) with
          | true =>
            rw [List.any_eq_true] at hb ⊢
            obtain ⟨l', hl', he⟩ := hb
            refine ⟨l', hl', ?_⟩
            have hex : l'.label = x := by simpa using he
            rw [hex, hmx]
            simp
          | false =>
            rw [Bool.eq_false_iff]
            intro hc
            rw [List.any_eq_true] at hc
            obtain ⟨l', hl', he⟩ := hc
            rw [Bool.and_eq_true] at he
            rw [Bool.eq_false_iff] at hb
            apply hb
            rw [List.any_eq_true]
            exact ⟨l', hl', he.1⟩
        rw [hany_eq]
        cases hb : b.any (fun l => l.label == x) with
        | false => simp
        | true =>
          rw [if_pos rfl, if_pos rfl, hlook, hfind, Option.or_none, ← hmx]
          exact hm x
      | none =>
        have hany2 : (b.any (fun l => l.label == x && (m l.label).isSome)) = false := by
          rw [Bool.eq_false_iff]
          intro hc
          rw [List.any_eq_true] at hc
          obtain ⟨l', hl', he⟩ := hc
          rw [Bool.and_eq_true] at he
          have hex : l'.label = x := by simpa using he.1
          rw [hex, hmx] at he
          simpa using he.2
        rw [hany2]
        cases hb : b.any (fun l => l.label == x) with
        | false => simp
        | true =>
          have hsx : s.labels.find? (fun e => e.2.1 == x) = none := by
            rw [hm] at hmx
            unfold lookupLabelId at hmx
            cases hf : s.labels.find? (fun e => e.2.1 == x)
            · rfl
            · rw [hf] at hmx; cases hmx
          rw [if_pos rfl, hlook, hfind, hsx]
          simp
  · show (b.foldl (bulkPartStep m) ⟨fun _ => none, 0, fun _ => false, []⟩).newLabels.length = _
    rw [hNL]
  · exact hEC

/-! ### Store algebra for the association phase -/

theorem getOrCreateTagTx_found (s : Store) (n : String) (id : Nat)
    (h : lookupTagId s n = some id) : getOrCreateTagTx s n = (id, s) := by
  unfold getOrCreateTagTx
  rw [h]

theorem getOrCreateTagTx_new (s : Store) (n : String) (h : lookupTagId s n = none) :
    getOrCreateTagTx s n =
      (s.nextTagId,
       { s with tags := s.tags ++ [(s.nextTagId, n)], nextTagId := s.nextTagId + 1 }) := by
  unfold getOrCreateTagTx
  rw [h]

theorem lookupTagId_congr {s1 s2 : Store} (h : s1.tags = s2.tags) (n : String) :
    lookupTagId s1 n = lookupTagId s2 n := by
  unfold lookupTagId
  rw [h]

theorem lookupLabelId_congr {s1 s2 : Store} (h : s1.labels = s2.labels) (x : String) :
    lookupLabelId s1 x = lookupLabelId s2 x := by
  unfold lookupLabelId
  rw [h]

/-- A present tag keeps its id when the tag table is extended. -/
theorem lookupTagId_mono {s s' : Store} (ts : List (Nat × String))
    (hext : s'.tags = s.tags ++ ts) (n : String) (id : Nat)
    (h : lookupTagId s n = some id) : lookupTagId s' n = some id := by
  unfold lookupTagId at h ⊢
  rw [hext, List.find?_append]
  cases hf : s.tags.find? (fun e => e.2 == n) with
  | none => rw [hf] at h; cases h
  | some e => rw [hf] at h; exact h

theorem addAssoc_tags (s : Store) (lid tid : Nat) : (addAssoc s lid tid).tags = s.tags := by
  unfold addAssoc; split <;> rfl

theorem addAssoc_nextTagId (s : Store) (lid tid : Nat) :
    (addAssoc s lid tid).nextTagId = s.nextTagId := by
  unfold addAssoc; split <;> rfl

theorem addAssoc_labels (s : Store) (lid tid : Nat) :
    (addAssoc s lid tid).labels = s.labels := by
  unfold addAssoc; split <;> rfl

theorem addAssoc_nextLabelId (s : Store) (lid tid : Nat) :
    (addAssoc s lid tid).nextLabelId = s.nextLabelId := by
  unfold addAssoc; split <;> rfl

theorem bulkAdd_tags (A : List (Nat × Nat)) : ∀ s : Store,
    (bulkAddTagsToLabels s A).tags = s.tags := by
  induction A with
  | nil => intro s; rfl
  | cons a A ih =>
    intro s
    show (bulkAddTagsToLabels (addAssoc s a.1 a.2) A).tags = s.tags
    rw [ih, addAssoc_tags]

theorem bulkAdd_nextTagId (A : List (Nat × Nat)) : ∀ s : Store,
    (bulkAddTagsToLabels s A).nextTagId = s.nextTagId := by
  induction A with
  | nil => intro s; rfl
  | cons a A ih =>
    intro s
    show (bulkAddTagsToLabels (addAssoc s a.1 a.2) A).nextTagId = s.nextTagId
    rw [ih, addAssoc_nextTagId]

theorem bulkAdd_labels (A : List (Nat × Nat)) : ∀ s : Store,
    (bulkAddTagsToLabels s A).labels = s.labels := by
  induction A with
  | nil => intro s; rfl
  | cons a A ih =>
    intro s
    show (bulkAddTagsToLabels (addAssoc s a.1 a.2) A).labels = s.labels
    rw [ih, addAssoc_labels]

theorem bulkAdd_nextLabelId (A : List (Nat × Nat)) : ∀ s : Store,
    (bulkAddTagsToLabels s A).nextLabelId = s.nextLabelId := by
  induction A with
  | nil => intro s; rfl
  | cons a A ih =>
    intro s
    show (bulkAddTagsToLabels (addAssoc s a.1 a.2) A).nextLabelId = s.nextLabelId
    rw [ih, addAssoc_nextLabelId]

theorem addAssoc_labelTags (s : Store) (lid tid : Nat) :
    (addAssoc s lid tid).labelTags =
      (if (lid, tid) ∈ s.labelTags then s.labelTags else s.labelTags ++ [(lid, tid)]) := by
  unfold addAssoc
  split <;> rename_i h <;> simp [h]

theorem bulkAdd_labelTags (A : List (Nat × Nat)) : ∀ s : Store,
    (bulkAddTagsToLabels s A).labelTags =
      A.foldl (fun L p => if p ∈ L then L else L ++ [p]) s.labelTags := by
  induction A with
  | nil => intro s; rfl
  | cons a A ih =>
    intro s
    show (bulkAddTagsToLabels (addAssoc s a.1 a.2) A).labelTags = _
    rw [ih, List.foldl_cons, addAssoc_labelTags]

theorem bulkAdd_append (s : Store) (A B : List (Nat × Nat)) :
    bulkAddTagsToLabels s (A ++ B) = bulkAddTagsToLabels (bulkAddTagsToLabels s A) B := by
  unfold bulkAddTagsToLabels
  rw [List.foldl_append]

theorem bulkAdd_snoc (s : Store) (A : List (Nat × Nat)) (lid tid : Nat) :
    bulkAddTagsToLabels s (A ++ [(lid, tid)]) =
      addAssoc (bulkAddTagsToLabels s A) lid tid := by
  rw [bulkAdd_append]
  rfl

/-- Adding an association commutes with replacing the tag table. -/
theorem addAssoc_withTags (s : Store) (T : List (Nat × String)) (n : Nat) (lid tid : Nat) :
    addAssoc { s with tags := T, nextTagId := n } lid tid =
      { addAssoc s lid tid with tags := T, nextTagId := n } := by
  unfold addAssoc
  dsimp only
  split <;> rfl

/-- Bulk association insert commutes with replacing the tag table. -/
theorem bulkAdd_withTags (A : List (Nat × Nat)) :
    ∀ (s : Store) (T : List (Nat × String)) (n : Nat),
      bulkAddTagsToLabels { s with tags := T, nextTagId := n } A =
        { bulkAddTagsToLabels s A with tags := T, nextTagId := n } := by
  induction A with
  | nil => intro s T n; rfl
  | cons a A ih =>
    intro s T n
    show bulkAddTagsToLabels (addAssoc { s with tags := T, nextTagId := n } a.1 a.2) A = _
    rw [addAssoc_withTags, ih]
    rfl

/-- One step of the association loop, followed by flushing the
accumulated associations, equals flushing first and then applying the
canonical per-label association work; the tag cache and map stay
consistent with the store, and the loop only ever appends tags. -/
theorem assocStep_spec (cfg : ImportConfig) (resMap : String → Option Nat) (fid : Nat)
    (a : AssocState) (l : LabelData)
    (htm : ∀ n, a.tagMap n = lookupTagId a.store n)
    (hca : ∀ n id, a.tagCache n = some id → a.tagMap n = some id) :
    canonTagAssoc cfg resMap fid (bulkAddTagsToLabels a.store a.associations) l =
      bulkAddTagsToLabels (assocStep cfg resMap fid a l).store
        (assocStep cfg resMap fid a l).associations ∧
    (∀ n, (assocStep cfg resMap fid a l).tagMap n =
      lookupTagId (assocStep cfg resMap fid a l).store n) ∧
    (∀ n id, (assocStep cfg resMap fid a l).tagCache n = some id →
      (assocStep cfg resMap fid a l).tagMap n = some id) ∧
    (∃ ts, (assocStep cfg resMap fid a l).store.tags = a.store.tags ++ ts) ∧
    (assocStep cfg resMap fid a l).store.labels = a.store.labels ∧
    (assocStep cfg resMap fid a l).store.nextLabelId = a.store.nextLabelId := by
  cases hres : resMap l.label with
  | none =>
    have hstep : assocStep cfg resMap fid a l = a := by
      unfold assocStep; rw [hres]
    have hcanon : canonTagAssoc cfg resMap fid
        (bulkAddTagsToLabels a.store a.associations) l =
        bulkAddTagsToLabels a.store a.associations := by
      unfold canonTagAssoc; rw [hres]
    rw [hstep, hcanon]
    exact ⟨rfl, htm, hca, ⟨[], (List.append_nil _).symm⟩, rfl, rfl⟩
  | some lid =>
    -- The tag table of the flushed store is the tag table of the store.
    have hXtags : (bulkAddTagsToLabels a.store a.associations).tags = a.store.tags :=
      bulkAdd_tags _ _
    have hXnext : (bulkAddTagsToLabels a.store a.associations).nextTagId =
        a.store.nextTagId := bulkAdd_nextTagId _ _
    have hXlook : ∀ n, lookupTagId (bulkAddTagsToLabels a.store a.associations) n =
        a.tagMap n := by
      intro n
      rw [lookupTagId_congr hXtags, htm]
    by_cases hat : cfg.autoTag = true
    · -- auto-tagging: resolve the length tag
      by_cases hcache : ∃ tid, a.tagCache (generateLengthTag l.length) = some tid
      · obtain ⟨tid, htid⟩ := hcache
        have hmap : a.tagMap (generateLengthTag l.length) = some tid := hca _ _ htid
        have ha1 : assocStep cfg resMap fid a l =
            (if cfg.filenameTag ≠ "" then
              { a with associations := a.associations ++ [(lid, tid)] ++ [(lid, fid)] }
             else { a with associations := a.associations ++ [(lid, tid)] }) := by
          unfold assocStep
          rw [hres]
          dsimp only
          rw [if_pos hat, htid]
          all_goals try dsimp only
          all_goals try split <;> rfl
        have hcanon : canonTagAssoc cfg resMap fid
            (bulkAddTagsToLabels a.store a.associations) l =
            (if cfg.filenameTag ≠ "" then
              addAssoc (addAssoc (bulkAddTagsToLabels a.store a.associations) lid tid)
                lid fid
             else addAssoc (bulkAddTagsToLabels a.store a.associations) lid tid) := by
          unfold canonTagAssoc
          rw [hres]
          dsimp only
          rw [if_pos hat, getOrCreateTagTx_found _ _ tid (by rw [hXlook]; exact hmap)]
        rw [ha1, hcanon]
        by_cases hf : cfg.filenameTag ≠ ""
        · rw [if_pos hf, if_pos hf]
          refine ⟨?_, htm, hca, ⟨[], (List.append_nil _).symm⟩, rfl, rfl⟩
          dsimp only
          rw [bulkAdd_snoc, bulkAdd_snoc]
        · rw [if_neg hf, if_neg hf]
          refine ⟨?_, htm, hca, ⟨[], (List.append_nil _).symm⟩, rfl, rfl⟩
          dsimp only
          rw [bulkAdd_snoc]
      · push_neg at hcache
        have hcnone : a.tagCache (generateLengthTag l.length) = none := by
          cases hc : a.tagCache (generateLengthTag l.length) with
          | none => rfl
          | some tid => exact absurd hc (hcache tid)
        by_cases hmap : ∃ tid, a.tagMap (generateLengthTag l.length) = some tid
        · obtain ⟨tid, htid⟩ := hmap
          have ha1 : assocStep cfg resMap fid a l =
              (if cfg.filenameTag ≠ "" then
                { a with associations := a.associations ++ [(lid, tid)] ++ [(lid, fid)],
                         tagCache := updateFn a.tagCache (generateLengthTag l.length) tid }
               else
                { a with associations := a.associations ++ [(lid, tid)],
                         tagCache := updateFn a.tagCache (generateLengthTag l.length) tid }) := by
            unfold assocStep
            rw [hres]
            dsimp only
            rw [if_pos hat, hcnone]
            dsimp only
            rw [htid]
            all_goals try dsimp only
            all_goals try split <;> rfl
          have hcanon : canonTagAssoc cfg resMap fid
              (bulkAddTagsToLabels a.store a.associations) l =
              (if cfg.filenameTag ≠ "" then
                addAssoc (addAssoc (bulkAddTagsToLabels a.store a.associations) lid tid)
                  lid fid
               else addAssoc (bulkAddTagsToLabels a.store a.associations) lid tid) := by
            unfold canonTagAssoc
            rw [hres]
            dsimp only
            rw [if_pos hat, getOrCreateTagTx_found _ _ tid (by rw [hXlook]; exact htid)]
          have hcache' : ∀ n id,
              updateFn a.tagCache (generateLengthTag l.length) tid n = some id →
              a.tagMap n = some id := by
            intro n id h
            unfold updateFn at h
            split at h
            · rename_i heq
              cases h
              rw [heq]
              exact htid
            · exact hca n id h
          rw [ha1, hcanon]
          by_cases hf : cfg.filenameTag ≠ ""
          · rw [if_pos hf, if_pos hf]
            refine ⟨?_, htm, hcache', ⟨[], (List.append_nil _).symm⟩, rfl, rfl⟩
            dsimp only
            rw [bulkAdd_snoc, bulkAdd_snoc]
          · rw [if_neg hf, if_neg hf]
            refine ⟨?_, htm, hcache', ⟨[], (List.append_nil _).symm⟩, rfl, rfl⟩
            dsimp only
            rw [bulkAdd_snoc]
        · push_neg at hmap
          have hmnone : a.tagMap (generateLengthTag l.length) = none := by
            cases hc : a.tagMap (generateLengthTag l.length) with
            | none => rfl
            | some tid => exact absurd hc (hmap tid)
          have hsnone : lookupTagId a.store (generateLengthTag l.length) = none := by
            rw [← htm]; exact hmnone
          have hcreate : getOrCreateTagTx a.store (generateLengthTag l.length) =
              (a.store.nextTagId,
               { a.store with
                   tags := a.store.tags ++
                     [(a.store.nextTagId, generateLengthTag l.length)],
                   nextTagId := a.store.nextTagId + 1 }) :=
            getOrCreateTagTx_new _ _ hsnone
          have ha1 : assocStep cfg resMap fid a l =
              (if cfg.filenameTag ≠ "" then
                { associations := a.associations ++ [(lid, a.store.nextTagId)] ++
                    [(lid, fid)],
                  tagCache := updateFn a.tagCache (generateLengthTag l.length)
                    a.store.nextTagId,
                  tagMap := updateFn a.tagMap (generateLengthTag l.length)
                    a.store.nextTagId,
                  store := { a.store with
                    tags := a.store.tags ++
                      [(a.store.nextTagId, generateLengthTag l.length)],
                    nextTagId := a.store.nextTagId + 1 } }
               else
                { associations := a.associations ++ [(lid, a.store.nextTagId)],
                  tagCache := updateFn a.tagCache (generateLengthTag l.length)
                    a.store.nextTagId,
                  tagMap := updateFn a.tagMap (generateLengthTag l.length)
                    a.store.nextTagId,
                  store := { a.store with
                    tags := a.store.tags ++
                      [(a.store.nextTagId, generateLengthTag l.length)],
                    nextTagId := a.store.nextTagId + 1 } }) := by
            unfold assocStep
            rw [hres]
            dsimp only
            rw [if_pos hat, hcnone]
            dsimp only
            rw [hmnone]
            dsimp only
            rw [hcreate]
            all_goals try dsimp only
            all_goals try split <;> rfl
          have hXcreate : getOrCreateTagTx
              (bulkAddTagsToLabels a.store a.associations)
              (generateLengthTag l.length) =
              ((bulkAddTagsToLabels a.store a.associations).nextTagId,
               { bulkAddTagsToLabels a.store a.associations with
                   tags := (bulkAddTagsToLabels a.store a.associations).tags ++
                     [((bulkAddTagsToLabels a.store a.associations).nextTagId,
                       generateLengthTag l.length)],
                   nextTagId :=
                     (bulkAddTagsToLabels a.store a.associations).nextTagId + 1 }) := by
            apply getOrCreateTagTx_new
            rw [hXlook]
            exact hmnone
          have hcanon : canonTagAssoc cfg resMap fid
              (bulkAddTagsToLabels a.store a.associations) l =
              (if cfg.filenameTag ≠ "" then
                addAssoc (addAssoc
                  { bulkAddTagsToLabels a.store a.associations with
                      tags := a.store.tags ++
                        [(a.store.nextTagId, generateLengthTag l.length)],
                      nextTagId := a.store.nextTagId + 1 }
                  lid a.store.nextTagId) lid fid
               else addAssoc
                  { bulkAddTagsToLabels a.store a.associations with
                      tags := a.store.tags ++
                        [(a.store.nextTagId, generateLengthTag l.length)],
                      nextTagId := a.store.nextTagId + 1 }
                  lid a.store.nextTagId) := by
            unfold canonTagAssoc
            rw [hres]
            dsimp only
            rw [if_pos hat, hXcreate, hXtags, hXnext]
          have htm' : ∀ n,
              updateFn a.tagMap (generateLengthTag l.length) a.store.nextTagId n =
                lookupTagId
                  { a.store with
                      tags := a.store.tags ++
                        [(a.store.nextTagId, generateLengthTag l.length)],
                      nextTagId := a.store.nextTagId + 1 } n := by
            intro n
            unfold updateFn lookupTagId
            dsimp only
            rw [List.find?_append]
            by_cases hn : n = generateLengthTag l.length
            · rw [if_pos hn]
              have hfn : a.store.tags.find? (fun e => e.2 == n) = none := by
                have := htm n
                rw [hn] at this ⊢
                rw [hmnone] at this
                unfold lookupTagId at this
                cases hf : a.store.tags.find? (fun e => e.2 == generateLengthTag l.length)
                · rfl
                · rw [hf] at this; cases this
              rw [hfn]
              have : ((a.store.nextTagId, generateLengthTag l.length).2 == n) = true := by
                rw [hn]; simp
              rw [List.find?_cons, this]
              rfl
            · rw [if_neg hn]
              have : ((a.store.nextTagId, generateLengthTag l.length).2 == n) = false := by
                simp only [beq_eq_false_iff_ne, ne_eq]
                exact fun h => hn h.symm
              rw [List.find?_cons, this]
              have htmn := htm n
              unfold lookupTagId at htmn
              rw [htmn]
              cases hf : a.store.tags.find? (fun e => e.2 == n) <;> rfl
          have hca' : ∀ n id,
              updateFn a.tagCache (generateLengthTag l.length) a.store.nextTagId n =
                some id →
              updateFn a.tagMap (generateLengthTag l.length) a.store.nextTagId n =
                some id := by
            intro n id h
            unfold updateFn at h ⊢
            split at h
            · rename_i heq
              rw [if_pos heq]
              exact h
            · rename_i heq
              rw [if_neg heq]
              exact hca n id h
          rw [ha1, hcanon]
          by_cases hf : cfg.filenameTag ≠ ""
          · rw [if_pos hf, if_pos hf]
            refine ⟨?_, htm', hca', ⟨[(a.store.nextTagId, generateLengthTag l.length)], rfl⟩,
              rfl, rfl⟩
            apply storeExt
            · simp only [addAssoc_labels, bulkAdd_labels]
            · simp only [addAssoc_tags, bulkAdd_tags]
            · simp only [addAssoc_labelTags, bulkAdd_labelTags, List.foldl_append,
                List.foldl_cons, List.foldl_nil]
            · simp only [addAssoc_nextLabelId, bulkAdd_nextLabelId]
            · simp only [addAssoc_nextTagId, bulkAdd_nextTagId]
          · rw [if_neg hf, if_neg hf]
            refine ⟨?_, htm', hca', ⟨[(a.store.nextTagId, generateLengthTag l.length)], rfl⟩,
              rfl, rfl⟩
            apply storeExt
            · simp only [addAssoc_labels, bulkAdd_labels]
            · simp only [addAssoc_tags, bulkAdd_tags]
            · simp only [addAssoc_labelTags, bulkAdd_labelTags, List.foldl_append,
                List.foldl_cons, List.foldl_nil]
            · simp only [addAssoc_nextLabelId, bulkAdd_nextLabelId]
            · simp only [addAssoc_nextTagId, bulkAdd_nextTagId]
    · -- no auto-tagging
      have hat' : cfg.autoTag = false := by
        cases h : cfg.autoTag
        · rfl
        · exact absurd h hat
      have ha1 : assocStep cfg resMap fid a l =
          (if cfg.filenameTag ≠ "" then
            { a with associations := a.associations ++ [(lid, fid)] }
           else a) := by
        unfold assocStep
        rw [hres]
        dsimp only
        rw [hat']
        all_goals try dsimp only
        all_goals try split <;> rfl
      have hcanon : canonTagAssoc cfg resMap fid
          (bulkAddTagsToLabels a.store a.associations) l =
          (if cfg.filenameTag ≠ "" then
            addAssoc (bulkAddTagsToLabels a.store a.associations) lid fid
           else bulkAddTagsToLabels a.store a.associations) := by
        unfold canonTagAssoc
        rw [hres]
        dsimp only
        rw [hat']
        all_goals try dsimp only
        all_goals try split <;> rfl
      rw [ha1, hcanon]
      by_cases hf : cfg.filenameTag ≠ ""
      · rw [if_pos hf, if_pos hf]
        refine ⟨?_, htm, hca, ⟨[], (List.append_nil _).symm⟩, rfl, rfl⟩
        dsimp only
        rw [bulkAdd_snoc]
      · rw [if_neg hf, if_neg hf]
        exact ⟨rfl, htm, hca, ⟨[], (List.append_nil _).symm⟩, rfl, rfl⟩

/-- Folding the association loop over a batch and then flushing equals
flushing first and applying the canonical association work per label. -/
theorem assocFold_spec (cfg : ImportConfig) (resMap : String → Option Nat) (fid : Nat)
    (b : List LabelData) :
    ∀ a : AssocState,
      (∀ n, a.tagMap n = lookupTagId a.store n) →
      (∀ n id, a.tagCache n = some id → a.tagMap n = some id) →
      (bulkAddTagsToLabels (b.foldl (assocStep cfg resMap fid) a).store
          (b.foldl (assocStep cfg resMap fid) a).associations =
        b.foldl (canonTagAssoc cfg resMap fid)
          (bulkAddTagsToLabels a.store a.associations)) ∧
      (∀ n, (b.foldl (assocStep cfg resMap fid) a).tagMap n =
        lookupTagId (b.foldl (assocStep cfg resMap fid) a).store n) ∧
      (∀ n id, (b.foldl (assocStep cfg resMap fid) a).tagCache n = some id →
        (b.foldl (assocStep cfg resMap fid) a).tagMap n = some id) ∧
      (∃ ts, (b.foldl (assocStep cfg resMap fid) a).store.tags = a.store.tags ++ ts) ∧
      (b.foldl (assocStep cfg resMap fid) a).store.labels = a.store.labels ∧
      (b.foldl (assocStep cfg resMap fid) a).store.nextLabelId = a.store.nextLabelId := by
  induction b with
  | nil =>
    intro a htm hca
    exact ⟨rfl, htm, hca, ⟨[], (List.append_nil _).symm⟩, rfl, rfl⟩
  | cons l b ih =>
    intro a htm hca
    obtain ⟨hE, htm1, hca1, ⟨ts1, hts1⟩, hlb1, hnl1⟩ :=
      assocStep_spec cfg resMap fid a l htm hca
    obtain ⟨ihE, ihtm, ihca, ⟨ts2, hts2⟩, ihlb, ihnl⟩ :=
      ih (assocStep cfg resMap fid a l) htm1 hca1
    simp only [List.foldl_cons]
    refine ⟨?_, ihtm, ihca, ⟨ts1 ++ ts2, ?_⟩, ?_, ?_⟩
    · rw [ihE, ← hE]
    · rw [hts2, hts1, List.append_assoc]
    · rw [ihlb, hlb1]
    · rw [ihnl, hnl1]

/-! ### The insert phase commutes with the association work -/

theorem insertLabel_found (s : Store) (x : String) (len : Nat) (id : Nat)
    (h : lookupLabelId s x = some id) : insertLabel s x len = (id, s) := by
  unfold insertLabel
  rw [h]

theorem insertLabel_new (s : Store) (x : String) (len : Nat)
    (h : lookupLabelId s x = none) :
    insertLabel s x len =
      (s.nextLabelId,
       { s with labels := s.labels ++ [(s.nextLabelId, x, len)],
                nextLabelId := s.nextLabelId + 1 }) := by
  unfold insertLabel
  rw [h]

theorem insertOnly_tags (s : Store) (l : LabelData) :
    (insertLabelOnly s l).tags = s.tags := by
  unfold insertLabelOnly insertLabel
  cases lookupLabelId s l.label <;> rfl

theorem insertOnly_nextTagId (s : Store) (l : LabelData) :
    (insertLabelOnly s l).nextTagId = s.nextTagId := by
  unfold insertLabelOnly insertLabel
  cases lookupLabelId s l.label <;> rfl

theorem insertOnly_labelTags (s : Store) (l : LabelData) :
    (insertLabelOnly s l).labelTags = s.labelTags := by
  unfold insertLabelOnly insertLabel
  cases lookupLabelId s l.label <;> rfl

theorem insertOnly_labels (s : Store) (l : LabelData) :
    (insertLabelOnly s l).labels =
      (match lookupLabelId s l.label with
       | some _ => s.labels
       | none => s.labels ++ [(s.nextLabelId, l.label, l.length)]) := by
  unfold insertLabelOnly insertLabel
  cases lookupLabelId s l.label <;> rfl

theorem insertOnly_nextLabelId (s : Store) (l : LabelData) :
    (insertLabelOnly s l).nextLabelId =
      (match lookupLabelId s l.label with
       | some _ => s.nextLabelId
       | none => s.nextLabelId + 1) := by
  unfold insertLabelOnly insertLabel
  cases lookupLabelId s l.label <;> rfl

/-- A present label keeps its id under a later insert-if-absent. -/
theorem lookup_insertOnly_stable (s : Store) (l : LabelData) (x : String) (id : Nat)
    (h : lookupLabelId s x = some id) : lookupLabelId (insertLabelOnly s l) x = some id := by
  unfold lookupLabelId at h ⊢
  rw [insertOnly_labels]
  cases hl : lookupLabelId s l.label
  · dsimp only
    rw [List.find?_append]
    cases hf : s.labels.find? (fun e => e.2.1 == x) with
    | none => rw [hf] at h; cases h
    | some e => rw [hf] at h; exact h
  · dsimp only
    exact h

/-- After an insert-if-absent the label is present, with the id the
insert reported. -/
theorem lookup_insertOnly_self (s : Store) (l : LabelData) :
    lookupLabelId (insertLabelOnly s l) l.label =
      some (insertLabel s l.label l.length).1 := by
  cases hl : lookupLabelId s l.label with
  | some id =>
    rw [show insertLabelOnly s l = s from by
      unfold insertLabelOnly; rw [insertLabel_found s _ _ id hl]]
    rw [insertLabel_found s _ _ id hl]
    exact hl
  | none =>
    rw [show insertLabelOnly s l =
        { s with labels := s.labels ++ [(s.nextLabelId, l.label, l.length)],
                 nextLabelId := s.nextLabelId + 1 } from by
      unfold insertLabelOnly; rw [insertLabel_new s _ _ hl]]
    rw [insertLabel_new s _ _ hl]
    unfold lookupLabelId at hl ⊢
    dsimp only
    rw [List.find?_append]
    cases hf : s.labels.find? (fun e => e.2.1 == l.label) with
    | none =>
      rw [List.find?_cons]
      have : (((s.nextLabelId, l.label, l.length) : Nat × String × Nat).2.1 == l.label) =
          true := by simp
      rw [this]
      rfl
    | some e => rw [hf] at hl; cases hl

theorem getOrCreate_fst (s : Store) (n : String) :
    (getOrCreateTagTx s n).1 =
      (match lookupTagId s n with
       | some id => id
       | none => s.nextTagId) := by
  unfold getOrCreateTagTx
  cases lookupTagId s n <;> rfl

theorem getOrCreate_tags (s : Store) (n : String) :
    (getOrCreateTagTx s n).2.tags =
      (match lookupTagId s n with
       | some _ => s.tags
       | none => s.tags ++ [(s.nextTagId, n)]) := by
  unfold getOrCreateTagTx
  cases lookupTagId s n <;> rfl

theorem getOrCreate_nextTagId (s : Store) (n : String) :
    (getOrCreateTagTx s n).2.nextTagId =
      (match lookupTagId s n with
       | some _ => s.nextTagId
       | none => s.nextTagId + 1) := by
  unfold getOrCreateTagTx
  cases lookupTagId s n <;> rfl

theorem getOrCreate_labels (s : Store) (n : String) :
    (getOrCreateTagTx s n).2.labels = s.labels := by
  unfold getOrCreateTagTx
  cases lookupTagId s n <;> rfl

theorem getOrCreate_nextLabelId (s : Store) (n : String) :
    (getOrCreateTagTx s n).2.nextLabelId = s.nextLabelId := by
  unfold getOrCreateTagTx
  cases lookupTagId s n <;> rfl

theorem getOrCreate_labelTags (s : Store) (n : String) :
    (getOrCreateTagTx s n).2.labelTags = s.labelTags := by
  unfold getOrCreateTagTx
  cases lookupTagId s n <;> rfl

theorem canon_labels (cfg : ImportConfig) (resMap : String → Option Nat) (fid : Nat)
    (s : Store) (l : LabelData) :
    (canonTagAssoc cfg resMap fid s l).labels = s.labels := by
  unfold canonTagAssoc
  cases hres : resMap l.label
  · rfl
  · dsimp only
    split
    · rw [addAssoc_labels]
      split
      · rw [addAssoc_labels, getOrCreate_labels]
      · rfl
    · split
      · rw [addAssoc_labels, getOrCreate_labels]
      · rfl

theorem canon_nextLabelId (cfg : ImportConfig) (resMap : String → Option Nat) (fid : Nat)
    (s : Store) (l : LabelData) :
    (canonTagAssoc cfg resMap fid s l).nextLabelId = s.nextLabelId := by
  unfold canonTagAssoc
  cases hres : resMap l.label
  · rfl
  · dsimp only
    split
    · rw [addAssoc_nextLabelId]
      split
      · rw [addAssoc_nextLabelId, getOrCreate_nextLabelId]
      · rfl
    · split
      · rw [addAssoc_nextLabelId, getOrCreate_nextLabelId]
      · rfl

theorem canon_tags (cfg : ImportConfig) (resMap : String → Option Nat) (fid : Nat)
    (s : Store) (l : LabelData) :
    (canonTagAssoc cfg resMap fid s l).tags =
      (match resMap l.label with
       | none => s.tags
       | some _ =>
         if cfg.autoTag then (getOrCreateTagTx s (generateLengthTag l.length)).2.tags
         else s.tags) := by
  unfold canonTagAssoc
  cases hres : resMap l.label
  · rfl
  · dsimp only
    by_cases hat : cfg.autoTag = true
    · rw [if_pos hat, if_pos hat]
      split
      · rw [addAssoc_tags, addAssoc_tags]
      · rw [addAssoc_tags]
    · rw [if_neg hat, if_neg hat]
      split
      · rw [addAssoc_tags]
      · rfl

theorem canon_nextTagId (cfg : ImportConfig) (resMap : String → Option Nat) (fid : Nat)
    (s : Store) (l : LabelData) :
    (canonTagAssoc cfg resMap fid s l).nextTagId =
      (match resMap l.label with
       | none => s.nextTagId
       | some _ =>
         if cfg.autoTag then (getOrCreateTagTx s (generateLengthTag l.length)).2.nextTagId
         else s.nextTagId) := by
  unfold canonTagAssoc
  cases hres : resMap l.label
  · rfl
  · dsimp only
    by_cases hat : cfg.autoTag = true
    · rw [if_pos hat, if_pos hat]
      split
      · rw [addAssoc_nextTagId, addAssoc_nextTagId]
      · rw [addAssoc_nextTagId]
    · rw [if_neg hat, if_neg hat]
      split
      · rw [addAssoc_nextTagId]
      · rfl

theorem canon_labelTags (cfg : ImportConfig) (resMap : String → Option Nat) (fid : Nat)
    (s : Store) (l : LabelData) :
    (canonTagAssoc cfg resMap fid s l).labelTags =
      (match resMap l.label with
       | none => s.labelTags
       | some lid =>
         let lt1 :=
           if cfg.autoTag then
             (if (lid, (getOrCreateTagTx s (generateLengthTag l.length)).1) ∈ s.labelTags
              then s.labelTags
              else s.labelTags ++
                [(lid, (getOrCreateTagTx s (generateLengthTag l.length)).1)])
           else s.labelTags
         if cfg.filenameTag ≠ "" then
           (if (lid, fid) ∈ lt1 then lt1 else lt1 ++ [(lid, fid)])
         else lt1) := by
  unfold canonTagAssoc
  cases hres : resMap l.label
  · rfl
  · dsimp only
    by_cases hat : cfg.autoTag = true
    · rw [if_pos hat, if_pos hat]
      by_cases hf : cfg.filenameTag ≠ ""
      · rw [if_pos hf, if_pos hf, addAssoc_labelTags, addAssoc_labelTags,
            getOrCreate_labelTags]
      · rw [if_neg hf, if_neg hf, addAssoc_labelTags, getOrCreate_labelTags]
    · rw [if_neg hat, if_neg hat]
      by_cases hf : cfg.filenameTag ≠ ""
      · rw [if_pos hf, if_pos hf, addAssoc_labelTags]
      · rw [if_neg hf, if_neg hf]

/-- One canonical association step commutes with one insert-if-absent:
the two touch disjoint parts of the store. -/
theorem canon_insertOnly_comm (cfg : ImportConfig) (resMap : String → Option Nat)
    (fid : Nat) (t : Store) (l lIns : LabelData) :
    canonTagAssoc cfg resMap fid (insertLabelOnly t lIns) l =
      insertLabelOnly (canonTagAssoc cfg resMap fid t l) lIns := by
  have htagsI : (insertLabelOnly t lIns).tags = t.tags := insertOnly_tags t lIns
  have hntI : (insertLabelOnly t lIns).nextTagId = t.nextTagId :=
    insertOnly_nextTagId t lIns
  have hltI : (insertLabelOnly t lIns).labelTags = t.labelTags :=
    insertOnly_labelTags t lIns
  have hlook : ∀ n, lookupTagId (insertLabelOnly t lIns) n = lookupTagId t n :=
    fun n => lookupTagId_congr htagsI n
  have hgocF : ∀ n, (getOrCreateTagTx (insertLabelOnly t lIns) n).1 =
      (getOrCreateTagTx t n).1 := by
    intro n
    rw [getOrCreate_fst, getOrCreate_fst, hlook, hntI]
  have hgocT : ∀ n, (getOrCreateTagTx (insertLabelOnly t lIns) n).2.tags =
      (getOrCreateTagTx t n).2.tags := by
    intro n
    rw [getOrCreate_tags, getOrCreate_tags, hlook, htagsI, hntI]
  have hgocN : ∀ n, (getOrCreateTagTx (insertLabelOnly t lIns) n).2.nextTagId =
      (getOrCreateTagTx t n).2.nextTagId := by
    intro n
    rw [getOrCreate_nextTagId, getOrCreate_nextTagId, hlook, hntI]
  have hlabC : (canonTagAssoc cfg resMap fid t l).labels = t.labels :=
    canon_labels cfg resMap fid t l
  have hnlC : (canonTagAssoc cfg resMap fid t l).nextLabelId = t.nextLabelId :=
    canon_nextLabelId cfg resMap fid t l
  have hlookL : lookupLabelId (canonTagAssoc cfg resMap fid t l) lIns.label =
      lookupLabelId t lIns.label := lookupLabelId_congr hlabC lIns.label
  apply storeExt
  · -- labels
    rw [canon_labels, insertOnly_labels, insertOnly_labels, hlookL, hlabC, hnlC]
  · -- tags
    rw [insertOnly_tags, canon_tags, canon_tags]
    cases resMap l.label
    · exact htagsI
    · dsimp only
      by_cases hat : cfg.autoTag = true
      · rw [if_pos hat, if_pos hat, hgocT]
      · rw [if_neg hat, if_neg hat, htagsI]
  · -- labelTags
    rw [insertOnly_labelTags, canon_labelTags, canon_labelTags]
    cases resMap l.label
    · exact hltI
    · dsimp only
      rw [hgocF, hltI]
  · -- nextLabelId
    rw [canon_nextLabelId, insertOnly_nextLabelId, insertOnly_nextLabelId, hlookL, hnlC]
  · -- nextTagId
    rw [insertOnly_nextTagId, canon_nextTagId, canon_nextTagId]
    cases resMap l.label
    · exact hntI
    · dsimp only
      by_cases hat : cfg.autoTag = true
      · rw [if_pos hat, if_pos hat, hgocN]
      · rw [if_neg hat, if_neg hat, hntI]

/-- A canonical association step commutes with a whole fold of
insert-if-absent steps. -/
theorem canon_insertFold_comm (cfg : ImportConfig) (resMap : String → Option Nat)
    (fid : Nat) (b : List LabelData) (l : LabelData) : ∀ t : Store,
    canonTagAssoc cfg resMap fid (b.foldl insertLabelOnly t) l =
      b.foldl insertLabelOnly (canonTagAssoc cfg resMap fid t l) := by
  induction b with
  | nil => intro t; rfl
  | cons lIns b ih =>
    intro t
    simp only [List.foldl_cons]
    rw [ih (insertLabelOnly t lIns), canon_insertOnly_comm]

/-- A present label keeps its id under a whole fold of insert-if-absent
steps. -/
theorem lookup_insertFold_stable (b : List LabelData) : ∀ (t : Store) (x : String)
    (id : Nat), lookupLabelId t x = some id →
    lookupLabelId (b.foldl insertLabelOnly t) x = some id := by
  induction b with
  | nil => intro t x id h; exact h
  | cons l b ih =>
    intro t x id h
    simp only [List.foldl_cons]
    exact ih _ x id (lookup_insertOnly_stable t l x id h)

/-- The label table produced by the insert fold depends only on the label
table and counter of the starting store. -/
theorem insertFold_labels_congr (b : List LabelData) : ∀ s t : Store,
    s.labels = t.labels → s.nextLabelId = t.nextLabelId →
    (b.foldl insertLabelOnly s).labels = (b.foldl insertLabelOnly t).labels ∧
    (b.foldl insertLabelOnly s).nextLabelId = (b.foldl insertLabelOnly t).nextLabelId := by
  induction b with
  | nil => intro s t h1 h2; exact ⟨h1, h2⟩
  | cons l b ih =>
    intro s t h1 h2
    simp only [List.foldl_cons]
    apply ih
    · rw [insertOnly_labels, insertOnly_labels, lookupLabelId_congr h1, h1, h2]
    · rw [insertOnly_nextLabelId, insertOnly_nextLabelId, lookupLabelId_congr h1, h2]

/-- When the resolved id of a label is the id its insert produced, the
canonical association step after the insert is exactly the per-label
ingestion effect. -/
theorem ingest_as_canon (cfg : ImportConfig) (resMap : String → Option Nat) (fid : Nat)
    (s : Store) (l : LabelData)
    (h : resMap l.label = some (insertLabel s l.label l.length).1) :
    canonTagAssoc cfg resMap fid (insertLabelOnly s l) l = ingestLabel cfg fid s l := by
  unfold canonTagAssoc ingestLabel insertLabelOnly
  rw [h]

theorem ingest_labels (cfg : ImportConfig) (fid : Nat) (s : Store) (l : LabelData) :
    (ingestLabel cfg fid s l).labels = (insertLabelOnly s l).labels := by
  unfold ingestLabel insertLabelOnly
  dsimp only
  split
  · rw [addAssoc_labels]
    split
    · rw [addAssoc_labels, getOrCreate_labels]
    · rfl
  · split
    · rw [addAssoc_labels, getOrCreate_labels]
    · rfl

theorem ingest_nextLabelId (cfg : ImportConfig) (fid : Nat) (s : Store) (l : LabelData) :
    (ingestLabel cfg fid s l).nextLabelId = (insertLabelOnly s l).nextLabelId := by
  unfold ingestLabel insertLabelOnly
  dsimp only
  split
  · rw [addAssoc_nextLabelId]
    split
    · rw [addAssoc_nextLabelId, getOrCreate_nextLabelId]
    · rfl
  · split
    · rw [addAssoc_nextLabelId, getOrCreate_nextLabelId]
    · rfl

/-- Deferring all association work behind the inserts of a batch computes
the same store as doing the full per-label ingestion in order, provided the
resolved-id map agrees with the post-insert label table on the batch. -/
theorem interleave_spec (cfg : ImportConfig) (resMap : String → Option Nat) (fid : Nat)
    (b : List LabelData) : ∀ s : Store,
    (∀ l ∈ b, resMap l.label = lookupLabelId (b.foldl insertLabelOnly s) l.label) →
    b.foldl (canonTagAssoc cfg resMap fid) (b.foldl insertLabelOnly s) =
      b.foldl (ingestLabel cfg fid) s := by
  induction b with
  | nil => intro s _; rfl
  | cons l b ih =>
    intro s hres
    simp only [List.foldl_cons]
    have hself : lookupLabelId (insertLabelOnly s l) l.label =
        some (insertLabel s l.label l.length).1 := lookup_insertOnly_self s l
    have hstab : lookupLabelId (b.foldl insertLabelOnly (insertLabelOnly s l)) l.label =
        some (insertLabel s l.label l.length).1 :=
      lookup_insertFold_stable b _ _ _ hself
    have hresl : resMap l.label = some (insertLabel s l.label l.length).1 := by
      have := hres l (List.mem_cons_self l b)
      simp only [List.foldl_cons] at this
      rw [this, hstab]
    rw [canon_insertFold_comm, ingest_as_canon cfg resMap fid s l hresl]
    apply ih
    intro l' hl'
    have hcongr := insertFold_labels_congr b (ingestLabel cfg fid s l)
      (insertLabelOnly s l) (ingest_labels cfg fid s l) (ingest_nextLabelId cfg fid s l)
    rw [lookupLabelId_congr hcongr.1]
    have := hres l' (List.mem_cons_of_mem l hl')
    simp only [List.foldl_cons] at this
    exact this

/-- `newOf` depends on its map and seen-set only through the combined
blocked predicate. -/
theorem newOf_blocked_congr (b : List LabelData) :
    ∀ (m mB : String → Option Nat) (seen seenB : String → Bool),
      (∀ x, ((m x).isSome || seen x) = ((mB x).isSome || seenB x)) →
      newOf m seen b = newOf mB seenB b := by
  induction b with
  | nil => intro m mB seen seenB h; rfl
  | cons l b ih =>
    intro m mB seen seenB h
    have hl := h l.label
    cases hm : m l.label with
    | some id =>
      rw [newOf_cons_existing m seen l b (by simp [hm])]
      cases hmB : mB l.label with
      | some idB =>
        rw [newOf_cons_existing mB seenB l b (by simp [hmB])]
        exact ih _ _ _ _ h
      | none =>
        have hsB : seenB l.label = true := by
          rw [hm, hmB] at hl
          simpa using hl.symm
        rw [newOf_cons_seen mB seenB l b hmB hsB]
        exact ih _ _ _ _ h
    | none =>
      cases hs : seen l.label with
      | true =>
        rw [newOf_cons_seen m seen l b hm hs]
        cases hmB : mB l.label with
        | some idB =>
          rw [newOf_cons_existing mB seenB l b (by simp [hmB])]
          exact ih _ _ _ _ h
        | none =>
          have hsB : seenB l.label = true := by
            rw [hm, hs, hmB] at hl
            simpa using hl.symm
          rw [newOf_cons_seen mB seenB l b hmB hsB]
          exact ih _ _ _ _ h
      | false =>
        have hmBn : mB l.label = none := by
          rw [hm, hs] at hl
          cases hmB : mB l.label with
          | none => rfl
          | some idB => rw [hmB] at hl; simp at hl
        have hsBf : seenB l.label = false := by
          rw [hm, hs, hmBn] at hl
          simpa using hl.symm
        rw [newOf_cons_new m seen l b hm hs, newOf_cons_new mB seenB l b hmBn hsBf]
        congr 1
        apply ih
        intro x
        by_cases hx : x = l.label
        · subst hx; simp
        · simp only [hx, decide_False, Bool.false_or]
          exact h x

/-- The sequential insert-if-absent fold in normal form: it appends
exactly the fresh first occurrences, with consecutive ids. -/
theorem insertFold_normal (b : List LabelData) : ∀ s : Store,
    b.foldl insertLabelOnly s =
      { s with
        labels := s.labels ++
          newRows s.nextLabelId (newOf (fun x => lookupLabelId s x) (fun _ => false) b),
        nextLabelId := s.nextLabelId +
          (newOf (fun x => lookupLabelId s x) (fun _ => false) b).length } := by
  induction b with
  | nil =>
    intro s
    apply storeExt <;> simp [newOf, newRows]
  | cons l b ih =>
    intro s
    rw [List.foldl_cons]
    cases hl : lookupLabelId s l.label with
    | some id =>
      have hins : insertLabelOnly s l = s := by
        unfold insertLabelOnly; rw [insertLabel_found s _ _ id hl]
      rw [hins, ih s, newOf_cons_existing _ _ _ _ (by simp [hl])]
    | none =>
      have hins : insertLabelOnly s l =
          { s with labels := s.labels ++ [(s.nextLabelId, l.label, l.length)],
                   nextLabelId := s.nextLabelId + 1 } := by
        unfold insertLabelOnly; rw [insertLabel_new s _ _ hl]
      rw [hins, ih, newOf_cons_new _ _ _ _ hl rfl]
      have hcongr :
          newOf (fun x => lookupLabelId
              { s with labels := s.labels ++ [(s.nextLabelId, l.label, l.length)],
                       nextLabelId := s.nextLabelId + 1 } x) (fun _ => false) b =
            newOf (fun x => lookupLabelId s x) (fun x => x = l.label || false) b := by
        apply newOf_blocked_congr
        intro x
        simp only [Bool.or_false]
        unfold lookupLabelId
        dsimp only
        rw [List.find?_append]
        by_cases hx : l.label = x
        · have hbx : ((l.label == x)) = true := by simp [hx]
          simp [List.find?_cons, hbx, hx.symm]
        · have hbx : ((l.label == x)) = false := by simp [hx]
          have hxd : (decide (x = l.label)) = false :=
            decide_eq_false (fun h => hx h.symm)
          simp [List.find?_cons, hbx, hxd]
      rw [hcongr]
      apply storeExt
      · dsimp only
        rw [show newRows s.nextLabelId
            (l :: newOf (fun x => lookupLabelId s x) (fun x => x = l.label || false) b) =
            (s.nextLabelId, l.label, l.length) ::
              newRows (s.nextLabelId + 1)
                (newOf (fun x => lookupLabelId s x) (fun x => x = l.label || false) b)
          from rfl]
        simp
      · rfl
      · rfl
      · dsimp only
        rw [List.length_cons, Nat.add_assoc, Nat.add_comm 1]
      · rfl

/-- The per-label ingestion fold and the bare insert fold agree on the
label table. -/
theorem ingestFold_labels (cfg : ImportConfig) (fid : Nat) (b : List LabelData) :
    ∀ s : Store,
      (b.foldl (ingestLabel cfg fid) s).labels = (b.foldl insertLabelOnly s).labels ∧
      (b.foldl (ingestLabel cfg fid) s).nextLabelId =
        (b.foldl insertLabelOnly s).nextLabelId := by
  induction b with
  | nil => intro s; exact ⟨rfl, rfl⟩
  | cons l b ih =>
    intro s
    simp only [List.foldl_cons]
    obtain ⟨h1, h2⟩ := ih (ingestLabel cfg fid s l)
    obtain ⟨g1, g2⟩ := insertFold_labels_congr b (ingestLabel cfg fid s l)
      (insertLabelOnly s l) (ingest_labels cfg fid s l) (ingest_nextLabelId cfg fid s l)
    exact ⟨h1.trans g1, h2.trans g2⟩

theorem insertFold_tags (b : List LabelData) : ∀ s : Store,
    (b.foldl insertLabelOnly s).tags = s.tags := by
  induction b with
  | nil => intro s; rfl
  | cons l b ih =>
    intro s
    simp only [List.foldl_cons]
    rw [ih, insertOnly_tags]

theorem bulkAdd_nil (s : Store) : bulkAddTagsToLabels s [] = s := rfl

theorem lookup_of_append_none {s t : Store} (rows : List (Nat × String × Nat))
    (h : t.labels = s.labels ++ rows) (x : String)
    (hn : lookupLabelId t x = none) : lookupLabelId s x = none := by
  unfold lookupLabelId at hn ⊢
  rw [h, List.find?_append] at hn
  cases hf : s.labels.find? (fun e => e.2.1 == x) with
  | none => rfl
  | some e => rw [hf] at hn; simp [Option.or] at hn

theorem lookup_of_append_miss {s t : Store} (rows : List (Nat × String × Nat))
    (h : t.labels = s.labels ++ rows) (x : String)
    (hrows : rows.find? (fun r => r.2.1 == x) = none) :
    lookupLabelId t x = lookupLabelId s x := by
  unfold lookupLabelId
  rw [h, List.find?_append, hrows]
  cases hf : s.labels.find? (fun e => e.2.1 == x) <;> rfl

theorem assocIf_collapse (a : AssocState) :
    (if a.associations.isEmpty then a.store
     else bulkAddTagsToLabels a.store a.associations) =
      bulkAddTagsToLabels a.store a.associations := by
  split
  · rename_i h
    rw [List.isEmpty_iff.mp h, bulkAdd_nil]
  · rfl

/-- The non-committing branch of `processBatch` on a non-empty batch, as
an explicit record. -/
theorem processBatch_noCommit_eq (cfg : ImportConfig) (st : ImportState)
    (hb : st.batch.isEmpty = false)
    (hlp : ¬ commitInterval ≤ st.labelsProcessed + st.batch.length) :
    processBatch cfg st =
      ({ st with
          current := bulkAddTagsToLabels (flushAssoc cfg st).store
            (flushAssoc cfg st).associations,
          labelMap := fun x =>
            match (bulkInsertLabels st.current st.batch st.labelMap).1.labelMap x with
            | some v => some v
            | none => st.labelMap x,
          tagCache := (flushAssoc cfg st).tagCache,
          tagMap := (flushAssoc cfg st).tagMap,
          batch := [],
          labelsProcessed := st.labelsProcessed + st.batch.length,
          stats := { st.stats with
            imported := st.stats.imported + st.batch.length,
            newLabels := st.stats.newLabels +
              (bulkInsertLabels st.current st.batch st.labelMap).1.newCount,
            existingLabels := st.stats.existingLabels +
              (bulkInsertLabels st.current st.batch st.labelMap).1.existingCount } },
       none) := by
  unfold processBatch
  rw [if_neg (by simp [hb])]
  dsimp only
  rw [assocIf_collapse, if_neg hlp]
  rfl

/-- The committing branch of `processBatch` on a non-empty batch with a
successful commit, as an explicit record. -/
theorem processBatch_commit_eq (cfg : ImportConfig) (st : ImportState)
    (hb : st.batch.isEmpty = false)
    (hlp : commitInterval ≤ st.labelsProcessed + st.batch.length)
    (hok : cfg.commitOk st.commitIdx = true) :
    processBatch cfg st =
      ({ st with
          committed := bulkAddTagsToLabels (flushAssoc cfg st).store
            (flushAssoc cfg st).associations,
          current := bulkAddTagsToLabels (flushAssoc cfg st).store
            (flushAssoc cfg st).associations,
          labelMap := fun x =>
            match (bulkInsertLabels st.current st.batch st.labelMap).1.labelMap x with
            | some v => some v
            | none => st.labelMap x,
          tagCache := (flushAssoc cfg st).tagCache,
          tagMap := (flushAssoc cfg st).tagMap,
          batch := [],
          labelsProcessed := 0,
          commitIdx := st.commitIdx + 1,
          stats := { st.stats with
            imported := st.stats.imported + st.batch.length,
            newLabels := st.stats.newLabels +
              (bulkInsertLabels st.current st.batch st.labelMap).1.newCount,
            existingLabels := st.stats.existingLabels +
              (bulkInsertLabels st.current st.batch st.labelMap).1.existingCount } },
       none) := by
  unfold processBatch
  rw [if_neg (by simp [hb])]
  dsimp only
  rw [assocIf_collapse, if_pos hlp, hok, if_pos rfl]
  rfl

/-- The bulk insert of `processBatch` equals the sequential
insert-if-absent fold over the batch. -/
theorem bulkIns_eq_insertFold (st : ImportState)
    (hlm : ∀ x, st.labelMap x = lookupLabelId st.current x) :
    (bulkInsertLabels st.current st.batch st.labelMap).2 =
      st.batch.foldl insertLabelOnly st.current := by
  obtain ⟨hstore, hmap, hnew, hex⟩ :=
    bulkInsertLabels_spec st.batch st.current st.labelMap hlm
  have hnewOf : newOf st.labelMap (fun _ => false) st.batch =
      newOf (fun x => lookupLabelId st.current x) (fun _ => false) st.batch :=
    newOf_blocked_congr _ _ _ _ _ (fun x => by rw [hlm x])
  rw [hstore, hnewOf, insertFold_normal]

/-- The whole store effect of one `processBatch` flush: bulk insert plus
deferred association work equals the per-label ingestion fold; the tag
maps stay coherent. -/
theorem flushAssoc_spec (cfg : ImportConfig) (st : ImportState)
    (hlm : ∀ x, st.labelMap x = lookupLabelId st.current x)
    (htm : ∀ n, st.tagMap n = lookupTagId st.current n)
    (hca : ∀ n id, st.tagCache n = some id → st.tagMap n = some id) :
    bulkAddTagsToLabels (flushAssoc cfg st).store (flushAssoc cfg st).associations =
      st.batch.foldl (ingestLabel cfg st.filenameTagID) st.current ∧
    (∀ n, (flushAssoc cfg st).tagMap n =
      lookupTagId (bulkAddTagsToLabels (flushAssoc cfg st).store
        (flushAssoc cfg st).associations) n) ∧
    (∀ n id, (flushAssoc cfg st).tagCache n = some id →
      (flushAssoc cfg st).tagMap n = some id) := by
  obtain ⟨hstore, hmap, hnew, hex⟩ :=
    bulkInsertLabels_spec st.batch st.current st.labelMap hlm
  have hins2 := bulkIns_eq_insertFold st hlm
  have htm0 : ∀ n, st.tagMap n =
      lookupTagId (bulkInsertLabels st.current st.batch st.labelMap).2 n := by
    intro n
    rw [hins2, lookupTagId_congr (insertFold_tags st.batch st.current) n]
    exact htm n
  obtain ⟨hE, htm1, hca1, _, _, _⟩ := assocFold_spec cfg
    (bulkInsertLabels st.current st.batch st.labelMap).1.labelMap st.filenameTagID
    st.batch
    ⟨[], st.tagCache, st.tagMap, (bulkInsertLabels st.current st.batch st.labelMap).2⟩
    (fun n => htm0 n) (fun n id h => hca n id h)
  have hres : ∀ l ∈ st.batch,
      (bulkInsertLabels st.current st.batch st.labelMap).1.labelMap l.label =
        lookupLabelId (st.batch.foldl insertLabelOnly st.current) l.label := by
    intro l hl
    have hany : st.batch.any (fun lB => lB.label == l.label) = true :=
      List.any_eq_true.mpr ⟨l, hl, by simp⟩
    rw [hmap l.label, if_pos hany, hins2]
  refine ⟨?_, ?_, fun n id h => hca1 n id h⟩
  · show bulkAddTagsToLabels (flushAssoc cfg st).store
        (flushAssoc cfg st).associations = _
    unfold flushAssoc
    rw [hE]
    dsimp only
    rw [bulkAdd_nil, hins2]
    exact interleave_spec cfg _ st.filenameTagID st.batch st.current hres
  · intro n
    have := htm1 n
    rw [lookupTagId_congr (bulkAdd_tags (flushAssoc cfg st).associations
      (flushAssoc cfg st).store) n]
    exact this

/-- Full characterization of `processBatch` when commits succeed: it
never fails, empties the batch, applies the per-label ingestion fold to
the current store, keeps the id maps coherent, adds the batch size to the
imported counter and leaves the row-classification statistics alone. -/
theorem processBatch_spec (cfg : ImportConfig) (st : ImportState)
    (hok : ∀ i, cfg.commitOk i = true)
    (hlm : ∀ x, st.labelMap x = lookupLabelId st.current x)
    (htm : ∀ n, st.tagMap n = lookupTagId st.current n)
    (hca : ∀ n id, st.tagCache n = some id → st.tagMap n = some id) :
    (processBatch cfg st).2 = none ∧
    (processBatch cfg st).1.current =
      st.batch.foldl (ingestLabel cfg st.filenameTagID) st.current ∧
    (processBatch cfg st).1.batch = [] ∧
    (∀ x, (processBatch cfg st).1.labelMap x =
      lookupLabelId (processBatch cfg st).1.current x) ∧
    (∀ n, (processBatch cfg st).1.tagMap n =
      lookupTagId (processBatch cfg st).1.current n) ∧
    (∀ n id, (processBatch cfg st).1.tagCache n = some id →
      (processBatch cfg st).1.tagMap n = some id) ∧
    (processBatch cfg st).1.filenameTagID = st.filenameTagID ∧
    (processBatch cfg st).1.lineNum = st.lineNum ∧
    (processBatch cfg st).1.stats.skipped = st.stats.skipped ∧
    (processBatch cfg st).1.stats.headerSkipped = st.stats.headerSkipped ∧
    (processBatch cfg st).1.stats.errors = st.stats.errors ∧
    (processBatch cfg st).1.stats.imported = st.stats.imported + st.batch.length ∧
    ((processBatch cfg st).1.labelsProcessed = 0 →
      (processBatch cfg st).1.committed = (processBatch cfg st).1.current ∨
      (st.batch = [] ∧ (processBatch cfg st).1.committed = st.committed ∧
        (processBatch cfg st).1.current = st.current)) := by
  by_cases hbe : st.batch.isEmpty = true
  · have hnil : st.batch = [] := List.isEmpty_iff.mp hbe
    have hPB : processBatch cfg st = (st, none) := by
      unfold processBatch; rw [if_pos hbe]
    rw [hPB, hnil]
    exact ⟨rfl, rfl, rfl, hlm, htm, hca, rfl, rfl, rfl, rfl, rfl, rfl,
      fun _ => Or.inr ⟨rfl, rfl, rfl⟩⟩
  · have hbf : st.batch.isEmpty = false := by
      cases h : st.batch.isEmpty
      · rfl
      · exact absurd h hbe
    have hbne : st.batch ≠ [] := by
      intro hn; rw [hn] at hbf; cases hbf
    obtain ⟨hflushE, hflushT, hflushC⟩ := flushAssoc_spec cfg st hlm htm hca
    obtain ⟨hstore, hmap, hnew, hex⟩ :=
      bulkInsertLabels_spec st.batch st.current st.labelMap hlm
    have hins2 := bulkIns_eq_insertFold st hlm
    have hlabs : (bulkInsertLabels st.current st.batch st.labelMap).2.labels =
        st.current.labels ++
          newRows st.current.nextLabelId (newOf st.labelMap (fun _ => false) st.batch) := by
      rw [hstore]
    have hlookCUR : ∀ x,
        lookupLabelId (st.batch.foldl (ingestLabel cfg st.filenameTagID) st.current) x =
          lookupLabelId (bulkInsertLabels st.current st.batch st.labelMap).2 x := by
      intro x
      rw [lookupLabelId_congr
        (ingestFold_labels cfg st.filenameTagID st.batch st.current).1 x, ← hins2]
    have hlab' : ∀ x,
        (match (bulkInsertLabels st.current st.batch st.labelMap).1.labelMap x with
         | some v => some v
         | none => st.labelMap x) =
          lookupLabelId (st.batch.foldl (ingestLabel cfg st.filenameTagID) st.current)
            x := by
      intro x
      have h2 := hmap x
      cases hmx : (bulkInsertLabels st.current st.batch st.labelMap).1.labelMap x with
      | some v =>
        rw [hmx] at h2
        by_cases hany : st.batch.any (fun l => l.label == x) = true
        · rw [if_pos hany] at h2
          dsimp only
          rw [hlookCUR x, ← h2]
        · rw [if_neg hany] at h2
          cases h2
      | none =>
        rw [hmx] at h2
        dsimp only
        rw [hlm x, hlookCUR x]
        by_cases hany : st.batch.any (fun l => l.label == x) = true
        · rw [if_pos hany] at h2
          rw [← h2, lookup_of_append_none _ hlabs x h2.symm]
        · have hxnot : x ∉ (newOf st.labelMap (fun _ => false) st.batch).map
              (fun l => l.label) := by
            intro hmem
            obtain ⟨lB, hlB, hlx⟩ := List.mem_map.mp hmem
            have hfacts := (newOf_facts st.labelMap st.batch (fun _ => false)).1 lB hlB
            exact hany (List.any_eq_true.mpr ⟨lB, hfacts.1, by rw [hlx]; simp⟩)
          have hfind := newRows_find?_none x _ st.current.nextLabelId hxnot
          rw [lookup_of_append_miss _ hlabs x hfind]
    by_cases hlp : commitInterval ≤ st.labelsProcessed + st.batch.length
    · have hPB := processBatch_commit_eq cfg st hbf hlp (hok st.commitIdx)
      rw [hPB]
      refine ⟨rfl, hflushE, rfl, ?_, ?_, fun n id h => hflushC n id h, rfl, rfl, rfl,
        rfl, rfl, rfl, fun _ => Or.inl ?_⟩
      · intro x
        show (match (bulkInsertLabels st.current st.batch st.labelMap).1.labelMap x with
              | some v => some v
              | none => st.labelMap x) = _
        rw [hlab' x, hflushE]
      · intro n
        show (flushAssoc cfg st).tagMap n = _
        exact hflushT n
      · show bulkAddTagsToLabels (flushAssoc cfg st).store
            (flushAssoc cfg st).associations = _
        rfl
    · have hPB := processBatch_noCommit_eq cfg st hbf hlp
      rw [hPB]
      refine ⟨rfl, hflushE, rfl, ?_, ?_, fun n id h => hflushC n id h, rfl, rfl, rfl,
        rfl, rfl, rfl, ?_⟩
      · intro x
        show (match (bulkInsertLabels st.current st.batch st.labelMap).1.labelMap x with
              | some v => some v
              | none => st.labelMap x) = _
        rw [hlab' x, hflushE]
      · intro n
        show (flushAssoc cfg st).tagMap n = _
        exact hflushT n
      · intro h
        exfalso
        have hz : st.labelsProcessed + st.batch.length = 0 := h
        have : st.batch.length ≠ 0 := by
          intro hzz
          exact hbne (List.length_eq_zero.mp hzz)
        omega

theorem getOrCreate_lookup (s : Store) (n m : String) :
    lookupTagId (getOrCreateTagTx s n).2 m =
      if m = n then some (getOrCreateTagTx s n).1 else lookupTagId s m := by
  cases hl : lookupTagId s n with
  | some id =>
    rw [getOrCreateTagTx_found s n id hl]
    by_cases hm : m = n
    · rw [if_pos hm, hm, hl]
    · rw [if_neg hm]
  | none =>
    rw [getOrCreateTagTx_new s n hl]
    unfold lookupTagId at hl ⊢
    dsimp only
    rw [List.find?_append]
    cases hf : s.tags.find? (fun e => e.2 == n) with
    | some e => rw [hf] at hl; cases hl
    | none =>
      by_cases hm : m = n
      · subst hm
        rw [hf]
        simp [List.find?_cons]
      · have hne : ((n == m)) = false := by
          simp only [beq_eq_false_iff_ne, ne_eq]
          exact fun h => hm h.symm
        rw [if_neg hm]
        cases hg : s.tags.find? (fun e => e.2 == m) <;>
          simp [List.find?_cons, hne, Option.or]

theorem preTagStep_inv (st : ImportState) (i : Nat)
    (hlm : ∀ x, st.labelMap x = lookupLabelId st.current x)
    (htm : ∀ n, st.tagMap n = lookupTagId st.current n)
    (hca : ∀ n id, st.tagCache n = some id → st.tagMap n = some id) :
    (∀ x, (preTagStep st i).labelMap x = lookupLabelId (preTagStep st i).current x) ∧
    (∀ n, (preTagStep st i).tagMap n = lookupTagId (preTagStep st i).current n) ∧
    (∀ n id, (preTagStep st i).tagCache n = some id →
      (preTagStep st i).tagMap n = some id) ∧
    (preTagStep st i).current.labels = st.current.labels ∧
    (preTagStep st i).committed = st.committed ∧
    (preTagStep st i).batch = st.batch ∧
    (preTagStep st i).labelsProcessed = st.labelsProcessed ∧
    (preTagStep st i).lineNum = st.lineNum ∧
    (preTagStep st i).stats = st.stats ∧
    (preTagStep st i).labelMap = st.labelMap ∧
    (preTagStep st i).filenameTagID = st.filenameTagID := by
  cases hm : st.tagMap (generateLengthTag i) with
  | some tagID =>
    have hstep : preTagStep st i =
        { st with tagCache := updateFn st.tagCache (generateLengthTag i) tagID } := by
      unfold preTagStep
      dsimp only
      rw [hm]
    rw [hstep]
    refine ⟨hlm, htm, ?_, rfl, rfl, rfl, rfl, rfl, rfl, rfl, rfl⟩
    intro n id h
    dsimp only at h ⊢
    unfold updateFn at h
    by_cases hn : n = generateLengthTag i
    · rw [if_pos hn] at h
      rw [hn, hm]
      exact h
    · rw [if_neg hn] at h
      exact hca n id h
  | none =>
    have hstep : preTagStep st i =
        { st with
          current := (getOrCreateTagTx st.current (generateLengthTag i)).2,
          tagCache := updateFn st.tagCache (generateLengthTag i)
            (getOrCreateTagTx st.current (generateLengthTag i)).1,
          tagMap := updateFn st.tagMap (generateLengthTag i)
            (getOrCreateTagTx st.current (generateLengthTag i)).1 } := by
      unfold preTagStep
      dsimp only
      rw [hm]
    rw [hstep]
    refine ⟨?_, ?_, ?_, getOrCreate_labels _ _, rfl, rfl, rfl, rfl, rfl, rfl, rfl⟩
    · intro x
      dsimp only
      rw [hlm x]
      exact lookupLabelId_congr (getOrCreate_labels _ _).symm x
    · intro n
      dsimp only
      unfold updateFn
      rw [getOrCreate_lookup]
      by_cases hn : n = generateLengthTag i
      · rw [if_pos hn, if_pos hn]
      · rw [if_neg hn, if_neg hn]
        exact htm n
    · intro n id h
      dsimp only at h ⊢
      unfold updateFn at h ⊢
      by_cases hn : n = generateLengthTag i
      · rw [if_pos hn] at h ⊢
        exact h
      · rw [if_neg hn] at h ⊢
        exact hca n id h

theorem preTagFold_inv (L : List Nat) : ∀ st : ImportState,
    (∀ x, st.labelMap x = lookupLabelId st.current x) →
    (∀ n, st.tagMap n = lookupTagId st.current n) →
    (∀ n id, st.tagCache n = some id → st.tagMap n = some id) →
    (∀ x, (L.foldl preTagStep st).labelMap x =
      lookupLabelId (L.foldl preTagStep st).current x) ∧
    (∀ n, (L.foldl preTagStep st).tagMap n =
      lookupTagId (L.foldl preTagStep st).current n) ∧
    (∀ n id, (L.foldl preTagStep st).tagCache n = some id →
      (L.foldl preTagStep st).tagMap n = some id) ∧
    (L.foldl preTagStep st).committed = st.committed ∧
    (L.foldl preTagStep st).batch = st.batch ∧
    (L.foldl preTagStep st).labelsProcessed = st.labelsProcessed ∧
    (L.foldl preTagStep st).lineNum = st.lineNum ∧
    (L.foldl preTagStep st).stats = st.stats := by
  induction L with
  | nil => intro st h1 h2 h3; exact ⟨h1, h2, h3, rfl, rfl, rfl, rfl, rfl⟩
  | cons i L ih =>
    intro st h1 h2 h3
    simp only [List.foldl_cons]
    obtain ⟨g1, g2, g3, _, g5, g6, g7, g8, g9, _, _⟩ := preTagStep_inv st i h1 h2 h3
    obtain ⟨k1, k2, k3, k4, k5, k6, k7, k8⟩ := ih (preTagStep st i) g1 g2 g3
    exact ⟨k1, k2, k3, k4.trans g5, k5.trans g6, k6.trans g7, k7.trans g8, k8.trans g9⟩

theorem fnameStep_inv (cfg : ImportConfig) (st : ImportState)
    (h1 : ∀ x, st.labelMap x = lookupLabelId st.current x)
    (h2 : ∀ n, st.tagMap n = lookupTagId st.current n)
    (h3 : ∀ n id, st.tagCache n = some id → st.tagMap n = some id) :
    (∀ x, (fnameStep cfg st).labelMap x = lookupLabelId (fnameStep cfg st).current x) ∧
    (∀ n, (fnameStep cfg st).tagMap n = lookupTagId (fnameStep cfg st).current n) ∧
    (∀ n id, (fnameStep cfg st).tagCache n = some id →
      (fnameStep cfg st).tagMap n = some id) ∧
    (fnameStep cfg st).committed = st.committed ∧
    (fnameStep cfg st).batch = st.batch ∧
    (fnameStep cfg st).labelsProcessed = st.labelsProcessed ∧
    (fnameStep cfg st).lineNum = st.lineNum ∧
    (fnameStep cfg st).stats = st.stats := by
  by_cases hf : cfg.filenameTag ≠ ""
  · cases hm : st.tagMap cfg.filenameTag with
    | some tagID =>
      have hstep : fnameStep cfg st = { st with filenameTagID := tagID } := by
        unfold fnameStep
        rw [if_pos hf, hm]
      rw [hstep]
      exact ⟨h1, h2, h3, rfl, rfl, rfl, rfl, rfl⟩
    | none =>
      have hstep : fnameStep cfg st =
          { st with
            current := (getOrCreateTagTx st.current cfg.filenameTag).2,
            filenameTagID := (getOrCreateTagTx st.current cfg.filenameTag).1,
            tagMap := updateFn st.tagMap cfg.filenameTag
              (getOrCreateTagTx st.current cfg.filenameTag).1 } := by
        unfold fnameStep
        rw [if_pos hf, hm]
      rw [hstep]
      refine ⟨?_, ?_, ?_, rfl, rfl, rfl, rfl, rfl⟩
      · intro x
        dsimp only
        rw [h1 x]
        exact lookupLabelId_congr (getOrCreate_labels _ _).symm x
      · intro n
        dsimp only
        unfold updateFn
        rw [getOrCreate_lookup]
        by_cases hn : n = cfg.filenameTag
        · rw [if_pos hn, if_pos hn]
        · rw [if_neg hn, if_neg hn]
          exact h2 n
      · intro n id h
        dsimp only at h ⊢
        unfold updateFn
        by_cases hn : n = cfg.filenameTag
        · exfalso
          have := h3 n id h
          rw [hn, hm] at this
          cases this
        · rw [if_neg hn]
          exact h3 n id h
  · have hstep : fnameStep cfg st = st := by
      unfold fnameStep
      rw [if_neg hf]
    rw [hstep]
    exact ⟨h1, h2, h3, rfl, rfl, rfl, rfl, rfl⟩

/-- The state produced by the setup phase is coherent and has touched
nothing but the current store and the id maps. -/
theorem importInit_spec (cfg : ImportConfig) (s0 : Store) :
    (∀ x, (importInit cfg s0).labelMap x = lookupLabelId (importInit cfg s0).current x) ∧
    (∀ n, (importInit cfg s0).tagMap n = lookupTagId (importInit cfg s0).current n) ∧
    (∀ n id, (importInit cfg s0).tagCache n = some id →
      (importInit cfg s0).tagMap n = some id) ∧
    (importInit cfg s0).committed = s0 ∧
    (importInit cfg s0).batch = [] ∧
    (importInit cfg s0).labelsProcessed = 0 ∧
    (importInit cfg s0).lineNum = 0 ∧
    (importInit cfg s0).stats = ⟨0, 0, 0, 0, false, []⟩ := by
  have hinit : importInit cfg s0 = fnameStep cfg
      (if cfg.autoTag then
        ((List.range 20).map (· + 1)).foldl preTagStep
          ⟨s0, s0, fun x => lookupLabelId s0 x, fun n => lookupTagId s0 n, fun _ => none,
            0, [], 0, 0, 0, ⟨0, 0, 0, 0, false, []⟩⟩
       else
        ⟨s0, s0, fun x => lookupLabelId s0 x, fun n => lookupTagId s0 n, fun _ => none,
          0, [], 0, 0, 0, ⟨0, 0, 0, 0, false, []⟩⟩) := rfl
  have hbase1 : ∀ x,
      (⟨s0, s0, fun x => lookupLabelId s0 x, fun n => lookupTagId s0 n, fun _ => none,
        0, [], 0, 0, 0, ⟨0, 0, 0, 0, false, []⟩⟩ : ImportState).labelMap x =
        lookupLabelId (⟨s0, s0, fun x => lookupLabelId s0 x, fun n => lookupTagId s0 n,
          fun _ => none, 0, [], 0, 0, 0, ⟨0, 0, 0, 0, false, []⟩⟩ : ImportState).current
          x := fun _ => rfl
  have hbase2 : ∀ n,
      (⟨s0, s0, fun x => lookupLabelId s0 x, fun n => lookupTagId s0 n, fun _ => none,
        0, [], 0, 0, 0, ⟨0, 0, 0, 0, false, []⟩⟩ : ImportState).tagMap n =
        lookupTagId (⟨s0, s0, fun x => lookupLabelId s0 x, fun n => lookupTagId s0 n,
          fun _ => none, 0, [], 0, 0, 0, ⟨0, 0, 0, 0, false, []⟩⟩ : ImportState).current
          n := fun _ => rfl
  have hbase3 : ∀ n id,
      (⟨s0, s0, fun x => lookupLabelId s0 x, fun n => lookupTagId s0 n, fun _ => none,
        0, [], 0, 0, 0, ⟨0, 0, 0, 0, false, []⟩⟩ : ImportState).tagCache n = some id →
      (⟨s0, s0, fun x => lookupLabelId s0 x, fun n => lookupTagId s0 n, fun _ => none,
        0, [], 0, 0, 0, ⟨0, 0, 0, 0, false, []⟩⟩ : ImportState).tagMap n = some id :=
    fun _ _ h => by cases h
  by_cases hat : cfg.autoTag = true
  · rw [hinit, if_pos hat]
    obtain ⟨k1, k2, k3, k4, k5, k6, k7, k8⟩ :=
      preTagFold_inv (((List.range 20).map (· + 1))) _ hbase1 hbase2 hbase3
    obtain ⟨m1, m2, m3, m4, m5, m6, m7, m8⟩ := fnameStep_inv cfg _ k1 k2 k3
    exact ⟨m1, m2, m3, m4.trans k4, m5.trans k5, m6.trans k6, m7.trans k7, m8.trans k8⟩
  · rw [hinit, if_neg hat]
    obtain ⟨m1, m2, m3, m4, m5, m6, m7, m8⟩ := fnameStep_inv cfg _ hbase1 hbase2 hbase3
    exact ⟨m1, m2, m3, m4, m5, m6, m7, m8⟩

theorem processBatchChecked_ok (cfg : ImportConfig) (stX : ImportState)
    (hsnd : (processBatch cfg stX).2 = none) :
    processBatchChecked cfg stX = (processBatch cfg stX).1 := by
  unfold processBatchChecked
  cases hpb : processBatch cfg stX with
  | mk a b =>
    rw [hpb] at hsnd
    cases hsnd
    rfl

/-- One step of the read loop preserves the loop invariant, for a
suitable flushed-prefix. -/
theorem importRow_inv (cfg : ImportConfig) (s0 sInit : Store) (fid0 : Nat)
    (hok : ∀ i, cfg.commitOk i = true) (hbs : 1 ≤ cfg.batchSize)
    (st : ImportState) (c : RowClass) (flushed : List LabelData) (row : RawRow)
    (hinv : LoopInv cfg s0 sInit fid0 st c flushed) :
    ∃ flushedR, LoopInv cfg s0 sInit fid0 (importRow cfg st row)
      (classifyRow cfg.aceOk c row) flushedR := by
  obtain ⟨h1, h2, h3, h4, h5, h6, h7, h8, h9, h10, h11, h12, h13, h14⟩ := hinv
  cases row with
  | readError msg =>
    refine ⟨flushed, h1, h2, h3, h4, h5, h6, h7, ?_, h9, h10, ?_, h12, h13, h14⟩
    · show st.lineNum + 1 = c.lineNum + 1
      rw [h8]
    · show st.stats.errors ++ _ = c.errors ++ _
      rw [h11, h8]
  | fields record =>
    cases record with
    | nil =>
      refine ⟨flushed, h1, h2, h3, h4, h5, h6, h7, ?_, ?_, h10, h11, h12, h13, h14⟩
      · show st.lineNum + 1 = c.lineNum + 1
        rw [h8]
      · show st.stats.skipped + 1 = c.skipped + 1
        rw [h9]
    | cons f rest =>
      by_cases hlab : toLowerStr (trimStr f) = ""
      · have hIR : importRow cfg st (.fields (f :: rest)) =
            { st with lineNum := st.lineNum + 1,
                      stats := { st.stats with skipped := st.stats.skipped + 1 } } := by
          unfold importRow
          dsimp only
          rw [if_pos hlab]
        have hCR : classifyRow cfg.aceOk c (.fields (f :: rest)) =
            { c with lineNum := c.lineNum + 1, skipped := c.skipped + 1 } := by
          unfold classifyRow
          dsimp only
          rw [if_pos hlab]
        rw [hIR, hCR]
        refine ⟨flushed, h1, h2, h3, h4, h5, h6, h7, ?_, ?_, h10, h11, h12, h13, h14⟩
        · show st.lineNum + 1 = c.lineNum + 1
          rw [h8]
        · show st.stats.skipped + 1 = c.skipped + 1
          rw [h9]
      · by_cases hh : ¬ st.stats.headerSkipped = true ∧
            isHeaderRow (toLowerStr (trimStr f)) = true
        · have hIR : importRow cfg st (.fields (f :: rest)) =
              { st with lineNum := st.lineNum + 1,
                        stats := { st.stats with
                                    headerSkipped := true,
                                    skipped := st.stats.skipped + 1 } } := by
            unfold importRow
            dsimp only
            rw [if_neg hlab, if_pos hh]
          have hCR : classifyRow cfg.aceOk c (.fields (f :: rest)) =
              { c with lineNum := c.lineNum + 1, headerSkipped := true,
                       skipped := c.skipped + 1 } := by
            unfold classifyRow
            dsimp only
            rw [if_neg hlab, if_pos ⟨by rw [← h10]; exact hh.1, hh.2⟩]
          rw [hIR, hCR]
          refine ⟨flushed, h1, h2, h3, h4, h5, h6, h7, ?_, ?_, rfl, h11, h12, h13, h14⟩
          · show st.lineNum + 1 = c.lineNum + 1
            rw [h8]
          · show st.stats.skipped + 1 = c.skipped + 1
            rw [h9]
        · have hhC : ¬ (¬ c.headerSkipped = true ∧
              isHeaderRow (toLowerStr (trimStr f)) = true) := by
            intro hc
            exact hh ⟨by rw [h10]; exact hc.1, hc.2⟩
          cases hval : validateLabel cfg.aceOk (toLowerStr (trimStr f)) with
          | some err =>
            have hIR : importRow cfg st (.fields (f :: rest)) =
                { st with lineNum := st.lineNum + 1,
                          stats := { st.stats with
                            skipped := st.stats.skipped + 1,
                            errors := st.stats.errors ++
                              ["line " ++ toString (st.lineNum + 1) ++
                               ": skipped invalid label " ++ toLowerStr (trimStr f) ++
                               ": " ++ labelErrorMessage err] } } := by
              unfold importRow
              dsimp only
              rw [if_neg hlab, if_neg hh, hval]
            have hCR : classifyRow cfg.aceOk c (.fields (f :: rest)) =
                { c with lineNum := c.lineNum + 1, skipped := c.skipped + 1,
                         errors := c.errors ++
                           ["line " ++ toString (c.lineNum + 1) ++
                            ": skipped invalid label " ++ toLowerStr (trimStr f) ++
                            ": " ++ labelErrorMessage err] } := by
              unfold classifyRow
              dsimp only
              rw [if_neg hlab, if_neg hhC, hval]
            rw [hIR, hCR]
            refine ⟨flushed, h1, h2, h3, h4, h5, h6, h7, ?_, ?_, h10, ?_, h12, h13, h14⟩
            · show st.lineNum + 1 = c.lineNum + 1
              rw [h8]
            · show st.stats.skipped + 1 = c.skipped + 1
              rw [h9]
            · show st.stats.errors ++ _ = c.errors ++ _
              rw [h11, h8]
          | none =>
            by_cases hfl : cfg.batchSize ≤
                (st.batch ++ [(⟨toLowerStr (trimStr f),
                  (toLowerStr (trimStr f)).length⟩ : LabelData)]).length
            · -- the appended row fills the batch: it is flushed
              have hIR : importRow cfg st (.fields (f :: rest)) =
                  processBatchChecked cfg
                    { st with lineNum := st.lineNum + 1,
                              batch := st.batch ++ [⟨toLowerStr (trimStr f),
                                (toLowerStr (trimStr f)).length⟩] } := by
                unfold importRow
                dsimp only
                rw [if_neg hlab, if_neg hh, hval]
                dsimp only
                rw [if_pos hfl]
              have hCR : classifyRow cfg.aceOk c (.fields (f :: rest)) =
                  { c with lineNum := c.lineNum + 1,
                           accepted := c.accepted ++ [⟨toLowerStr (trimStr f),
                             (toLowerStr (trimStr f)).length⟩] } := by
                unfold classifyRow
                dsimp only
                rw [if_neg hlab, if_neg hhC, hval]
              obtain ⟨p1, p2, p3, p4, p5, p6, p7, p8, p9, p10, p11, p12, p13⟩ :=
                processBatch_spec cfg
                  { st with lineNum := st.lineNum + 1,
                            batch := st.batch ++ [⟨toLowerStr (trimStr f),
                              (toLowerStr (trimStr f)).length⟩] }
                  hok h1 h2 h3
              have hchk := processBatchChecked_ok cfg
                { st with lineNum := st.lineNum + 1,
                          batch := st.batch ++ [⟨toLowerStr (trimStr f),
                            (toLowerStr (trimStr f)).length⟩] } p1
              rw [hIR, hCR, hchk]
              refine ⟨flushed ++ (st.batch ++ [⟨toLowerStr (trimStr f),
                (toLowerStr (trimStr f)).length⟩]), p4, p5, p6, ?_, ?_, ?_, ?_, ?_,
                ?_, ?_, ?_, ?_, ?_, ?_⟩
              · rw [p7]
                exact h4
              · rw [p3]
                dsimp only
                rw [List.append_nil, h5, List.append_assoc]
              · rw [p2]
                show (st.batch ++ [(⟨toLowerStr (trimStr f),
                  (toLowerStr (trimStr f)).length⟩ : LabelData)]).foldl
                    (ingestLabel cfg st.filenameTagID) st.current = _
                rw [h4, h6]
                simp only [List.foldl_append]
              · rw [p3]
                exact hbs
              · rw [p8]
                show st.lineNum + 1 = c.lineNum + 1
                rw [h8]
              · rw [p9]
                exact h9
              · rw [p10]
                exact h10
              · rw [p11]
                exact h11
              · rw [p12]
                show st.stats.imported + _ = _
                rw [h12]
                simp [List.length_append]
              · intro hfe
                simp at hfe
              · intro hz
                rcases p13 hz with hcc | ⟨hb2, _, _⟩
                · exact Or.inl hcc
                · exfalso
                  have : st.batch ++ [(⟨toLowerStr (trimStr f),
                      (toLowerStr (trimStr f)).length⟩ : LabelData)] = [] := hb2
                  simp at this
            · have hIR : importRow cfg st (.fields (f :: rest)) =
                  { st with lineNum := st.lineNum + 1,
                            batch := st.batch ++ [⟨toLowerStr (trimStr f),
                              (toLowerStr (trimStr f)).length⟩] } := by
                unfold importRow
                dsimp only
                rw [if_neg hlab, if_neg hh, hval]
                dsimp only
                rw [if_neg hfl]
              have hCR : classifyRow cfg.aceOk c (.fields (f :: rest)) =
                  { c with lineNum := c.lineNum + 1,
                           accepted := c.accepted ++ [⟨toLowerStr (trimStr f),
                             (toLowerStr (trimStr f)).length⟩] } := by
                unfold classifyRow
                dsimp only
                rw [if_neg hlab, if_neg hhC, hval]
              rw [hIR, hCR]
              refine ⟨flushed, h1, h2, h3, h4, ?_, h6, ?_, ?_, h9, h10, h11, h12,
                ?_, h14⟩
              · show c.accepted ++ _ = flushed ++ (st.batch ++ _)
                rw [h5, List.append_assoc]
              · show (st.batch ++ _).length < cfg.batchSize
                rw [List.length_append]
                push_neg at hfl
                rw [List.length_append] at hfl
                exact hfl
              · show st.lineNum + 1 = c.lineNum + 1
                rw [h8]
              · intro hfe
                exact h13 hfe

theorem importLoop_inv (cfg : ImportConfig) (s0 sInit : Store) (fid0 : Nat)
    (hok : ∀ i, cfg.commitOk i = true) (hbs : 1 ≤ cfg.batchSize) (rows : List RawRow) :
    ∀ (st : ImportState) (c : RowClass) (flushed : List LabelData),
      LoopInv cfg s0 sInit fid0 st c flushed →
      ∃ flushedR, LoopInv cfg s0 sInit fid0 (importLoop cfg st rows)
        (rows.foldl (classifyRow cfg.aceOk) c) flushedR := by
  induction rows with
  | nil => intro st c flushed h; exact ⟨flushed, h⟩
  | cons r rows ih =>
    intro st c flushed h
    obtain ⟨flushed1, hs1⟩ := importRow_inv cfg s0 sInit fid0 hok hbs st c flushed r h
    unfold importLoop
    simp only [List.foldl_cons]
    exact ih (importRow cfg st r) (classifyRow cfg.aceOk c r) flushed1 hs1

theorem importInit_loopInv (cfg : ImportConfig) (s0 : Store)
    (hbs : 1 ≤ cfg.batchSize) :
    LoopInv cfg s0 (importInit cfg s0).current (importInit cfg s0).filenameTagID
      (importInit cfg s0) ⟨[], 0, false, [], 0⟩ [] := by
  obtain ⟨i1, i2, i3, i4, i5, i6, i7, i8⟩ := importInit_spec cfg s0
  refine ⟨i1, i2, i3, rfl, ?_, rfl, ?_, ?_, ?_, ?_, ?_, ?_, ?_, ?_⟩
  · show ([] : List LabelData) = [] ++ (importInit cfg s0).batch
    rw [i5]
    rfl
  · rw [i5]
    exact hbs
  · rw [i7]
  · rw [i8]
  · rw [i8]
  · rw [i8]
  · rw [i8]
    rfl
  · intro _
    exact ⟨i6, i4⟩
  · intro _
    exact Or.inr rfl

theorem statsExt (s1 s2 : ImportStats) (h1 : s1.imported = s2.imported)
    (h2 : s1.newLabels = s2.newLabels) (h3 : s1.existingLabels = s2.existingLabels)
    (h4 : s1.skipped = s2.skipped) (h5 : s1.headerSkipped = s2.headerSkipped)
    (h6 : s1.errors = s2.errors) : s1 = s2 := by
  cases s1
  cases s2
  dsimp only at h1 h2 h3 h4 h5 h6
  subst h1 h2 h3 h4 h5 h6
  rfl

/-- The master canonical-run lemma: with all commits succeeding and a
positive batch size, `ImportCSV` succeeds, produces exactly the canonical
store of its accepted rows, and its statistics agree with the pure row
classification (the new/existing split depends on batching and stays
abstract here). -/
theorem importCSV_canon (cfg : ImportConfig) (s0 : Store) (rows : List RawRow)
    (hok : ∀ i, cfg.commitOk i = true) (hbs : 1 ≤ cfg.batchSize) :
    ∃ nL eL,
      importCSV cfg s0 rows =
        (canonStore cfg s0 rows,
         .ok ⟨(classify cfg.aceOk rows).accepted.length, nL, eL,
              (classify cfg.aceOk rows).skipped,
              (classify cfg.aceOk rows).headerSkipped,
              (classify cfg.aceOk rows).errors⟩) := by
  obtain ⟨flushedL, L1, L2, L3, L4, L5, L6, L7, L8, L9, L10, L11, L12, L13, L14⟩ :=
    importLoop_inv cfg s0 (importInit cfg s0).current (importInit cfg s0).filenameTagID
      hok hbs rows (importInit cfg s0) ⟨[], 0, false, [], 0⟩ []
      (importInit_loopInv cfg s0 hbs)
  obtain ⟨q1, q2, q3, q4, q5, q6, q7, q8, q9, q10, q11, q12, q13⟩ :=
    processBatch_spec cfg (importLoop cfg (importInit cfg s0) rows) hok L1 L2 L3
  have hchk := processBatchChecked_ok cfg (importLoop cfg (importInit cfg s0) rows) q1
  have hCSV1 : 0 < (processBatch cfg
        (importLoop cfg (importInit cfg s0) rows)).1.labelsProcessed →
      importCSV cfg s0 rows =
        ((processBatch cfg (importLoop cfg (importInit cfg s0) rows)).1.current,
         .ok (processBatch cfg (importLoop cfg (importInit cfg s0) rows)).1.stats) := by
    intro h
    unfold importCSV
    dsimp only
    rw [hchk, if_pos h, hok _, if_pos rfl]
  have hCSV2 : (processBatch cfg
        (importLoop cfg (importInit cfg s0) rows)).1.labelsProcessed = 0 →
      importCSV cfg s0 rows =
        ((processBatch cfg (importLoop cfg (importInit cfg s0) rows)).1.committed,
         .ok (processBatch cfg (importLoop cfg (importInit cfg s0) rows)).1.stats) := by
    intro h
    unfold importCSV
    dsimp only
    rw [hchk, if_neg (by rw [h]; exact Nat.lt_irrefl 0)]
  have hstatsCore :
      (processBatch cfg (importLoop cfg (importInit cfg s0) rows)).1.stats =
        ⟨(classify cfg.aceOk rows).accepted.length,
         (processBatch cfg (importLoop cfg (importInit cfg s0) rows)).1.stats.newLabels,
         (processBatch cfg
           (importLoop cfg (importInit cfg s0) rows)).1.stats.existingLabels,
         (classify cfg.aceOk rows).skipped,
         (classify cfg.aceOk rows).headerSkipped,
         (classify cfg.aceOk rows).errors⟩ := by
    apply statsExt
    · rw [q12, L12]
      show _ = (classify cfg.aceOk rows).accepted.length
      unfold classify
      rw [L5, List.length_append]
    · rfl
    · rfl
    · rw [q9, L9]
      rfl
    · rw [q10, L10]
      rfl
    · rw [q11, L11]
      rfl
  refine ⟨(processBatch cfg (importLoop cfg (importInit cfg s0) rows)).1.stats.newLabels,
    (processBatch cfg (importLoop cfg (importInit cfg s0) rows)).1.stats.existingLabels,
    ?_⟩
  have hcurE : (processBatch cfg (importLoop cfg (importInit cfg s0) rows)).1.current =
      (classify cfg.aceOk rows).accepted.foldl
        (ingestLabel cfg (importInit cfg s0).filenameTagID)
        (importInit cfg s0).current := by
    rw [q2, L4, L6]
    show _ = ((classify cfg.aceOk rows).accepted.foldl _ _)
    unfold classify
    rw [L5]
    simp only [List.foldl_append]
  by_cases hacc : (classify cfg.aceOk rows).accepted = []
  · have hsplit : flushedL = [] ∧ (importLoop cfg (importInit cfg s0) rows).batch = [] := by
      have : flushedL ++ (importLoop cfg (importInit cfg s0) rows).batch = [] := by
        rw [← L5]
        exact hacc
      exact List.append_eq_nil.mp this
    have hcanon : canonStore cfg s0 rows = s0 := by
      unfold canonStore
      rw [if_pos (by rw [hacc]; rfl)]
    obtain ⟨hlp0, hcom⟩ := L13 hsplit.1
    have hid : processBatch cfg (importLoop cfg (importInit cfg s0) rows) =
        (importLoop cfg (importInit cfg s0) rows, none) := by
      unfold processBatch
      rw [if_pos (by rw [hsplit.2]; rfl)]
    have hlpE : (processBatch cfg
        (importLoop cfg (importInit cfg s0) rows)).1.labelsProcessed = 0 := by
      rw [hid]
      exact hlp0
    have hcomE : (processBatch cfg
        (importLoop cfg (importInit cfg s0) rows)).1.committed = s0 := by
      rw [hid]
      exact hcom
    rw [hCSV2 hlpE, hstatsCore, hcanon, hcomE]
  · have hne : (classify cfg.aceOk rows).accepted.isEmpty = false := by
      cases h : (classify cfg.aceOk rows).accepted with
      | nil => exact absurd h hacc
      | cons a l => rfl
    have hcanon : canonStore cfg s0 rows =
        (classify cfg.aceOk rows).accepted.foldl
          (ingestLabel cfg (importInit cfg s0).filenameTagID)
          (importInit cfg s0).current := by
      unfold canonStore
      rw [if_neg (by rw [hne]; exact Bool.false_ne_true)]
    by_cases hbL : (importLoop cfg (importInit cfg s0) rows).batch = []
    · have hflacc : flushedL = (classify cfg.aceOk rows).accepted := by
        have := L5
        rw [hbL, List.append_nil] at this
        exact this.symm
      have hid : processBatch cfg (importLoop cfg (importInit cfg s0) rows) =
          (importLoop cfg (importInit cfg s0) rows, none) := by
        unfold processBatch
        rw [if_pos (by rw [hbL]; rfl)]
      by_cases hlp0 : (importLoop cfg (importInit cfg s0) rows).labelsProcessed = 0
      · have hcc : (importLoop cfg (importInit cfg s0) rows).committed =
            (importLoop cfg (importInit cfg s0) rows).current := by
          rcases L14 hlp0 with h | h
          · exact h
          · exfalso
            rw [h] at hflacc
            exact hacc hflacc.symm
        have hlpE : (processBatch cfg
            (importLoop cfg (importInit cfg s0) rows)).1.labelsProcessed = 0 := by
          rw [hid]
          exact hlp0
        have hcur2 : (importLoop cfg (importInit cfg s0) rows).current =
            (classify cfg.aceOk rows).accepted.foldl
              (ingestLabel cfg (importInit cfg s0).filenameTagID)
              (importInit cfg s0).current := by
          have h2 := hcurE
          rw [hid] at h2
          exact h2
        have hcomE : (processBatch cfg
            (importLoop cfg (importInit cfg s0) rows)).1.committed =
            (classify cfg.aceOk rows).accepted.foldl
              (ingestLabel cfg (importInit cfg s0).filenameTagID)
              (importInit cfg s0).current := by
          rw [hid]
          exact hcc.trans hcur2
        rw [hCSV2 hlpE, hstatsCore, hcanon, hcomE]
      · have hlpE : 0 < (processBatch cfg
            (importLoop cfg (importInit cfg s0) rows)).1.labelsProcessed := by
          rw [hid]
          exact Nat.pos_of_ne_zero hlp0
        rw [hCSV1 hlpE, hstatsCore, hcanon, hcurE]
    · by_cases hlpE : (processBatch cfg
          (importLoop cfg (importInit cfg s0) rows)).1.labelsProcessed = 0
      · rcases q13 hlpE with hcc | ⟨hbnil, _, _⟩
        · rw [hCSV2 hlpE, hstatsCore, hcanon, hcc, hcurE]
        · exact absurd hbnil hbL
      · rw [hCSV1 (Nat.pos_of_ne_zero hlpE), hstatsCore, hcanon, hcurE]

/-- C8: ingesting the same records with any two batching granularities
(in particular one batch of size N versus batches of size 1) produces the
identical final store — the same label rows, tag rows and label–tag
associations — provided the commits succeed. -/
theorem claim8_batch_size_irrelevant (cfg : ImportConfig) (b1 b2 : Nat) (s0 : Store)
    (rows : List RawRow) (hok : ∀ i, cfg.commitOk i = true)
    (hb1 : 1 ≤ b1) (hb2 : 1 ≤ b2) :
    (importCSV { cfg with batchSize := b1 } s0 rows).1 =
      (importCSV { cfg with batchSize := b2 } s0 rows).1 := by
  obtain ⟨n1, e1, h1⟩ := importCSV_canon { cfg with batchSize := b1 } s0 rows hok hb1
  obtain ⟨n2, e2, h2⟩ := importCSV_canon { cfg with batchSize := b2 } s0 rows hok hb2
  rw [h1, h2]
  rfl

/-- Witness for C8: a three-row input ingested with batch size 3 and with
batch size 1 ends in the same store. -/
theorem claim8_witness :
    (∀ i, (⟨fun _ => true, fun _ => true, 2, true, ""⟩ : ImportConfig).commitOk i =
      true) ∧ 1 ≤ 3 ∧ 1 ≤ 1 ∧
    (importCSV { (⟨fun _ => true, fun _ => true, 2, true, ""⟩ : ImportConfig) with
        batchSize := 3 }
      Store.empty [.fields ["apple"], .fields ["pear"], .fields ["apple"]]).1 =
    (importCSV { (⟨fun _ => true, fun _ => true, 2, true, ""⟩ : ImportConfig) with
        batchSize := 1 }
      Store.empty [.fields ["apple"], .fields ["pear"], .fields ["apple"]]).1 :=
  ⟨fun _ => rfl, by decide, by decide,
   claim8_batch_size_irrelevant ⟨fun _ => true, fun _ => true, 2, true, ""⟩ 3 1
     Store.empty [.fields ["apple"], .fields ["pear"], .fields ["apple"]]
     (fun _ => rfl) (by decide) (by decide)⟩

/-- C7 counterexample: when the final commit fails, the run aborts with
the error alone — the accumulated statistics (here one imported row) are
not surfaced, contradicting the claim that the partial Stats are returned
together with the error. -/
theorem claim7_counterexample_no_stats_on_final_commit_failure :
    importCSV ⟨fun _ => true, fun _ => false, 10000, true, ""⟩ Store.empty
      [.fields ["apple"]] =
    (Store.empty, .error "failed to commit final transaction") := by
  rfl

/-- C7 (amended): no per-row problem ever aborts the run — with all
commits succeeding the result is always `ok` — while a failure of the
final commit aborts the run and surfaces only the error (not the
statistics), returning the last committed store. -/
theorem claim7_row_problems_skip_commit_failure_aborts (cfg : ImportConfig)
    (s0 : Store) (rows : List RawRow)
    (hok : ∀ i, cfg.commitOk i = true) (hbs : 1 ≤ cfg.batchSize) :
    (∃ st, (importCSV cfg s0 rows).2 = .ok st) ∧
    (∀ (cfgF : ImportConfig) (s0F : Store) (rowsF : List RawRow),
      0 < (processBatchChecked cfgF
        (importLoop cfgF (importInit cfgF s0F) rowsF)).labelsProcessed →
      cfgF.commitOk (processBatchChecked cfgF
        (importLoop cfgF (importInit cfgF s0F) rowsF)).commitIdx = false →
      importCSV cfgF s0F rowsF =
        ((processBatchChecked cfgF
           (importLoop cfgF (importInit cfgF s0F) rowsF)).committed,
         .error "failed to commit final transaction")) := by
  constructor
  · obtain ⟨nL, eL, h⟩ := importCSV_canon cfg s0 rows hok hbs
    exact ⟨_, by rw [h]⟩
  · intro cfgF s0F rowsF hlp hfail
    unfold importCSV
    dsimp only
    rw [if_pos hlp, hfail, if_neg Bool.false_ne_true]

/-- Witness for C7: a run containing a reader error, an invalid label and
a valid label still returns `ok`. -/
theorem claim7_witness :
    (∀ i, (⟨fun _ => true, fun _ => true, 1, true, ""⟩ : ImportConfig).commitOk i =
      true) ∧
    (1 ≤ (⟨fun _ => true, fun _ => true, 1, true, ""⟩ : ImportConfig).batchSize) ∧
    (∃ st, (importCSV ⟨fun _ => true, fun _ => true, 1, true, ""⟩ Store.empty
      [.readError "parse failure", .fields ["-bad-"], .fields ["apple"]]).2 =
        .ok st) :=
  ⟨fun _ => rfl, by decide,
   (claim7_row_problems_skip_commit_failure_aborts
     ⟨fun _ => true, fun _ => true, 1, true, ""⟩ Store.empty
     [.readError "parse failure", .fields ["-bad-"], .fields ["apple"]]
     (fun _ => rfl) (by decide)).1⟩

/-- C5 counterexample: in the four-line scenario the duplicate "apple"
is imported again, not skipped: the run reports imported 3 and skipped 1
(the header only), never the claimed accepted 2 / skipped 2. -/
theorem claim5_counterexample_duplicate_not_skipped :
    (importCSV ⟨fun _ => true, fun _ => true, 10000, true, ""⟩ Store.empty
        [.fields ["STRING"], .fields ["apple"], .fields ["banana"],
         .fields ["apple"]]).2 =
      .ok ⟨3, 2, 0, 1, true, []⟩ ∧
    ¬ ∃ st : ImportStats,
        (importCSV ⟨fun _ => true, fun _ => true, 10000, true, ""⟩ Store.empty
          [.fields ["STRING"], .fields ["apple"], .fields ["banana"],
           .fields ["apple"]]).2 = .ok st ∧
        st.imported = 2 ∧ st.skipped = 2 := by
  refine ⟨rfl, ?_⟩
  rintro ⟨st, h1, h2, h3⟩
  have h0 : (importCSV ⟨fun _ => true, fun _ => true, 10000, true, ""⟩ Store.empty
      [.fields ["STRING"], .fields ["apple"], .fields ["banana"],
       .fields ["apple"]]).2 =
      (.ok ⟨3, 2, 0, 1, true, []⟩ : Except String ImportStats) := rfl
  rw [h0] at h1
  have hst : (⟨3, 2, 0, 1, true, []⟩ : ImportStats) = st := Except.ok.inj h1
  rw [← hst] at h2
  exact absurd h2 (by decide)

/-- C5 (amended): importing the four lines "STRING", "apple", "banana",
"apple" into an empty store with header detection and auto-tagging on
yields imported 3 (the duplicate "apple" occurrence is counted as
imported, not skipped), newCount 2, existingCount 0, skipped 1 (the
header row only), and associates tag `len:5` with "apple" (ids 1 and 5)
and `len:6` with "banana" (ids 2 and 6); the length tags `len:1`..`len:20`
are pre-created with ids 1..20. -/
theorem claim5_end_to_end_scenario :
    importCSV ⟨fun _ => true, fun _ => true, 10000, true, ""⟩ Store.empty
      [.fields ["STRING"], .fields ["apple"], .fields ["banana"],
       .fields ["apple"]] =
    (⟨[(1, "apple", 5), (2, "banana", 6)],
      [(1, "len:1"), (2, "len:2"), (3, "len:3"), (4, "len:4"), (5, "len:5"),
       (6, "len:6"), (7, "len:7"), (8, "len:8"), (9, "len:9"), (10, "len:10"),
       (11, "len:11"), (12, "len:12"), (13, "len:13"), (14, "len:14"),
       (15, "len:15"), (16, "len:16"), (17, "len:17"), (18, "len:18"),
       (19, "len:19"), (20, "len:20")],
      [(1, 5), (2, 6)], 3, 21⟩,
     .ok ⟨3, 2, 0, 1, true, []⟩) := by
  rfl

theorem processBatch_headerSkipped (cfg : ImportConfig) (st : ImportState) :
    (processBatch cfg st).1.stats.headerSkipped = st.stats.headerSkipped := by
  unfold processBatch
  split
  · rfl
  · dsimp only
    split
    · split
      · rfl
      · rfl
    · rfl

theorem processBatchChecked_headerSkipped (cfg : ImportConfig) (st : ImportState) :
    (processBatchChecked cfg st).stats.headerSkipped = st.stats.headerSkipped := by
  have h := processBatch_headerSkipped cfg st
  unfold processBatchChecked
  cases hpb : processBatch cfg st with
  | mk a b =>
    rw [hpb] at h
    cases b
    · exact h
    · exact h

/-- The header flag after one read-loop step: it is set exactly by a
skipped header-looking row while the flag was still clear; accepting a
row never sets or clears it. -/
theorem importRow_headerSkipped_iff (cfg : ImportConfig) (st : ImportState)
    (row : RawRow) :
    (importRow cfg st row).stats.headerSkipped = true ↔
      (st.stats.headerSkipped = true ∨
       ∃ f rest, row = .fields (f :: rest) ∧ toLowerStr (trimStr f) ≠ "" ∧
         st.stats.headerSkipped = false ∧
         isHeaderRow (toLowerStr (trimStr f)) = true) := by
  cases row with
  | readError msg =>
    show st.stats.headerSkipped = true ↔ _
    constructor
    · exact Or.inl
    · rintro (h | ⟨f, rest, hrow, _⟩)
      · exact h
      · cases hrow
  | fields record =>
    cases record with
    | nil =>
      show st.stats.headerSkipped = true ↔ _
      constructor
      · exact Or.inl
      · rintro (h | ⟨f, rest, hrow, _⟩)
        · exact h
        · cases hrow
    | cons f rest =>
      by_cases hlab : toLowerStr (trimStr f) = ""
      · have hkeep : (importRow cfg st (.fields (f :: rest))).stats.headerSkipped =
            st.stats.headerSkipped := by
          unfold importRow
          dsimp only
          rw [if_pos hlab]
        rw [hkeep]
        constructor
        · exact Or.inl
        · rintro (h | ⟨fB, restB, hrow, hlabB, hsf, hisH⟩)
          · exact h
          · cases hrow
            exact absurd hlab hlabB
      · by_cases hh : ¬ st.stats.headerSkipped = true ∧
            isHeaderRow (toLowerStr (trimStr f)) = true
        · have hIR : (importRow cfg st (.fields (f :: rest))).stats.headerSkipped =
              true := by
            unfold importRow
            dsimp only
            rw [if_neg hlab, if_pos hh]
          rw [hIR]
          constructor
          · intro _
            refine Or.inr ⟨f, rest, rfl, hlab, ?_, hh.2⟩
            cases hb : st.stats.headerSkipped
            · rfl
            · exact absurd hb hh.1
          · intro _
            rfl
        · have hkeep : (importRow cfg st (.fields (f :: rest))).stats.headerSkipped =
              st.stats.headerSkipped := by
            unfold importRow
            dsimp only
            rw [if_neg hlab, if_neg hh]
            cases hval : validateLabel cfg.aceOk (toLowerStr (trimStr f)) with
            | some err => rfl
            | none =>
              dsimp only
              split
              · rw [processBatchChecked_headerSkipped]
              · rfl
          rw [hkeep]
          constructor
          · exact Or.inl
          · rintro (h | ⟨fB, restB, hrow, hlabB, hsf, hisH⟩)
            · exact h
            · cases hrow
              exact absurd (And.intro (fun hcon => by rw [hsf] at hcon; cases hcon)
                hisH) hh

/-- C6 counterexample: "label" is still skipped as a header after
"apple" was accepted (the gate is the header-skipped flag, not
acceptance), and the raw fully-upper-case field "ABC" is imported as
"abc" rather than skipped (the upper-case heuristic runs on the already
lower-cased field, which fails it). -/
theorem claim6_counterexample_gate_and_case :
    importCSV ⟨fun _ => true, fun _ => true, 10000, false, ""⟩ Store.empty
        [.fields ["apple"], .fields ["label"]] =
      (⟨[(1, "apple", 5)], [], [], 2, 1⟩, .ok ⟨1, 1, 0, 1, true, []⟩) ∧
    importCSV ⟨fun _ => true, fun _ => true, 10000, false, ""⟩ Store.empty
        [.fields ["ABC"]] =
      (⟨[(1, "abc", 3)], [], [], 2, 1⟩, .ok ⟨1, 1, 0, 0, false, []⟩) ∧
    isHeaderRow "abc" = false :=
  ⟨rfl, rfl, rfl⟩

/-- C6 (amended): a field is header-like exactly when its trimmed
lower-casing is one of the fixed keywords, or the field as passed equals
its own upper-casing and is longer than two characters — since
`ImportCSV` passes the already lower-cased trimmed field, the upper-case
arm fires only for fields without letters; the heuristic applies exactly
while the header-skipped flag is clear, and the flag is set by the first
skipped header row (not by accepting a row), after which no row is
header-checked again. -/
theorem claim6_header_heuristic_and_gate :
    (∀ s : String, isHeaderRow s = true ↔
      (headerKeywords.contains (toLowerStr (trimStr s)) = true ∨
       (s = toUpperStr s ∧ 2 < s.length))) ∧
    (∀ (cfg : ImportConfig) (st : ImportState) (row : RawRow),
      (importRow cfg st row).stats.headerSkipped = true ↔
        (st.stats.headerSkipped = true ∨
         ∃ f rest, row = .fields (f :: rest) ∧ toLowerStr (trimStr f) ≠ "" ∧
           st.stats.headerSkipped = false ∧
           isHeaderRow (toLowerStr (trimStr f)) = true)) ∧
    (∀ (cfg : ImportConfig) (st : ImportState) (f : String) (rest : List String),
      st.stats.headerSkipped = false → isHeaderRow (toLowerStr (trimStr f)) = true →
      toLowerStr (trimStr f) ≠ "" →
      importRow cfg st (.fields (f :: rest)) =
        { st with lineNum := st.lineNum + 1,
                  stats := { st.stats with
                              headerSkipped := true,
                              skipped := st.stats.skipped + 1 } }) := by
  refine ⟨?_, importRow_headerSkipped_iff, ?_⟩
  · intro s
    unfold isHeaderRow
    dsimp only
    by_cases hc : headerKeywords.contains (toLowerStr (trimStr s)) = true
    · rw [if_pos hc]
      exact ⟨fun _ => Or.inl hc, fun _ => rfl⟩
    · rw [if_neg hc]
      by_cases hu : s = toUpperStr s ∧ s.length > 1
      · rw [if_pos hu]
        by_cases h2 : s.length > 2
        · rw [if_pos h2]
          exact ⟨fun _ => Or.inr ⟨hu.1, h2⟩, fun _ => rfl⟩
        · rw [if_neg h2]
          constructor
          · intro h
            cases h
          · rintro (h | ⟨hA, hB⟩)
            · exact absurd h hc
            · exact absurd hB h2
      · rw [if_neg hu]
        constructor
        · intro h
          cases h
        · rintro (h | ⟨hA, hB⟩)
          · exact absurd h hc
          · exact absurd ⟨hA, by omega⟩ hu
  · intro cfg st f rest hsf hisH hlab
    unfold importRow
    dsimp only
    rw [if_neg hlab,
      if_pos ⟨fun hcon => Bool.false_ne_true (hsf ▸ hcon), hisH⟩]

/-! ### The label-row invariant (C9) -/

theorem preTagFold_labels (L : List Nat) : ∀ st : ImportState,
    (L.foldl preTagStep st).current.labels = st.current.labels := by
  induction L with
  | nil => intro st; rfl
  | cons i L ih =>
    intro st
    simp only [List.foldl_cons]
    rw [ih]
    unfold preTagStep
    dsimp only
    split
    · rfl
    · dsimp only
      rw [getOrCreate_labels]

theorem fnameStep_labels (cfg : ImportConfig) (st : ImportState) :
    (fnameStep cfg st).current.labels = st.current.labels := by
  unfold fnameStep
  split
  · split
    · rfl
    · dsimp only
      rw [getOrCreate_labels]
  · rfl

theorem importInit_labels (cfg : ImportConfig) (s0 : Store) :
    (importInit cfg s0).current.labels = s0.labels := by
  unfold importInit
  dsimp only
  rw [fnameStep_labels]
  split
  · rw [preTagFold_labels]
  · rfl

theorem labelRowWF_congr {s t : Store} (h : s.labels = t.labels) :
    labelRowWF s ↔ labelRowWF t := by
  unfold labelRowWF
  rw [h]

theorem labelRowWeakWF_congr {s t : Store} (h : s.labels = t.labels) :
    labelRowWeakWF s ↔ labelRowWeakWF t := by
  unfold labelRowWeakWF
  rw [h]

theorem lookup_none_text_not_mem (s : Store) (x : String)
    (h : lookupLabelId s x = none) : x ∉ s.labels.map (fun e => e.2.1) := by
  intro hmem
  obtain ⟨e, he, hex⟩ := List.mem_map.mp hmem
  unfold lookupLabelId at h
  rw [Option.map_eq_none'] at h
  have := List.find?_eq_none.mp h e he
  rw [hex] at this
  simp at this

theorem insertLabelOnly_WF (s : Store) (l : LabelData)
    (hwf : labelRowWF s) (hlen : l.length = l.label.length)
    (h1 : 1 ≤ l.label.toList.length) (h63 : l.label.toList.length ≤ 63)
    (hchars : ∀ c ∈ l.label.toList,
      ('a' ≤ c ∧ c ≤ 'z') ∨ ('0' ≤ c ∧ c ≤ '9') ∨ c = '-') :
    labelRowWF (insertLabelOnly s l) := by
  cases hl : lookupLabelId s l.label with
  | some id =>
    have : insertLabelOnly s l = s := by
      unfold insertLabelOnly
      rw [insertLabel_found s _ _ id hl]
    rw [this]
    exact hwf
  | none =>
    have hstep : insertLabelOnly s l =
        { s with labels := s.labels ++ [(s.nextLabelId, l.label, l.length)],
                 nextLabelId := s.nextLabelId + 1 } := by
      unfold insertLabelOnly
      rw [insertLabel_new s _ _ hl]
    rw [hstep]
    obtain ⟨hnd, hrows⟩ := hwf
    constructor
    · show ((s.labels ++ [(s.nextLabelId, l.label, l.length)]).map
        (fun e => e.2.1)).Nodup
      rw [List.map_append]
      rw [List.nodup_append]
      refine ⟨hnd, List.nodup_singleton _, ?_⟩
      intro x hx hx1
      simp only [List.map_cons, List.map_nil, List.mem_singleton] at hx1
      rw [hx1] at hx
      exact lookup_none_text_not_mem s l.label hl hx
    · intro e he
      rw [List.mem_append] at he
      rcases he with he | he
      · exact hrows e he
      · rw [List.mem_singleton] at he
        rw [he]
        exact ⟨h1, h63, hchars, hlen⟩

theorem ingestLabel_WF (cfg : ImportConfig) (fid : Nat) (s : Store) (l : LabelData)
    (hwf : labelRowWF s) (hlen : l.length = l.label.length)
    (h1 : 1 ≤ l.label.toList.length) (h63 : l.label.toList.length ≤ 63)
    (hchars : ∀ c ∈ l.label.toList,
      ('a' ≤ c ∧ c ≤ 'z') ∨ ('0' ≤ c ∧ c ≤ '9') ∨ c = '-') :
    labelRowWF (ingestLabel cfg fid s l) := by
  rw [labelRowWF_congr (ingest_labels cfg fid s l)]
  exact insertLabelOnly_WF s l hwf hlen h1 h63 hchars

theorem ingestFold_WF (cfg : ImportConfig) (fid : Nat) (acc : List LabelData) :
    ∀ s : Store, labelRowWF s →
    (∀ l ∈ acc, validateLabel cfg.aceOk l.label = none ∧ l.length = l.label.length) →
    labelRowWF (acc.foldl (ingestLabel cfg fid) s) := by
  induction acc with
  | nil => intro s hwf _; exact hwf
  | cons l acc ih =>
    intro s hwf hvals
    simp only [List.foldl_cons]
    obtain ⟨hval, hlen⟩ := hvals l (List.mem_cons_self l acc)
    obtain ⟨h1, h63, hchars, -⟩ := (validateLabel_none_iff cfg.aceOk l.label).mp hval
    exact ih (ingestLabel cfg fid s l)
      (ingestLabel_WF cfg fid s l hwf hlen h1 h63 hchars)
      (fun lB hlB => hvals lB (List.mem_cons_of_mem l hlB))

/-- Each step of the row classification only appends validated, freshly
measured labels to the accepted list. -/
theorem classifyRow_accepted_mem (aceOk : String → Bool) (c : RowClass) (row : RawRow) :
    ∀ l ∈ (classifyRow aceOk c row).accepted,
      l ∈ c.accepted ∨
      (validateLabel aceOk l.label = none ∧ l.length = l.label.length) := by
  intro l hl
  cases row with
  | readError msg => exact Or.inl hl
  | fields record =>
    cases record with
    | nil => exact Or.inl hl
    | cons f rest =>
      by_cases hlab : toLowerStr (trimStr f) = ""
      · refine Or.inl ?_
        have : (classifyRow aceOk c (.fields (f :: rest))).accepted = c.accepted := by
          unfold classifyRow
          dsimp only
          rw [if_pos hlab]
        rw [this] at hl
        exact hl
      · by_cases hh : ¬ c.headerSkipped = true ∧
            isHeaderRow (toLowerStr (trimStr f)) = true
        · refine Or.inl ?_
          have : (classifyRow aceOk c (.fields (f :: rest))).accepted = c.accepted := by
            unfold classifyRow
            dsimp only
            rw [if_neg hlab, if_pos hh]
          rw [this] at hl
          exact hl
        · cases hval : validateLabel aceOk (toLowerStr (trimStr f)) with
          | some err =>
            refine Or.inl ?_
            have : (classifyRow aceOk c (.fields (f :: rest))).accepted =
                c.accepted := by
              unfold classifyRow
              dsimp only
              rw [if_neg hlab, if_neg hh, hval]
            rw [this] at hl
            exact hl
          | none =>
            have : (classifyRow aceOk c (.fields (f :: rest))).accepted =
                c.accepted ++ [⟨toLowerStr (trimStr f),
                  (toLowerStr (trimStr f)).length⟩] := by
              unfold classifyRow
              dsimp only
              rw [if_neg hlab, if_neg hh, hval]
            rw [this, List.mem_append] at hl
            rcases hl with hl | hl
            · exact Or.inl hl
            · rw [List.mem_singleton] at hl
              rw [hl]
              exact Or.inr ⟨hval, rfl⟩

theorem classifyFold_accepted_valid (aceOk : String → Bool) (rows : List RawRow) :
    ∀ c : RowClass,
      (∀ l ∈ c.accepted,
        validateLabel aceOk l.label = none ∧ l.length = l.label.length) →
      ∀ l ∈ (rows.foldl (classifyRow aceOk) c).accepted,
        validateLabel aceOk l.label = none ∧ l.length = l.label.length := by
  induction rows with
  | nil => intro c hc; exact hc
  | cons r rows ih =>
    intro c hc
    simp only [List.foldl_cons]
    refine ih (classifyRow aceOk c r) ?_
    intro l hl
    rcases classifyRow_accepted_mem aceOk c r l hl with h | h
    · exact hc l h
    · exact h

theorem runTag_assocFold_labels (lid : Nat) (tagsL : List String) : ∀ s : Store,
    (tagsL.foldl (fun s tagName =>
      addAssoc (getOrCreateTagTx s tagName).2 lid (getOrCreateTagTx s tagName).1)
      s).labels = s.labels := by
  induction tagsL with
  | nil => intro s; rfl
  | cons t tagsL ih =>
    intro s
    simp only [List.foldl_cons]
    rw [ih, addAssoc_labels, getOrCreate_labels]

/-- C9 counterexample: the tag command inserts its label argument
verbatim — `runTag` on "FOO" stores the upper-case text "FOO", violating
the lowercase/alphabet invariant; and it stores Go's byte length, so on
the non-ASCII argument "ñ" the stored length is 2 while the character
count is 1, violating even the stored-length-equals-character-count
bookkeeping. -/
theorem claim9_counterexample_runTag_unvalidated :
    (runTag Store.empty "FOO" ["x"] =
      ⟨[(1, "FOO", 3)], [(1, "x")], [(1, 1)], 2, 2⟩ ∧
     ¬ labelRowWF (runTag Store.empty "FOO" ["x"])) ∧
    (runTag Store.empty "ñ" [] =
      ⟨[(1, "ñ", 2)], [], [], 2, 1⟩ ∧
     "ñ".length = 1 ∧
     ¬ labelRowWeakWF (runTag Store.empty "ñ" [])) := by
  exact ⟨⟨rfl, by decide⟩, ⟨rfl, rfl, by decide⟩⟩

/-- C9 (amended): the CSV importer preserves the full label-row
invariant — unique lowercase texts of 1–63 characters over `[a-z0-9-]`
with the stored length equal to the text's character count — because it
only inserts validated lower-cased labels; the tag command's
create-label-if-absent path preserves only uniqueness: it inserts its
argument verbatim without validation or lower-casing, and the row it
appends carries Go's byte length `len(label)`, which equals the
character count only for ASCII arguments. -/
theorem claim9_label_invariants (cfg : ImportConfig) (s0 : Store) (rows : List RawRow)
    (hok : ∀ i, cfg.commitOk i = true) (hbs : 1 ≤ cfg.batchSize)
    (hwf : labelRowWF s0) :
    labelRowWF (importCSV cfg s0 rows).1 ∧
    (∀ (s : Store) (label : String) (tagsL : List String),
      (s.labels.map (fun e => e.2.1)).Nodup →
      ((runTag s label tagsL).labels.map (fun e => e.2.1)).Nodup ∧
      ((runTag s label tagsL).labels = s.labels ∨
       (runTag s label tagsL).labels =
         s.labels ++ [(s.nextLabelId, label, utf8Len label)])) := by
  constructor
  · obtain ⟨nL, eL, h⟩ := importCSV_canon cfg s0 rows hok hbs
    rw [h]
    show labelRowWF (canonStore cfg s0 rows)
    by_cases hacc : (classify cfg.aceOk rows).accepted.isEmpty = true
    · have hc : canonStore cfg s0 rows = s0 := by
        unfold canonStore
        rw [if_pos hacc]
      rw [hc]
      exact hwf
    · have hc : canonStore cfg s0 rows =
          (classify cfg.aceOk rows).accepted.foldl
            (ingestLabel cfg (importInit cfg s0).filenameTagID)
            (importInit cfg s0).current := by
        unfold canonStore
        rw [if_neg hacc]
      rw [hc]
      refine ingestFold_WF cfg (importInit cfg s0).filenameTagID _
        (importInit cfg s0).current ?_ ?_
      · exact (labelRowWF_congr (importInit_labels cfg s0)).mpr hwf
      · intro l hl
        refine classifyFold_accepted_valid cfg.aceOk rows ⟨[], 0, false, [], 0⟩
          ?_ l hl
        intro lB hlB
        cases hlB
  · intro s label tagsL hnd
    unfold runTag
    cases hl : lookupLabelId s label with
    | some id =>
      dsimp only
      rw [runTag_assocFold_labels id tagsL s]
      exact ⟨hnd, Or.inl rfl⟩
    | none =>
      dsimp only
      rw [insertLabel_new s _ _ hl]
      dsimp only
      rw [runTag_assocFold_labels s.nextLabelId tagsL _]
      refine ⟨?_, Or.inr rfl⟩
      show ((s.labels ++ [(s.nextLabelId, label, utf8Len label)]).map
        (fun e => e.2.1)).Nodup
      rw [List.map_append, List.nodup_append]
      refine ⟨hnd, List.nodup_singleton _, ?_⟩
      intro x hx hx1
      simp only [List.map_cons, List.map_nil, List.mem_singleton] at hx1
      rw [hx1] at hx
      exact lookup_none_text_not_mem s label hl hx

/-- Witness for C9: a concrete import into the empty store keeps the
invariant, and `runTag` keeps the text uniqueness, appending at most one
row carrying the argument's byte length. -/
theorem claim9_witness :
    (∀ i, (⟨fun _ => true, fun _ => true, 1, true, ""⟩ : ImportConfig).commitOk i =
      true) ∧
    (1 ≤ (⟨fun _ => true, fun _ => true, 1, true, ""⟩ : ImportConfig).batchSize) ∧
    labelRowWF Store.empty ∧
    (labelRowWF (importCSV ⟨fun _ => true, fun _ => true, 1, true, ""⟩ Store.empty
        [.fields ["apple"]]).1 ∧
     (∀ (s : Store) (label : String) (tagsL : List String),
       (s.labels.map (fun e => e.2.1)).Nodup →
       ((runTag s label tagsL).labels.map (fun e => e.2.1)).Nodup ∧
       ((runTag s label tagsL).labels = s.labels ∨
        (runTag s label tagsL).labels =
          s.labels ++ [(s.nextLabelId, label, utf8Len label)]))) :=
  ⟨fun _ => rfl, by decide, by decide,
   claim9_label_invariants ⟨fun _ => true, fun _ => true, 1, true, ""⟩ Store.empty
     [.fields ["apple"]] (fun _ => rfl) (by decide) (by decide)⟩

/-! ### The saturated (second-run) behaviour of the ingestion (C3) -/

theorem newOf_all_some_nil (m : String → Option Nat) (b : List LabelData) :
    ∀ seen : String → Bool, (∀ l ∈ b, (m l.label).isSome = true) →
    newOf m seen b = [] := by
  induction b with
  | nil => intro seen _; rfl
  | cons l b ih =>
    intro seen hall
    rw [newOf_cons_existing m seen l b (hall l (List.mem_cons_self l b))]
    exact ih seen (fun lB hlB => hall lB (List.mem_cons_of_mem l hlB))

theorem filter_isSome_all (m : String → Option Nat) (b : List LabelData)
    (hall : ∀ l ∈ b, (m l.label).isSome = true) :
    (b.filter (fun l => (m l.label).isSome)).length = b.length := by
  rw [List.filter_eq_self.mpr hall]

/-- On a fully saturated batch, a flush creates nothing new and counts
every batch element as existing. -/
theorem processBatch_satStats (cfg : ImportConfig) (st : ImportState)
    (hlm : ∀ x, st.labelMap x = lookupLabelId st.current x)
    (hsat : ∀ l ∈ st.batch, (st.labelMap l.label).isSome = true) :
    (processBatch cfg st).1.stats.newLabels = st.stats.newLabels ∧
    (processBatch cfg st).1.stats.existingLabels =
      st.stats.existingLabels + st.batch.length := by
  obtain ⟨hstore, hmap, hnew, hex⟩ :=
    bulkInsertLabels_spec st.batch st.current st.labelMap hlm
  have hnew0 : (bulkInsertLabels st.current st.batch st.labelMap).1.newCount = 0 := by
    rw [hnew, newOf_all_some_nil st.labelMap st.batch (fun _ => false) hsat]
    rfl
  have hexB : (bulkInsertLabels st.current st.batch st.labelMap).1.existingCount =
      st.batch.length := by
    rw [hex, filter_isSome_all st.labelMap st.batch hsat]
  unfold processBatch
  split
  · rename_i hbe
    have : st.batch = [] := List.isEmpty_iff.mp hbe
    rw [this]
    exact ⟨rfl, rfl⟩
  · dsimp only
    split
    · split
      · refine ⟨?_, ?_⟩
        · show st.stats.newLabels +
            (bulkInsertLabels st.current st.batch st.labelMap).1.newCount = _
          rw [hnew0, Nat.add_zero]
        · show st.stats.existingLabels +
            (bulkInsertLabels st.current st.batch st.labelMap).1.existingCount = _
          rw [hexB]
      · refine ⟨?_, ?_⟩
        · show st.stats.newLabels +
            (bulkInsertLabels st.current st.batch st.labelMap).1.newCount = _
          rw [hnew0, Nat.add_zero]
        · show st.stats.existingLabels +
            (bulkInsertLabels st.current st.batch st.labelMap).1.existingCount = _
          rw [hexB]
    · refine ⟨?_, ?_⟩
      · show st.stats.newLabels +
          (bulkInsertLabels st.current st.batch st.labelMap).1.newCount = _
        rw [hnew0, Nat.add_zero]
      · show st.stats.existingLabels +
          (bulkInsertLabels st.current st.batch st.labelMap).1.existingCount = _
        rw [hexB]

theorem ingest_tags_ext (cfg : ImportConfig) (fid : Nat) (s : Store) (l : LabelData) :
    ∃ ts, (ingestLabel cfg fid s l).tags = s.tags ++ ts := by
  unfold ingestLabel
  dsimp only
  split
  · rw [addAssoc_tags]
    split
    · rw [addAssoc_tags, getOrCreate_tags]
      cases hlt : lookupTagId (insertLabel s l.label l.length).2
          (generateLengthTag l.length)
      · dsimp only
        exact ⟨[((insertLabel s l.label l.length).2.nextTagId,
          generateLengthTag l.length)], by
            rw [show (insertLabel s l.label l.length).2.tags = s.tags from
              insertOnly_tags s l]⟩
      · dsimp only
        exact ⟨[], by
          rw [show (insertLabel s l.label l.length).2.tags = s.tags from
            insertOnly_tags s l, List.append_nil]⟩
    · exact ⟨[], by
        rw [show (insertLabel s l.label l.length).2.tags = s.tags from
          insertOnly_tags s l, List.append_nil]⟩
  · split
    · rw [addAssoc_tags, getOrCreate_tags]
      cases hlt : lookupTagId (insertLabel s l.label l.length).2
          (generateLengthTag l.length)
      · dsimp only
        exact ⟨[((insertLabel s l.label l.length).2.nextTagId,
          generateLengthTag l.length)], by
            rw [show (insertLabel s l.label l.length).2.tags = s.tags from
              insertOnly_tags s l]⟩
      · dsimp only
        exact ⟨[], by
          rw [show (insertLabel s l.label l.length).2.tags = s.tags from
            insertOnly_tags s l, List.append_nil]⟩
    · exact ⟨[], by
        rw [show (insertLabel s l.label l.length).2.tags = s.tags from
          insertOnly_tags s l, List.append_nil]⟩

theorem ingestFold_tags_ext (cfg : ImportConfig) (fid : Nat) (acc : List LabelData) :
    ∀ s : Store, ∃ ts, (acc.foldl (ingestLabel cfg fid) s).tags = s.tags ++ ts := by
  induction acc with
  | nil => intro s; exact ⟨[], (List.append_nil _).symm⟩
  | cons l acc ih =>
    intro s
    simp only [List.foldl_cons]
    obtain ⟨ts1, h1⟩ := ingest_tags_ext cfg fid s l
    obtain ⟨ts2, h2⟩ := ih (ingestLabel cfg fid s l)
    exact ⟨ts1 ++ ts2, by rw [h2, h1, List.append_assoc]⟩

theorem lookup_ingestFold_stable (cfg : ImportConfig) (fid : Nat)
    (acc : List LabelData) (t : Store) (x : String) (id : Nat)
    (h : lookupLabelId t x = some id) :
    lookupLabelId (acc.foldl (ingestLabel cfg fid) t) x = some id := by
  rw [lookupLabelId_congr (ingestFold_labels cfg fid acc t).1 x]
  exact lookup_insertFold_stable acc t x id h

theorem ingestFold_contains (cfg : ImportConfig) (fid : Nat) (acc : List LabelData) :
    ∀ s : Store, ∀ l ∈ acc,
      (lookupLabelId (acc.foldl (ingestLabel cfg fid) s) l.label).isSome = true := by
  induction acc with
  | nil => intro s l hl; cases hl
  | cons lH accT ih =>
    intro s l hl
    simp only [List.foldl_cons]
    rcases List.mem_cons.mp hl with rfl | hl
    · have hself : lookupLabelId (ingestLabel cfg fid s l) l.label =
          some (insertLabel s l.label l.length).1 := by
        rw [lookupLabelId_congr (ingest_labels cfg fid s l) l.label]
        exact lookup_insertOnly_self s l
      rw [lookup_ingestFold_stable cfg fid accT _ _ _ hself]
      rfl
    · exact ih (ingestLabel cfg fid s lH) l hl

theorem lookupTagId_ext_isSome {s t : Store} (ts : List (Nat × String))
    (hext : t.tags = s.tags ++ ts) (n : String)
    (h : (lookupTagId s n).isSome = true) : (lookupTagId t n).isSome = true := by
  obtain ⟨id, hid⟩ := Option.isSome_iff_exists.mp h
  rw [lookupTagId_mono ts hext n id hid]
  rfl

/-- On a store that already has all the pre-created length tags, the
pre-creation fold touches only the tag cache. -/
theorem preTagFold_current_of_sat (L : List Nat) : ∀ st : ImportState,
    (∀ i ∈ L, (st.tagMap (generateLengthTag i)).isSome = true) →
    (L.foldl preTagStep st).current = st.current ∧
    (L.foldl preTagStep st).tagMap = st.tagMap := by
  induction L with
  | nil => intro st _; exact ⟨rfl, rfl⟩
  | cons i L ih =>
    intro st hall
    simp only [List.foldl_cons]
    obtain ⟨tid, htid⟩ := Option.isSome_iff_exists.mp
      (hall i (List.mem_cons_self i L))
    have hstep : preTagStep st i =
        { st with tagCache := updateFn st.tagCache (generateLengthTag i) tid } := by
      unfold preTagStep
      dsimp only
      rw [htid]
    rw [hstep]
    exact ih _ (fun j hj => hall j (List.mem_cons_of_mem i hj))

theorem fnameStep_current_of_sat (cfg : ImportConfig) (st : ImportState)
    (hsome : cfg.filenameTag ≠ "" → (st.tagMap cfg.filenameTag).isSome = true) :
    (fnameStep cfg st).current = st.current := by
  by_cases hf : cfg.filenameTag ≠ ""
  · obtain ⟨tid, htid⟩ := Option.isSome_iff_exists.mp (hsome hf)
    have hstep : fnameStep cfg st = { st with filenameTagID := tid } := by
      unfold fnameStep
      rw [if_pos hf, htid]
    rw [hstep]
  · have hstep : fnameStep cfg st = st := by
      unfold fnameStep
      rw [if_neg hf]
    rw [hstep]

/-- When the store already holds the length tags (if auto-tagging) and
the filename tag (if set), the setup phase leaves the store untouched. -/
theorem importInit_current_of_sat (cfg : ImportConfig) (s1 : Store)
    (hlen : cfg.autoTag = true → ∀ i ∈ (List.range 20).map (· + 1),
      (lookupTagId s1 (generateLengthTag i)).isSome = true)
    (hfn : cfg.filenameTag ≠ "" → (lookupTagId s1 cfg.filenameTag).isSome = true) :
    (importInit cfg s1).current = s1 := by
  have hinit : importInit cfg s1 = fnameStep cfg
      (if cfg.autoTag then
        ((List.range 20).map (· + 1)).foldl preTagStep
          ⟨s1, s1, fun x => lookupLabelId s1 x, fun n => lookupTagId s1 n, fun _ => none,
            0, [], 0, 0, 0, ⟨0, 0, 0, 0, false, []⟩⟩
       else
        ⟨s1, s1, fun x => lookupLabelId s1 x, fun n => lookupTagId s1 n, fun _ => none,
          0, [], 0, 0, 0, ⟨0, 0, 0, 0, false, []⟩⟩) := rfl
  rw [hinit]
  by_cases hat : cfg.autoTag = true
  · rw [if_pos hat]
    obtain ⟨hcur, htm⟩ := preTagFold_current_of_sat ((List.range 20).map (· + 1))
      ⟨s1, s1, fun x => lookupLabelId s1 x, fun n => lookupTagId s1 n, fun _ => none,
        0, [], 0, 0, 0, ⟨0, 0, 0, 0, false, []⟩⟩ (fun i hi => hlen hat i hi)
    rw [fnameStep_current_of_sat cfg _ (fun hf => by rw [htm]; exact hfn hf), hcur]
  · rw [if_neg hat]
    rw [fnameStep_current_of_sat cfg _ (fun hf => hfn hf)]

theorem addAssoc_mem_self (s : Store) (a b : Nat) :
    (a, b) ∈ (addAssoc s a b).labelTags := by
  rw [addAssoc_labelTags]
  split
  · assumption
  · exact List.mem_append.mpr (Or.inr (List.mem_singleton.mpr rfl))

theorem addAssoc_mem_mono (s : Store) (a b : Nat) (p : Nat × Nat)
    (h : p ∈ s.labelTags) : p ∈ (addAssoc s a b).labelTags := by
  rw [addAssoc_labelTags]
  split
  · exact h
  · exact List.mem_append.mpr (Or.inl h)

theorem ingest_labelTags_ext (cfg : ImportConfig) (fid : Nat) (s : Store)
    (l : LabelData) (p : Nat × Nat) (h : p ∈ s.labelTags) :
    p ∈ (ingestLabel cfg fid s l).labelTags := by
  have hins : p ∈ (insertLabel s l.label l.length).2.labelTags := by
    have heq : (insertLabel s l.label l.length).2.labelTags = s.labelTags :=
      insertOnly_labelTags s l
    rw [heq]
    exact h
  unfold ingestLabel
  dsimp only
  split
  · apply addAssoc_mem_mono
    split
    · apply addAssoc_mem_mono
      rw [getOrCreate_labelTags]
      exact hins
    · exact hins
  · split
    · apply addAssoc_mem_mono
      rw [getOrCreate_labelTags]
      exact hins
    · exact hins

theorem ingestFold_labelTags_mono (cfg : ImportConfig) (fid : Nat)
    (acc : List LabelData) : ∀ (s : Store) (p : Nat × Nat), p ∈ s.labelTags →
    p ∈ (acc.foldl (ingestLabel cfg fid) s).labelTags := by
  induction acc with
  | nil => intro s p h; exact h
  | cons l acc ih =>
    intro s p h
    simp only [List.foldl_cons]
    exact ih _ p (ingest_labelTags_ext cfg fid s l p h)

/-- When the label, its length tag and the needed associations are all
already present, one ingestion step is the identity. -/
theorem ingest_id_of_sat (cfg : ImportConfig) (fid : Nat) (S : Store) (l : LabelData)
    (lid : Nat) (hl : lookupLabelId S l.label = some lid)
    (hlen : cfg.autoTag = true → ∃ tid,
      lookupTagId S (generateLengthTag l.length) = some tid ∧ (lid, tid) ∈ S.labelTags)
    (hfn : cfg.filenameTag ≠ "" → (lid, fid) ∈ S.labelTags) :
    ingestLabel cfg fid S l = S := by
  unfold ingestLabel
  rw [insertLabel_found S l.label l.length lid hl]
  dsimp only
  by_cases hat : cfg.autoTag = true
  · obtain ⟨tid, htid, hmem⟩ := hlen hat
    rw [if_pos hat, getOrCreateTagTx_found S _ tid htid]
    dsimp only
    have haa : addAssoc S lid tid = S := by
      unfold addAssoc
      rw [if_pos hmem]
    rw [haa]
    by_cases hft : cfg.filenameTag ≠ ""
    · rw [if_pos hft]
      unfold addAssoc
      rw [if_pos (hfn hft)]
    · rw [if_neg hft]
  · rw [if_neg hat]
    by_cases hft : cfg.filenameTag ≠ ""
    · rw [if_pos hft]
      unfold addAssoc
      rw [if_pos (hfn hft)]
    · rw [if_neg hft]

/-- A fold of saturated ingestion steps is the identity. -/
theorem ingestFold_id_of_sat (cfg : ImportConfig) (fid : Nat) (acc : List LabelData) :
    ∀ S : Store,
    (∀ l ∈ acc, ∃ lid, lookupLabelId S l.label = some lid ∧
      (cfg.autoTag = true → ∃ tid,
        lookupTagId S (generateLengthTag l.length) = some tid ∧
        (lid, tid) ∈ S.labelTags) ∧
      (cfg.filenameTag ≠ "" → (lid, fid) ∈ S.labelTags)) →
    acc.foldl (ingestLabel cfg fid) S = S := by
  induction acc with
  | nil => intro S _; rfl
  | cons l acc ih =>
    intro S hall
    simp only [List.foldl_cons]
    obtain ⟨lid, h1, h2, h3⟩ := hall l (List.mem_cons_self l acc)
    rw [ingest_id_of_sat cfg fid S l lid h1 h2 h3]
    exact ih S (fun lB hlB => hall lB (List.mem_cons_of_mem l hlB))

/-- One ingestion step leaves behind the label id, its length-tag
association and its filename association. -/
theorem ingest_step_sat (cfg : ImportConfig) (fid : Nat) (s : Store) (l : LabelData) :
    ∃ lid, lookupLabelId (ingestLabel cfg fid s l) l.label = some lid ∧
      (cfg.autoTag = true → ∃ tid,
        lookupTagId (ingestLabel cfg fid s l) (generateLengthTag l.length) = some tid ∧
        (lid, tid) ∈ (ingestLabel cfg fid s l).labelTags) ∧
      (cfg.filenameTag ≠ "" → (lid, fid) ∈ (ingestLabel cfg fid s l).labelTags) := by
  refine ⟨(insertLabel s l.label l.length).1, ?_, ?_, ?_⟩
  · rw [lookupLabelId_congr (ingest_labels cfg fid s l) l.label]
    exact lookup_insertOnly_self s l
  · intro hat
    refine ⟨(getOrCreateTagTx (insertLabel s l.label l.length).2
      (generateLengthTag l.length)).1, ?_, ?_⟩
    · have htags : (ingestLabel cfg fid s l).tags =
          (getOrCreateTagTx (insertLabel s l.label l.length).2
            (generateLengthTag l.length)).2.tags := by
        unfold ingestLabel
        dsimp only
        rw [if_pos hat]
        split
        · rw [addAssoc_tags, addAssoc_tags]
        · rw [addAssoc_tags]
      rw [lookupTagId_congr htags, getOrCreate_lookup]
      rw [if_pos rfl]
    · have hmem : ((insertLabel s l.label l.length).1,
          (getOrCreateTagTx (insertLabel s l.label l.length).2
            (generateLengthTag l.length)).1) ∈
          (addAssoc (getOrCreateTagTx (insertLabel s l.label l.length).2
              (generateLengthTag l.length)).2
            (insertLabel s l.label l.length).1
            (getOrCreateTagTx (insertLabel s l.label l.length).2
              (generateLengthTag l.length)).1).labelTags :=
        addAssoc_mem_self _ _ _
      unfold ingestLabel
      dsimp only
      rw [if_pos hat]
      split
      · exact addAssoc_mem_mono _ _ _ _ hmem
      · exact hmem
  · intro hft
    unfold ingestLabel
    dsimp only
    rw [if_pos hft]
    exact addAssoc_mem_self _ _ _

/-- Every accepted label ends the run with its id, length-tag
association and filename association present in the final store. -/
theorem ingestFold_saturates (cfg : ImportConfig) (fid : Nat) (acc : List LabelData) :
    ∀ s : Store, ∀ l ∈ acc,
    ∃ lid, lookupLabelId (acc.foldl (ingestLabel cfg fid) s) l.label = some lid ∧
      (cfg.autoTag = true → ∃ tid,
        lookupTagId (acc.foldl (ingestLabel cfg fid) s)
          (generateLengthTag l.length) = some tid ∧
        (lid, tid) ∈ (acc.foldl (ingestLabel cfg fid) s).labelTags) ∧
      (cfg.filenameTag ≠ "" →
        (lid, fid) ∈ (acc.foldl (ingestLabel cfg fid) s).labelTags) := by
  induction acc with
  | nil => intro s l hl; cases hl
  | cons lH accT ih =>
    intro s l hl
    simp only [List.foldl_cons]
    rcases List.mem_cons.mp hl with rfl | hl
    · obtain ⟨lid, h1, h2, h3⟩ := ingest_step_sat cfg fid s l
      refine ⟨lid, ?_, ?_, ?_⟩
      · exact lookup_ingestFold_stable cfg fid accT _ _ _ h1
      · intro hat
        obtain ⟨tid, ht1, ht2⟩ := h2 hat
        obtain ⟨ts, hext⟩ := ingestFold_tags_ext cfg fid accT (ingestLabel cfg fid s l)
        exact ⟨tid, lookupTagId_mono ts hext _ tid ht1,
          ingestFold_labelTags_mono cfg fid accT _ _ ht2⟩
      · intro hft
        exact ingestFold_labelTags_mono cfg fid accT _ _ (h3 hft)
    · exact ih (ingestLabel cfg fid s lH) l hl

theorem preTagStep_tags_ext (st : ImportState) (i : Nat) :
    ∃ ts, (preTagStep st i).current.tags = st.current.tags ++ ts := by
  unfold preTagStep
  dsimp only
  split
  · exact ⟨[], (List.append_nil _).symm⟩
  · dsimp only
    rw [getOrCreate_tags]
    cases hlt : lookupTagId st.current (generateLengthTag i)
    · exact ⟨[(st.current.nextTagId, generateLengthTag i)], rfl⟩
    · exact ⟨[], (List.append_nil _).symm⟩

theorem preTagFold_tags_ext (L : List Nat) : ∀ st : ImportState,
    ∃ ts, (L.foldl preTagStep st).current.tags = st.current.tags ++ ts := by
  induction L with
  | nil => intro st; exact ⟨[], (List.append_nil _).symm⟩
  | cons i L ih =>
    intro st
    simp only [List.foldl_cons]
    obtain ⟨ts1, h1⟩ := preTagStep_tags_ext st i
    obtain ⟨ts2, h2⟩ := ih (preTagStep st i)
    exact ⟨ts1 ++ ts2, by rw [h2, h1, List.append_assoc]⟩

theorem preTagFold_present (L : List Nat) : ∀ st : ImportState,
    (∀ x, st.labelMap x = lookupLabelId st.current x) →
    (∀ n, st.tagMap n = lookupTagId st.current n) →
    (∀ n id, st.tagCache n = some id → st.tagMap n = some id) →
    ∀ i ∈ L, (lookupTagId (L.foldl preTagStep st).current
      (generateLengthTag i)).isSome = true := by
  induction L with
  | nil => intro st _ _ _ i hi; cases hi
  | cons j L ih =>
    intro st h1 h2 h3 i hi
    simp only [List.foldl_cons]
    obtain ⟨g1, g2, g3, _, _, _, _, _, _, _, _⟩ := preTagStep_inv st j h1 h2 h3
    rcases List.mem_cons.mp hi with rfl | hi
    · have hstep : (lookupTagId (preTagStep st i).current
          (generateLengthTag i)).isSome = true := by
        unfold preTagStep
        dsimp only
        cases hm : st.tagMap (generateLengthTag i) with
        | some tid =>
          dsimp only
          rw [h2] at hm
          rw [hm]
          rfl
        | none =>
          dsimp only
          rw [getOrCreate_lookup, if_pos rfl]
          rfl
      obtain ⟨ts, hext⟩ := preTagFold_tags_ext L (preTagStep st i)
      exact lookupTagId_ext_isSome ts hext _ hstep
    · exact ih (preTagStep st j) g1 g2 g3 i hi

theorem fnameStep_tags_ext (cfg : ImportConfig) (st : ImportState) :
    ∃ ts, (fnameStep cfg st).current.tags = st.current.tags ++ ts := by
  unfold fnameStep
  split
  · split
    · exact ⟨[], (List.append_nil _).symm⟩
    · dsimp only
      rw [getOrCreate_tags]
      cases hlt : lookupTagId st.current cfg.filenameTag
      · exact ⟨[(st.current.nextTagId, cfg.filenameTag)], rfl⟩
      · exact ⟨[], (List.append_nil _).symm⟩
  · exact ⟨[], (List.append_nil _).symm⟩

theorem fnameStep_present (cfg : ImportConfig) (st : ImportState)
    (h2 : ∀ n, st.tagMap n = lookupTagId st.current n)
    (hf : cfg.filenameTag ≠ "") :
    lookupTagId (fnameStep cfg st).current cfg.filenameTag =
      some (fnameStep cfg st).filenameTagID := by
  cases hm : st.tagMap cfg.filenameTag with
  | some tid =>
    have hstep : fnameStep cfg st = { st with filenameTagID := tid } := by
      unfold fnameStep
      rw [if_pos hf, hm]
    rw [hstep]
    show lookupTagId st.current cfg.filenameTag = some tid
    rw [← h2]
    exact hm
  | none =>
    have hstep : fnameStep cfg st =
        { st with
          current := (getOrCreateTagTx st.current cfg.filenameTag).2,
          filenameTagID := (getOrCreateTagTx st.current cfg.filenameTag).1,
          tagMap := updateFn st.tagMap cfg.filenameTag
            (getOrCreateTagTx st.current cfg.filenameTag).1 } := by
      unfold fnameStep
      rw [if_pos hf, hm]
    rw [hstep]
    show lookupTagId (getOrCreateTagTx st.current cfg.filenameTag).2
      cfg.filenameTag = _
    rw [getOrCreate_lookup, if_pos rfl]

/-- After setup, the pre-created length tags are present, and the
resolved filename-tag id is the id the store holds for the filename
tag. -/
theorem importInit_present (cfg : ImportConfig) (s0 : Store) :
    (cfg.autoTag = true → ∀ i ∈ (List.range 20).map (· + 1),
      (lookupTagId (importInit cfg s0).current (generateLengthTag i)).isSome = true) ∧
    (cfg.filenameTag ≠ "" →
      lookupTagId (importInit cfg s0).current cfg.filenameTag =
        some (importInit cfg s0).filenameTagID) := by
  have hinit : importInit cfg s0 = fnameStep cfg
      (if cfg.autoTag then
        ((List.range 20).map (· + 1)).foldl preTagStep
          ⟨s0, s0, fun x => lookupLabelId s0 x, fun n => lookupTagId s0 n, fun _ => none,
            0, [], 0, 0, 0, ⟨0, 0, 0, 0, false, []⟩⟩
       else
        ⟨s0, s0, fun x => lookupLabelId s0 x, fun n => lookupTagId s0 n, fun _ => none,
          0, [], 0, 0, 0, ⟨0, 0, 0, 0, false, []⟩⟩) := rfl
  have hbase1 : ∀ x,
      (⟨s0, s0, fun x => lookupLabelId s0 x, fun n => lookupTagId s0 n, fun _ => none,
        0, [], 0, 0, 0, ⟨0, 0, 0, 0, false, []⟩⟩ : ImportState).labelMap x =
        lookupLabelId (⟨s0, s0, fun x => lookupLabelId s0 x, fun n => lookupTagId s0 n,
          fun _ => none, 0, [], 0, 0, 0, ⟨0, 0, 0, 0, false, []⟩⟩ : ImportState).current
          x := fun _ => rfl
  have hbase2 : ∀ n,
      (⟨s0, s0, fun x => lookupLabelId s0 x, fun n => lookupTagId s0 n, fun _ => none,
        0, [], 0, 0, 0, ⟨0, 0, 0, 0, false, []⟩⟩ : ImportState).tagMap n =
        lookupTagId (⟨s0, s0, fun x => lookupLabelId s0 x, fun n => lookupTagId s0 n,
          fun _ => none, 0, [], 0, 0, 0, ⟨0, 0, 0, 0, false, []⟩⟩ : ImportState).current
          n := fun _ => rfl
  have hbase3 : ∀ n id,
      (⟨s0, s0, fun x => lookupLabelId s0 x, fun n => lookupTagId s0 n, fun _ => none,
        0, [], 0, 0, 0, ⟨0, 0, 0, 0, false, []⟩⟩ : ImportState).tagCache n = some id →
      (⟨s0, s0, fun x => lookupLabelId s0 x, fun n => lookupTagId s0 n, fun _ => none,
        0, [], 0, 0, 0, ⟨0, 0, 0, 0, false, []⟩⟩ : ImportState).tagMap n = some id :=
    fun _ _ h => by cases h
  rw [hinit]
  by_cases hat : cfg.autoTag = true
  · rw [if_pos hat]
    obtain ⟨k1, k2, k3, _, _, _, _, _⟩ :=
      preTagFold_inv ((List.range 20).map (· + 1)) _ hbase1 hbase2 hbase3
    constructor
    · intro _ i hi
      obtain ⟨ts, hext⟩ := fnameStep_tags_ext cfg
        (((List.range 20).map (· + 1)).foldl preTagStep
          ⟨s0, s0, fun x => lookupLabelId s0 x, fun n => lookupTagId s0 n, fun _ => none,
            0, [], 0, 0, 0, ⟨0, 0, 0, 0, false, []⟩⟩)
      exact lookupTagId_ext_isSome ts hext _
        (preTagFold_present ((List.range 20).map (· + 1)) _ hbase1 hbase2 hbase3 i hi)
    · intro hf
      exact fnameStep_present cfg _ k2 hf
  · rw [if_neg hat]
    constructor
    · intro hcon
      exact absurd hcon hat
    · intro hf
      exact fnameStep_present cfg _ hbase2 hf

/-- Running the canonical ingestion a second time over its own output
store changes nothing. -/
theorem canonStore_second_run (cfg : ImportConfig) (s0 : Store) (rows : List RawRow) :
    canonStore cfg (canonStore cfg s0 rows) rows = canonStore cfg s0 rows := by
  by_cases hacc : (classify cfg.aceOk rows).accepted.isEmpty = true
  · unfold canonStore
    rw [if_pos hacc]
  · have hS1 : canonStore cfg s0 rows =
        (classify cfg.aceOk rows).accepted.foldl
          (ingestLabel cfg (importInit cfg s0).filenameTagID)
          (importInit cfg s0).current := by
      unfold canonStore
      rw [if_neg hacc]
    have hrun2 : canonStore cfg (canonStore cfg s0 rows) rows =
        (classify cfg.aceOk rows).accepted.foldl
          (ingestLabel cfg (importInit cfg (canonStore cfg s0 rows)).filenameTagID)
          (importInit cfg (canonStore cfg s0 rows)).current := by
      unfold canonStore
      rw [if_neg hacc]
    obtain ⟨hp1, hp2⟩ := importInit_present cfg s0
    obtain ⟨ts, hext⟩ := ingestFold_tags_ext cfg (importInit cfg s0).filenameTagID
      (classify cfg.aceOk rows).accepted (importInit cfg s0).current
    have hextS1 : (canonStore cfg s0 rows).tags =
        (importInit cfg s0).current.tags ++ ts := by
      rw [hS1]
      exact hext
    have hlenS1 : cfg.autoTag = true → ∀ i ∈ (List.range 20).map (· + 1),
        (lookupTagId (canonStore cfg s0 rows) (generateLengthTag i)).isSome = true := by
      intro hat i hi
      exact lookupTagId_ext_isSome ts hextS1 _ (hp1 hat i hi)
    have hfnS1 : cfg.filenameTag ≠ "" →
        lookupTagId (canonStore cfg s0 rows) cfg.filenameTag =
          some (importInit cfg s0).filenameTagID := by
      intro hf
      exact lookupTagId_mono ts hextS1 _ _ (hp2 hf)
    have hcur2 : (importInit cfg (canonStore cfg s0 rows)).current =
        canonStore cfg s0 rows :=
      importInit_current_of_sat cfg _ hlenS1
        (fun hf => by rw [hfnS1 hf]; rfl)
    have hfid2 : cfg.filenameTag ≠ "" →
        (importInit cfg (canonStore cfg s0 rows)).filenameTagID =
          (importInit cfg s0).filenameTagID := by
      intro hf
      have := (importInit_present cfg (canonStore cfg s0 rows)).2 hf
      rw [hcur2, hfnS1 hf] at this
      exact (Option.some.inj this).symm
    rw [hrun2, hcur2]
    apply ingestFold_id_of_sat
    intro l hl
    obtain ⟨lid, h1, h2, h3⟩ := ingestFold_saturates cfg
      (importInit cfg s0).filenameTagID (classify cfg.aceOk rows).accepted
      (importInit cfg s0).current l hl
    refine ⟨lid, ?_, ?_, ?_⟩
    · rw [hS1]
      exact h1
    · intro hat
      obtain ⟨tid, ht1, ht2⟩ := h2 hat
      refine ⟨tid, ?_, ?_⟩
      · rw [hS1]
        exact ht1
      · rw [hS1]
        exact ht2
    · intro hf
      rw [hfid2 hf, hS1]
      exact h3 hf

theorem processBatch_imported (cfg : ImportConfig) (st : ImportState) :
    (processBatch cfg st).1.stats.imported = st.stats.imported + st.batch.length := by
  unfold processBatch
  split
  · rename_i h
    rw [List.isEmpty_iff.mp h]
    rfl
  · dsimp only
    split
    · split
      · rfl
      · rfl
    · rfl

theorem processBatchChecked_stats (cfg : ImportConfig) (stX : ImportState) :
    (processBatchChecked cfg stX).stats.newLabels =
      (processBatch cfg stX).1.stats.newLabels ∧
    (processBatchChecked cfg stX).stats.existingLabels =
      (processBatch cfg stX).1.stats.existingLabels ∧
    (processBatchChecked cfg stX).stats.imported =
      (processBatch cfg stX).1.stats.imported := by
  unfold processBatchChecked
  cases hpb : processBatch cfg stX with
  | mk a b =>
    cases b
    · exact ⟨rfl, rfl, rfl⟩
    · exact ⟨rfl, rfl, rfl⟩

theorem classifyRow_accepted_delta (aceOk : String → Bool) (c : RowClass)
    (row : RawRow) :
    ∃ d, (classifyRow aceOk c row).accepted = c.accepted ++ d := by
  cases row with
  | readError msg => exact ⟨[], (List.append_nil _).symm⟩
  | fields record =>
    cases record with
    | nil => exact ⟨[], (List.append_nil _).symm⟩
    | cons f rest =>
      by_cases hlab : toLowerStr (trimStr f) = ""
      · refine ⟨[], ?_⟩
        have : (classifyRow aceOk c (.fields (f :: rest))).accepted = c.accepted := by
          unfold classifyRow
          dsimp only
          rw [if_pos hlab]
        rw [this, List.append_nil]
      · by_cases hh : ¬ c.headerSkipped = true ∧
            isHeaderRow (toLowerStr (trimStr f)) = true
        · refine ⟨[], ?_⟩
          have : (classifyRow aceOk c (.fields (f :: rest))).accepted = c.accepted := by
            unfold classifyRow
            dsimp only
            rw [if_neg hlab, if_pos hh]
          rw [this, List.append_nil]
        · cases hval : validateLabel aceOk (toLowerStr (trimStr f)) with
          | some err =>
            refine ⟨[], ?_⟩
            have : (classifyRow aceOk c (.fields (f :: rest))).accepted =
                c.accepted := by
              unfold classifyRow
              dsimp only
              rw [if_neg hlab, if_neg hh, hval]
            rw [this, List.append_nil]
          | none =>
            refine ⟨[⟨toLowerStr (trimStr f), (toLowerStr (trimStr f)).length⟩], ?_⟩
            unfold classifyRow
            dsimp only
            rw [if_neg hlab, if_neg hh, hval]

theorem classifyFold_accepted_prefix (aceOk : String → Bool) (rows : List RawRow) :
    ∀ c : RowClass, ∃ t,
      (rows.foldl (classifyRow aceOk) c).accepted = c.accepted ++ t := by
  induction rows with
  | nil => intro c; exact ⟨[], (List.append_nil _).symm⟩
  | cons r rows ih =>
    intro c
    simp only [List.foldl_cons]
    obtain ⟨d, hd⟩ := classifyRow_accepted_delta aceOk c r
    obtain ⟨t, ht⟩ := ih (classifyRow aceOk c r)
    exact ⟨d ++ t, by rw [ht, hd, List.append_assoc]⟩

/-- One read-loop step either leaves the new/existing/imported counters
untouched, or is a flush of the batch extended by the accepted row. -/
theorem importRow_flush_or_stats (cfg : ImportConfig) (st : ImportState)
    (row : RawRow) :
    ((importRow cfg st row).stats.newLabels = st.stats.newLabels ∧
     (importRow cfg st row).stats.existingLabels = st.stats.existingLabels ∧
     (importRow cfg st row).stats.imported = st.stats.imported) ∨
    (∃ f rest, row = .fields (f :: rest) ∧
      validateLabel cfg.aceOk (toLowerStr (trimStr f)) = none ∧
      toLowerStr (trimStr f) ≠ "" ∧
      ¬ (¬ st.stats.headerSkipped = true ∧
        isHeaderRow (toLowerStr (trimStr f)) = true) ∧
      importRow cfg st row = processBatchChecked cfg
        { st with lineNum := st.lineNum + 1,
                  batch := st.batch ++ [⟨toLowerStr (trimStr f),
                    (toLowerStr (trimStr f)).length⟩] }) := by
  cases row with
  | readError msg => exact Or.inl ⟨rfl, rfl, rfl⟩
  | fields record =>
    cases record with
    | nil => exact Or.inl ⟨rfl, rfl, rfl⟩
    | cons f rest =>
      by_cases hlab : toLowerStr (trimStr f) = ""
      · refine Or.inl ?_
        have hIR : importRow cfg st (.fields (f :: rest)) =
            { st with lineNum := st.lineNum + 1,
                      stats := { st.stats with skipped := st.stats.skipped + 1 } } := by
          unfold importRow
          dsimp only
          rw [if_pos hlab]
        rw [hIR]
        exact ⟨rfl, rfl, rfl⟩
      · by_cases hh : ¬ st.stats.headerSkipped = true ∧
            isHeaderRow (toLowerStr (trimStr f)) = true
        · refine Or.inl ?_
          have hIR : importRow cfg st (.fields (f :: rest)) =
              { st with lineNum := st.lineNum + 1,
                        stats := { st.stats with
                                    headerSkipped := true,
                                    skipped := st.stats.skipped + 1 } } := by
            unfold importRow
            dsimp only
            rw [if_neg hlab, if_pos hh]
          rw [hIR]
          exact ⟨rfl, rfl, rfl⟩
        · cases hval : validateLabel cfg.aceOk (toLowerStr (trimStr f)) with
          | some err =>
            refine Or.inl ?_
            have hIR : importRow cfg st (.fields (f :: rest)) =
                { st with lineNum := st.lineNum + 1,
                          stats := { st.stats with
                            skipped := st.stats.skipped + 1,
                            errors := st.stats.errors ++
                              ["line " ++ toString (st.lineNum + 1) ++
                               ": skipped invalid label " ++ toLowerStr (trimStr f) ++
                               ": " ++ labelErrorMessage err] } } := by
              unfold importRow
              dsimp only
              rw [if_neg hlab, if_neg hh, hval]
            rw [hIR]
            exact ⟨rfl, rfl, rfl⟩
          | none =>
            by_cases hfl : cfg.batchSize ≤
                (st.batch ++ [(⟨toLowerStr (trimStr f),
                  (toLowerStr (trimStr f)).length⟩ : LabelData)]).length
            · refine Or.inr ⟨f, rest, rfl, hval, hlab, hh, ?_⟩
              unfold importRow
              dsimp only
              rw [if_neg hlab, if_neg hh, hval]
              dsimp only
              rw [if_pos hfl]
            · refine Or.inl ?_
              have hIR : importRow cfg st (.fields (f :: rest)) =
                  { st with lineNum := st.lineNum + 1,
                            batch := st.batch ++ [⟨toLowerStr (trimStr f),
                              (toLowerStr (trimStr f)).length⟩] } := by
                unfold importRow
                dsimp only
                rw [if_neg hlab, if_neg hh, hval]
                dsimp only
                rw [if_neg hfl]
              rw [hIR]
              exact ⟨rfl, rfl, rfl⟩

/-- On a saturated input, one read-loop step keeps the new-label counter
at zero and the existing counter equal to the imported counter. -/
theorem importRow_satStats (cfg : ImportConfig) (s0 sInit : Store) (fid0 : Nat)
    (st : ImportState) (c : RowClass) (flushed : List LabelData) (row : RawRow)
    (hinv : LoopInv cfg s0 sInit fid0 st c flushed)
    (hsat : ∀ l ∈ (classifyRow cfg.aceOk c row).accepted,
      (lookupLabelId sInit l.label).isSome = true)
    (hG1 : st.stats.newLabels = 0)
    (hG2 : st.stats.existingLabels = st.stats.imported) :
    (importRow cfg st row).stats.newLabels = 0 ∧
    (importRow cfg st row).stats.existingLabels =
      (importRow cfg st row).stats.imported := by
  obtain ⟨h1, h2, h3, h4, h5, h6, h7, h8, h9, h10, h11, h12, h13, h14⟩ := hinv
  rcases importRow_flush_or_stats cfg st row with ⟨e1, e2, e3⟩ |
    ⟨f, rest, hrow, hval, hlab, hh, hEq⟩
  · constructor
    · rw [e1]
      exact hG1
    · rw [e2, e3]
      exact hG2
  · have hCR : (classifyRow cfg.aceOk c row).accepted =
        c.accepted ++ [⟨toLowerStr (trimStr f), (toLowerStr (trimStr f)).length⟩] := by
      rw [hrow]
      unfold classifyRow
      dsimp only
      rw [if_neg hlab, if_neg (fun hc => hh ⟨by rw [h10]; exact hc.1, hc.2⟩), hval]
    have hsatCur : ∀ l ∈ st.batch ++ [(⟨toLowerStr (trimStr f),
        (toLowerStr (trimStr f)).length⟩ : LabelData)],
        ((st.labelMap l.label).isSome = true) := by
      intro l hl
      have hmemA : l ∈ (classifyRow cfg.aceOk c row).accepted := by
        rw [hCR]
        rcases List.mem_append.mp hl with hl | hl
        · refine List.mem_append.mpr (Or.inl ?_)
          rw [h5]
          exact List.mem_append.mpr (Or.inr hl)
        · exact List.mem_append.mpr (Or.inr hl)
      have hsInit := hsat l hmemA
      obtain ⟨id, hid⟩ := Option.isSome_iff_exists.mp hsInit
      have hcur : lookupLabelId st.current l.label = some id := by
        rw [h6]
        exact lookup_ingestFold_stable cfg fid0 flushed sInit l.label id hid
      rw [h1, hcur]
      rfl
    obtain ⟨p1, p2⟩ := processBatch_satStats cfg
      { st with lineNum := st.lineNum + 1,
                batch := st.batch ++ [⟨toLowerStr (trimStr f),
                  (toLowerStr (trimStr f)).length⟩] }
      (fun x => h1 x) (fun l hl => hsatCur l hl)
    obtain ⟨q1, q2, q3⟩ := processBatchChecked_stats cfg
      { st with lineNum := st.lineNum + 1,
                batch := st.batch ++ [⟨toLowerStr (trimStr f),
                  (toLowerStr (trimStr f)).length⟩] }
    have himp := processBatch_imported cfg
      { st with lineNum := st.lineNum + 1,
                batch := st.batch ++ [⟨toLowerStr (trimStr f),
                  (toLowerStr (trimStr f)).length⟩] }
    rw [hEq]
    constructor
    · rw [q1, p1]
      exact hG1
    · rw [q2, q3, p2, himp]
      show st.stats.existingLabels + _ = st.stats.imported + _
      rw [hG2]

/-- On a saturated input, the whole read loop keeps the counters in the
second-run shape. -/
theorem importLoop_satStats (cfg : ImportConfig) (s0 sInit : Store) (fid0 : Nat)
    (hok : ∀ i, cfg.commitOk i = true) (hbs : 1 ≤ cfg.batchSize)
    (rows : List RawRow) :
    ∀ (st : ImportState) (c : RowClass) (flushed : List LabelData),
      LoopInv cfg s0 sInit fid0 st c flushed →
      (∀ l ∈ (rows.foldl (classifyRow cfg.aceOk) c).accepted,
        (lookupLabelId sInit l.label).isSome = true) →
      st.stats.newLabels = 0 → st.stats.existingLabels = st.stats.imported →
      (importLoop cfg st rows).stats.newLabels = 0 ∧
      (importLoop cfg st rows).stats.existingLabels =
        (importLoop cfg st rows).stats.imported := by
  induction rows with
  | nil =>
    intro st c flushed _ _ hG1 hG2
    exact ⟨hG1, hG2⟩
  | cons r rows ih =>
    intro st c flushed hinv hsat hG1 hG2
    have hsatR : ∀ l ∈ (classifyRow cfg.aceOk c r).accepted,
        (lookupLabelId sInit l.label).isSome = true := by
      intro l hl
      obtain ⟨t, ht⟩ := classifyFold_accepted_prefix cfg.aceOk rows
        (classifyRow cfg.aceOk c r)
      refine hsat l ?_
      simp only [List.foldl_cons]
      rw [ht]
      exact List.mem_append.mpr (Or.inl hl)
    obtain ⟨hGn, hGe⟩ := importRow_satStats cfg s0 sInit fid0 st c flushed r hinv
      hsatR hG1 hG2
    obtain ⟨flushed1, hinv1⟩ := importRow_inv cfg s0 sInit fid0 hok hbs st c flushed
      r hinv
    have hsat1 : ∀ l ∈ (rows.foldl (classifyRow cfg.aceOk)
        (classifyRow cfg.aceOk c r)).accepted,
        (lookupLabelId sInit l.label).isSome = true := by
      intro l hl
      refine hsat l ?_
      simp only [List.foldl_cons]
      exact hl
    unfold importLoop
    simp only [List.foldl_cons]
    exact ih (importRow cfg st r) (classifyRow cfg.aceOk c r) flushed1 hinv1
      hsat1 hGn hGe

/-- A run over a store that already contains every accepted label
reports no new labels and counts every imported row as existing. -/
theorem importCSV_satStats (cfg : ImportConfig) (s1 : Store) (rows : List RawRow)
    (hok : ∀ i, cfg.commitOk i = true) (hbs : 1 ≤ cfg.batchSize)
    (hsat : ∀ l ∈ (classify cfg.aceOk rows).accepted,
      (lookupLabelId s1 l.label).isSome = true) :
    ∀ stats, (importCSV cfg s1 rows).2 = .ok stats →
      stats.newLabels = 0 ∧ stats.existingLabels = stats.imported := by
  have hsatInit : ∀ l ∈ (classify cfg.aceOk rows).accepted,
      (lookupLabelId (importInit cfg s1).current l.label).isSome = true := by
    intro l hl
    rw [lookupLabelId_congr (importInit_labels cfg s1) l.label]
    exact hsat l hl
  obtain ⟨flushedL, L1, L2, L3, L4, L5, L6, L7, L8, L9, L10, L11, L12, L13, L14⟩ :=
    importLoop_inv cfg s1 (importInit cfg s1).current (importInit cfg s1).filenameTagID
      hok hbs rows (importInit cfg s1) ⟨[], 0, false, [], 0⟩ []
      (importInit_loopInv cfg s1 hbs)
  obtain ⟨i1, i2, i3, i4, i5, i6, i7, i8⟩ := importInit_spec cfg s1
  obtain ⟨hGn, hGe⟩ := importLoop_satStats cfg s1 (importInit cfg s1).current
    (importInit cfg s1).filenameTagID hok hbs rows (importInit cfg s1)
    ⟨[], 0, false, [], 0⟩ [] (importInit_loopInv cfg s1 hbs)
    (fun l hl => hsatInit l hl)
    (by rw [i8]) (by rw [i8])
  have hsatB : ∀ l ∈ (importLoop cfg (importInit cfg s1) rows).batch,
      (((importLoop cfg (importInit cfg s1) rows).labelMap l.label).isSome = true) := by
    intro l hl
    have hmemA : l ∈ (classify cfg.aceOk rows).accepted := by
      show l ∈ (rows.foldl (classifyRow cfg.aceOk) ⟨[], 0, false, [], 0⟩).accepted
      rw [L5]
      exact List.mem_append.mpr (Or.inr hl)
    obtain ⟨id, hid⟩ := Option.isSome_iff_exists.mp (hsatInit l hmemA)
    have hcur : lookupLabelId (importLoop cfg (importInit cfg s1) rows).current
        l.label = some id := by
      rw [L6]
      exact lookup_ingestFold_stable cfg (importInit cfg s1).filenameTagID flushedL
        (importInit cfg s1).current l.label id hid
    rw [L1, hcur]
    rfl
  obtain ⟨p1, p2⟩ := processBatch_satStats cfg
    (importLoop cfg (importInit cfg s1) rows) L1 hsatB
  obtain ⟨q1, q2, q3⟩ := processBatchChecked_stats cfg
    (importLoop cfg (importInit cfg s1) rows)
  have himp := processBatch_imported cfg (importLoop cfg (importInit cfg s1) rows)
  have hGE : (processBatchChecked cfg
        (importLoop cfg (importInit cfg s1) rows)).stats.newLabels = 0 ∧
      (processBatchChecked cfg
        (importLoop cfg (importInit cfg s1) rows)).stats.existingLabels =
      (processBatchChecked cfg
        (importLoop cfg (importInit cfg s1) rows)).stats.imported := by
    constructor
    · rw [q1, p1]
      exact hGn
    · rw [q2, q3, p2, himp, hGe]
  intro stats h
  unfold importCSV at h
  dsimp only at h
  split at h
  · split at h
    · have : stats = (processBatchChecked cfg
          (importLoop cfg (importInit cfg s1) rows)).stats := (Except.ok.inj h).symm
      rw [this]
      exact hGE
    · cases h
  · have : stats = (processBatchChecked cfg
        (importLoop cfg (importInit cfg s1) rows)).stats := (Except.ok.inj h).symm
    rw [this]
    exact hGE

/-- **C3** (confirmed).  Running the ingestion a second time over its own
output store (commits succeeding, positive batch size) succeeds, reports
newCount 0 and existingCount equal to the number of accepted rows
(which also equals the imported count), and returns the identical store:
no new label rows, no new tag rows and the same label–tag
associations. -/
theorem claim3_second_run_idempotent (cfg : ImportConfig) (s0 : Store)
    (rows : List RawRow) (hok : ∀ i, cfg.commitOk i = true)
    (hbs : 1 ≤ cfg.batchSize) :
    ∃ st2 : ImportStats,
      importCSV cfg (importCSV cfg s0 rows).1 rows =
        ((importCSV cfg s0 rows).1, .ok st2) ∧
      st2.newLabels = 0 ∧
      st2.imported = (classify cfg.aceOk rows).accepted.length ∧
      st2.existingLabels = (classify cfg.aceOk rows).accepted.length := by
  obtain ⟨n1, e1, hrun1⟩ := importCSV_canon cfg s0 rows hok hbs
  obtain ⟨n2, e2, hrun2⟩ := importCSV_canon cfg (importCSV cfg s0 rows).1 rows hok hbs
  have hS1 : (importCSV cfg s0 rows).1 = canonStore cfg s0 rows := by
    rw [hrun1]
  have hsatS1 : ∀ l ∈ (classify cfg.aceOk rows).accepted,
      (lookupLabelId (importCSV cfg s0 rows).1 l.label).isSome = true := by
    intro l hl
    rw [hS1]
    have hne : (classify cfg.aceOk rows).accepted.isEmpty = false := by
      cases hA : (classify cfg.aceOk rows).accepted with
      | nil => rw [hA] at hl; cases hl
      | cons a t => rfl
    have hfold : canonStore cfg s0 rows =
        (classify cfg.aceOk rows).accepted.foldl
          (ingestLabel cfg (importInit cfg s0).filenameTagID)
          (importInit cfg s0).current := by
      unfold canonStore
      rw [if_neg (by rw [hne]; exact Bool.false_ne_true)]
    rw [hfold]
    exact ingestFold_contains cfg _ _ _ l hl
  have hG := importCSV_satStats cfg (importCSV cfg s0 rows).1 rows hok hbs hsatS1
  have hstore2 : canonStore cfg (importCSV cfg s0 rows).1 rows =
      (importCSV cfg s0 rows).1 := by
    rw [hS1]
    exact canonStore_second_run cfg s0 rows
  refine ⟨⟨(classify cfg.aceOk rows).accepted.length, n2, e2,
    (classify cfg.aceOk rows).skipped, (classify cfg.aceOk rows).headerSkipped,
    (classify cfg.aceOk rows).errors⟩, ?_, ?_, rfl, ?_⟩
  · rw [hrun2, hstore2]
  · exact (hG _ (by rw [hrun2])).1
  · exact (hG _ (by rw [hrun2])).2

/-- Witness for C3: a three-row input (with a duplicate) ingested twice;
the second run creates nothing and counts all three rows existing. -/
theorem claim3_witness :
    (∀ i, (⟨fun _ => true, fun _ => true, 2, true, ""⟩ : ImportConfig).commitOk i =
      true) ∧
    (1 ≤ (⟨fun _ => true, fun _ => true, 2, true, ""⟩ : ImportConfig).batchSize) ∧
    (∃ st2 : ImportStats,
      importCSV ⟨fun _ => true, fun _ => true, 2, true, ""⟩
          (importCSV ⟨fun _ => true, fun _ => true, 2, true, ""⟩ Store.empty
            [.fields ["apple"], .fields ["pear"], .fields ["apple"]]).1
          [.fields ["apple"], .fields ["pear"], .fields ["apple"]] =
        ((importCSV ⟨fun _ => true, fun _ => true, 2, true, ""⟩ Store.empty
          [.fields ["apple"], .fields ["pear"], .fields ["apple"]]).1, .ok st2) ∧
      st2.newLabels = 0 ∧
      st2.imported = (classify (⟨fun _ => true, fun _ => true, 2, true, ""⟩ :
        ImportConfig).aceOk
        [.fields ["apple"], .fields ["pear"], .fields ["apple"]]).accepted.length ∧
      st2.existingLabels = (classify (⟨fun _ => true, fun _ => true, 2, true, ""⟩ :
        ImportConfig).aceOk
        [.fields ["apple"], .fields ["pear"], .fields ["apple"]]).accepted.length) :=
  ⟨fun _ => rfl, by decide,
   claim3_second_run_idempotent ⟨fun _ => true, fun _ => true, 2, true, ""⟩
     Store.empty [.fields ["apple"], .fields ["pear"], .fields ["apple"]]
     (fun _ => rfl) (by decide)⟩

end PremiumListMaker

